import Mathlib

/-!
# Gluon IMAP server: parser and session reader

A shallow embedding of `rfcparser/parser.go`, `imap/command/parser.go` and the
command reader of `internal/session/command.go`, followed by theorems about
literal parsing, tag handling and command dispatch.

Conventions of the embedding:
* a byte is a `Nat`, a Go `string` or `[]byte` is a `List Nat`;
* a Go `int` is an `Int` kept in the signed 64-bit range by `wrap64`;
* a method with receiver `*Parser` takes the parser state and returns the new
  state next to its result;
* an unbounded `for` loop takes a `fuel` argument and answers `none` when the
  fuel runs out before the loop exits.
-/

deriving instance DecidableEq for Except

namespace rfcparser

/-! ## Tokens and errors -/

/-- Token types named by the tokenizer (`TokenTypeEOF`, `TokenTypeSP`, ...). -/
inductive TokenType where
  | EOF | Error | SP | DQuote | LParen | RParen | Plus | LBracket | RBracket
  | LCurly | RCurly | Backslash | Digit | Char | CR | LF | CTL | Tab
  deriving DecidableEq, Repr

/-- The `Token` struct: token type, raw byte value and byte offset. -/
structure Token where
  TType : TokenType
  Value : Nat
  Offset : Nat
  deriving DecidableEq, Repr

/-- Go error values met in the parser: `parser` is `*rfcparser.Error`, `plain`
is an error made by `fmt.Errorf` without `%w` (or any other foreign error),
`wrap` is `fmt.Errorf` with `%w` around an inner error. -/
inductive Err where
  | parser (Token : Token) (Message : String)
  | plain (Message : String)
  | wrap (Message : String) (inner : Err)
  deriving DecidableEq, Repr

/-- `IsError`: `errors.As(err, &perr)` with `perr *Error`, which walks the
`%w` chain. -/
def IsError : Err → Bool
  | .parser _ _ => true
  | .plain _ => false
  | .wrap _ e => IsError e

/-- The parser error found by `errors.As`, when there is one. -/
def Err.asParserError : Err → Option (Token × String)
  | .parser t m => some (t, m)
  | .plain _ => none
  | .wrap _ e => e.asParserError

/-- `(*Error).IsEOF`. -/
def Err.IsEOF (t : Token × String) : Bool := t.1.TType = TokenType.EOF

/-- Two's complement wrap of an integer into the signed 64-bit range of `int`. -/
def wrap64 (x : Int) : Int :=
  (x + 9223372036854775808) % 18446744073709551616 - 9223372036854775808

/-- `ByteToInt`: `int(b) - int(byte('0'))`. -/
def ByteToInt (b : Nat) : Int := (b : Int) - 48

/-- Modelled from the spec: `ByteToLower` is not among the sources; ASCII
upper-case letters are mapped to lower case, other bytes are unchanged. -/
def ByteToLower (b : Nat) : Nat := if 65 ≤ b ∧ b ≤ 90 then b + 32 else b

/-- `DefaultContinuationMessage`. -/
def DefaultContinuationMessage : String := "Ready"

/-! ## Scanner -/

/-- Modelled from the spec: the byte-level tokenizer classifies each byte into
one of the token types `DQUOTE`, `LCURLY`, `RCURLY`, `LPAREN`, `RPAREN`,
`LBRACKET`, `RBRACKET`, `SP`, `CR`, `LF`, `TAB`, `DIGIT`, `CHAR`, `PLUS`,
`BACKSLASH`, `CTL`. -/
def classify (b : Nat) : TokenType :=
  if b = 0x22 then .DQuote
  else if b = 0x7b then .LCurly
  else if b = 0x7d then .RCurly
  else if b = 0x28 then .LParen
  else if b = 0x29 then .RParen
  else if b = 0x5b then .LBracket
  else if b = 0x5d then .RBracket
  else if b = 0x20 then .SP
  else if b = 0x0d then .CR
  else if b = 0x0a then .LF
  else if b = 0x09 then .Tab
  else if 0x30 ≤ b ∧ b ≤ 0x39 then .Digit
  else if b = 0x2b then .Plus
  else if b = 0x5c then .Backslash
  else if b < 0x20 ∨ b = 0x7f then .CTL
  else .Char

/-- Modelled from the spec: the `Scanner` over a byte source. `source` holds the
bytes not read yet, `currentOffset` counts the bytes read, and `lookahead` is
the byte of the token that `ScanToken` gave out last: the parser holds that
token as its current token, ahead of what it has consumed. -/
structure Scanner where
  source : List Nat
  currentOffset : Nat
  lookahead : Option Nat
  deriving DecidableEq, Repr

/-- Modelled from the spec: `NewScanner`. -/
def NewScanner (input : List Nat) : Scanner :=
  { source := input, currentOffset := 0, lookahead := none }

/-- Modelled from the spec: `Scanner.ScanToken` reads one byte and returns its
token with the raw value and the byte offset; at the end of the input it
returns an `EOF` token. -/
def Scanner.ScanToken (s : Scanner) : Except Err Token × Scanner :=
  match s.source with
  | [] => (.ok { TType := .EOF, Value := 0, Offset := s.currentOffset },
           { s with lookahead := none })
  | b :: rest =>
    (.ok { TType := classify b, Value := b, Offset := s.currentOffset },
     { source := rest, currentOffset := s.currentOffset + 1, lookahead := some b })

/-- The bytes of the source that no call has consumed: the byte behind the
lookahead token, if there is one, and the bytes not read yet. -/
def Scanner.pending (s : Scanner) : List Nat :=
  match s.lookahead with
  | some b => b :: s.source
  | none => s.source

/-- Modelled from the spec: `Scanner.ConsumeBytes` fills a buffer of `n` bytes
directly from the byte source, bypassing the tokenizer: the literal of `{N}`
CR LF is the exact `N` bytes that follow the LF. The first of them is the byte
behind the lookahead token, which the tokenizer read when the parser consumed
the LF, so the read starts there. It fails when the source ends before the
buffer is full. -/
def Scanner.ConsumeBytes (s : Scanner) (n : Nat) : Except Err (List Nat) × Scanner :=
  let start := s.currentOffset - (if s.lookahead.isSome then 1 else 0)
  if n ≤ s.pending.length then
    (.ok (s.pending.take n),
     { source := s.pending.drop n, currentOffset := start + n, lookahead := none })
  else
    (.error (.plain "unexpected EOF"),
     { source := [], currentOffset := start + s.pending.length, lookahead := none })

/-- Modelled from the spec: `Scanner.ResetOffsetCounter`. -/
def Scanner.ResetOffsetCounter (s : Scanner) : Scanner := { s with currentOffset := 0 }

/-! ## Parser primitives (`rfcparser/parser.go`) -/

/-- Observable effects of a parser run, in order: tokens taken from the
scanner, calls of the literal continuation callback, and direct byte reads. -/
inductive Event where
  | scan (t : Token)
  | continuation (message : String)
  | consumeBytes (bytes : List Nat)
  deriving DecidableEq, Repr

/-- The `Parser` struct. `trace` is a ghost field that records the calls made
on the scanner and on the continuation callback. -/
structure Parser where
  scanner : Scanner
  literalContinuationCb : Option (String → Option Err)
  previousToken : Token
  currentToken : Token
  trace : List Event

/-- `NewParserWithLiteralContinuationCb`. -/
def NewParserWithLiteralContinuationCb (s : Scanner) (f : Option (String → Option Err)) :
    Parser :=
  { scanner := s, literalContinuationCb := f,
    previousToken := { TType := .EOF, Value := 0, Offset := 0 },
    currentToken := { TType := .EOF, Value := 0, Offset := 0 },
    trace := [] }

/-- `Parser.Check`. -/
def Parser.Check (p : Parser) (tokenType : TokenType) : Bool :=
  p.currentToken.TType = tokenType

/-- `Parser.CheckWith`. -/
def Parser.CheckWith (p : Parser) (f : TokenType → Bool) : Bool :=
  f p.currentToken.TType

/-- `Parser.MakeError`: the error carries the previous token. -/
def Parser.MakeError (p : Parser) (err : String) : Err :=
  .parser p.previousToken err

/-- `Parser.Advance`. -/
def Parser.Advance (p : Parser) : Except Err Unit × Parser :=
  let p1 : Parser := { p with previousToken := p.currentToken }
  match p1.scanner.ScanToken with
  | (.error e, s) => (.error e, { p1 with scanner := s })
  | (.ok nextToken, s) =>
    (.ok (), { p1 with scanner := s, currentToken := nextToken,
                       trace := p1.trace ++ [.scan nextToken] })

/-- `Parser.ConsumeWith`. -/
def Parser.ConsumeWith (p : Parser) (f : TokenType → Bool) (message : String) :
    Except Err Unit × Parser :=
  if f p.currentToken.TType then p.Advance else (.error (p.MakeError message), p)

/-- `Parser.Consume`. -/
def Parser.Consume (p : Parser) (tokenType : TokenType) (message : String) :
    Except Err Unit × Parser :=
  p.ConsumeWith (fun token => token = tokenType) message

/-- `Parser.ConsumeNewLine`. -/
def Parser.ConsumeNewLine (p : Parser) : Except Err Unit × Parser :=
  match p.Consume .CR "expected CR" with
  | (.error e, p1) => (.error e, p1)
  | (.ok (), p1) => p1.Consume .LF "expected LF after CR"

/-- `Parser.MatchesWith`. -/
def Parser.MatchesWith (p : Parser) (f : TokenType → Bool) : Except Err Bool × Parser :=
  if !p.CheckWith f then (.ok false, p)
  else
    match p.Advance with
    | (.error e, p1) => (.error e, p1)
    | (.ok (), p1) => (.ok true, p1)

/-- `Parser.Matches`. -/
def Parser.Matches (p : Parser) (tokenType : TokenType) : Except Err Bool × Parser :=
  if !p.Check tokenType then (.ok false, p)
  else
    match p.Advance with
    | (.error e, p1) => (.error e, p1)
    | (.ok (), p1) => (.ok true, p1)

/-- `IsQuotedSpecial`. -/
def IsQuotedSpecial (tokenType : TokenType) : Bool :=
  tokenType = .DQuote || tokenType = .Backslash

/-- `IsRespSpecial`. -/
def IsRespSpecial (tokenType : TokenType) : Bool := tokenType = .RBracket

/-- `IsCTL`. -/
def IsCTL (tokenType : TokenType) : Bool :=
  tokenType = .CTL || tokenType = .CR || tokenType = .LF || tokenType = .Tab

/-- `IsAtomChar`. -/
def IsAtomChar (tokenType : TokenType) : Bool :=
  match tokenType with
  | .LParen => false
  | .RParen => false
  | .LBracket => false
  | .EOF => false
  | .SP => false
  | _ => !IsQuotedSpecial tokenType && !IsRespSpecial tokenType && !IsCTL tokenType

/-- `IsAStringChar`. -/
def IsAStringChar (tokenType : TokenType) : Bool :=
  IsAtomChar tokenType || IsRespSpecial tokenType

/-- Loop of `Parser.ParseNumber`: multiply by ten and add the digit while the
current token is a digit. -/
def Parser.ParseNumber.loop : Nat → Int → Parser → Option (Except Err Int × Parser)
  | 0, _, _ => none
  | fuel + 1, number, p =>
    match p.Matches .Digit with
    | (.error e, p1) => some (.error e, p1)
    | (.ok true, p1) =>
      Parser.ParseNumber.loop fuel
        (wrap64 (wrap64 (number * 10) + ByteToInt p1.previousToken.Value)) p1
    | (.ok false, p1) => some (.ok number, p1)

/-- `Parser.ParseNumber`. -/
def Parser.ParseNumber (fuel : Nat) (p : Parser) : Option (Except Err Int × Parser) :=
  match p.Consume .Digit "expected valid digit for number" with
  | (.error e, p1) => some (.error e, p1)
  | (.ok (), p1) => Parser.ParseNumber.loop fuel (ByteToInt p1.previousToken.Value) p1

/-- The continuation step of `ParseLiteral`: when the current token is `LF` and
a callback is configured, call it with the default message. -/
def Parser.callContinuation (p : Parser) (message : String) : Except Err Unit × Parser :=
  if p.Check .LF then
    match p.literalContinuationCb with
    | some cb =>
      let p1 : Parser := { p with trace := p.trace ++ [Event.continuation message] }
      match cb message with
      | some e => (.error (.wrap "error occurred during literal continuation callback:" e), p1)
      | none => (.ok (), p1)
    | none => (.ok (), p)
  else (.ok (), p)

/-- `Parser.ParseLiteral`. -/
def Parser.ParseLiteral (fuel : Nat) (p : Parser) : Option (Except Err (List Nat) × Parser) :=
  match p.Consume .LCurly "expected '\x7b' for literal start" with
  | (.error e, p1) => some (.error e, p1)
  | (.ok (), p1) =>
  match p1.ParseNumber fuel with
  | none => none
  | some (.error e, p2) => some (.error e, p2)
  | some (.ok literalSize, p2) =>
  if literalSize ≤ 0 then some (.error (.plain "invalid literal size"), p2)
  else if literalSize ≥ 30 * 1024 * 1024 then
    some (.error (.plain "literal size exceeds maximum size of 30MB"), p2)
  else
  match p2.Consume .RCurly "expected '\x7d' for literal end" with
  | (.error e, p3) => some (.error e, p3)
  | (.ok (), p3) =>
  match p3.Consume .CR "expected CR" with
  | (.error e, p4) => some (.error e, p4)
  | (.ok (), p4) =>
  match p4.callContinuation DefaultContinuationMessage with
  | (.error e, p5) => some (.error e, p5)
  | (.ok (), p5) =>
  match p5.Consume .LF "expected LF after CR" with
  | (.error e, p6) => some (.error e, p6)
  | (.ok (), p6) =>
  match p6.scanner.ConsumeBytes literalSize.toNat with
  | (.error e, s) =>
    some (.error e, { p6 with scanner := s,
                              trace := p6.trace ++ [Event.consumeBytes p6.scanner.pending] })
  | (.ok literal, s) =>
  let p7 : Parser := { p6 with scanner := s, trace := p6.trace ++ [.consumeBytes literal] }
  match p7.Advance with
  | (.error e, p8) => some (.error e, p8)
  | (.ok (), p8) => some (.ok literal, p8)

/-- `Parser.ResetOffsetCounter`. -/
def Parser.ResetOffsetCounter (p : Parser) : Parser :=
  { p with scanner := p.scanner.ResetOffsetCounter }

/-- `Parser.PreviousToken`. -/
def Parser.PreviousToken (p : Parser) : Token := p.previousToken

/-- Loop of `Parser.CollectBytesWhileMatchesWithPrevWith`. -/
def Parser.CollectBytesWhileMatchesWithPrevWith.loop (f : TokenType → Bool) :
    Nat → List Nat → Parser → Option (Except Err (List Nat) × Parser)
  | 0, _, _ => none
  | fuel + 1, value, p =>
    match p.MatchesWith f with
    | (.error e, p1) => some (.error e, p1)
    | (.ok true, p1) =>
      Parser.CollectBytesWhileMatchesWithPrevWith.loop f fuel
        (value ++ [p1.previousToken.Value]) p1
    | (.ok false, p1) => some (.ok value, p1)

/-- `Parser.CollectBytesWhileMatchesWithPrevWith`: the collected bytes start
with the value of the previous token. The `Offset` of the returned `Bytes` is
the second component of the result. -/
def Parser.CollectBytesWhileMatchesWithPrevWith (fuel : Nat) (p : Parser)
    (f : TokenType → Bool) : Option (Except Err (List Nat × Nat) × Parser) :=
  let value := [p.previousToken.Value]
  let startOffset := p.previousToken.Offset
  match Parser.CollectBytesWhileMatchesWithPrevWith.loop f fuel value p with
  | none => none
  | some (.error e, p1) => some (.error e, p1)
  | some (.ok v, p1) => some (.ok (v, startOffset), p1)

/-- The parser with its continuation callback replaced by `cb`. -/
def Parser.withCallback (p : Parser) (cb : Option (String → Option Err)) : Parser :=
  { p with literalContinuationCb := cb }

/-- Two errors that are the same failure: the same kind of error with the same
message, and for a parser error a token of the same type at the same offset
(the raw byte kept in the token may differ). -/
def Err.sameFailure : Err → Err → Prop
  | .parser t1 m1, .parser t2 m2 => t1.TType = t2.TType ∧ t1.Offset = t2.Offset ∧ m1 = m2
  | .plain m1, .plain m2 => m1 = m2
  | .wrap m1 e1, .wrap m2 e2 => m1 = m2 ∧ Err.sameFailure e1 e2
  | _, _ => False

/-- Two parser states at the same position of the same remaining input: they
agree on the scanner, the callback and the current token, and their previous
tokens have the same type and offset. -/
def Parser.samePosition (q1 q2 : Parser) : Prop :=
  q1.scanner = q2.scanner ∧ q1.literalContinuationCb = q2.literalContinuationCb ∧
  q1.currentToken = q2.currentToken ∧
  q1.previousToken.TType = q2.previousToken.TType ∧
  q1.previousToken.Offset = q2.previousToken.Offset

/-- A parser on `input` whose first token has been loaded by `Advance`, as
`Parse` does before anything else. -/
def startParser (input : List Nat) (cb : Option (String → Option Err)) : Parser :=
  ((NewParserWithLiteralContinuationCb (NewScanner input) cb).Advance).2

/-- ASCII bytes of a string. -/
def bytes (s : String) : List Nat := s.toList.map Char.toNat

/-- The Go `string` with the given bytes, as a Lean string. -/
def goString (bs : List Nat) : String := String.mk (bs.map Char.ofNat)

/-- The calls of the continuation callback recorded in a trace. -/
def continuations (tr : List Event) : List String :=
  tr.filterMap fun (e : Event) => match e with
    | Event.continuation m => some m
    | _ => none

/-- The direct byte reads recorded in a trace. -/
def literalReads (tr : List Event) : List (List Nat) :=
  tr.filterMap fun (e : Event) => match e with
    | Event.consumeBytes b => some b
    | _ => none

/-! ### Parser positions

The states a parser goes through while it tokenizes an input: the current
token is the token of the first pending byte and the scanner holds the bytes
after it. -/

/-- Token that `ScanToken` returns for the first byte of `input` at offset `o`. -/
def tokenAt (input : List Nat) (o : Nat) : Token :=
  match input with
  | [] => { TType := .EOF, Value := 0, Offset := o }
  | b :: _ => { TType := classify b, Value := b, Offset := o }

/-- Scanner left after `ScanToken` has taken the first byte of `input` at
offset `o`. -/
def scannerAt (input : List Nat) (o : Nat) : Scanner :=
  match input with
  | [] => { source := [], currentOffset := o, lookahead := none }
  | b :: rest => { source := rest, currentOffset := o + 1, lookahead := some b }

/-- Parser whose pending input is `input`: its current token is the token of the
first byte of `input`, read at offset `o`. -/
def Parser.atInput (cb : Option (String → Option Err)) (prev : Token) (input : List Nat)
    (o : Nat) (tr : List Event) : Parser :=
  { scanner := scannerAt input o, literalContinuationCb := cb, previousToken := prev,
    currentToken := tokenAt input o, trace := tr }

/-- Previous token after the parser has advanced over the bytes `ds`, the first
of them read at offset `o`. -/
def lastToken (prev : Token) : List Nat → Nat → Token
  | [], _ => prev
  | d :: ds, o => lastToken { TType := classify d, Value := d, Offset := o } ds (o + 1)

/-- Scan events logged while the parser advances over the bytes `ds` that are
followed by `rest`. -/
def scanTrace : List Nat → List Nat → Nat → List Event
  | [], _, _ => []
  | _ :: ds, rest, o => Event.scan (tokenAt (ds ++ rest) (o + 1)) :: scanTrace ds rest (o + 1)

/-- Value that the loop of `ParseNumber` accumulates from `number` over the
digit bytes `ds`, in 64-bit arithmetic. -/
def accDigits (number : Int) : List Nat → Int
  | [] => number
  | d :: ds => accDigits (wrap64 (wrap64 (number * 10) + ByteToInt d)) ds

/-- Decimal value of a digit string, continuing from `n`. -/
def decimalValue (n : Nat) (ds : List Nat) : Nat :=
  ds.foldl (fun v d => v * 10 + (d - 48)) n

/-- The first pending byte, if any, is not of token type `tt`. -/
def stopsAt (f : TokenType → Bool) (rest : List Nat) : Prop :=
  f (tokenAt rest 0).TType = false

instance (f : TokenType → Bool) (rest : List Nat) : Decidable (stopsAt f rest) := by
  unfold stopsAt; infer_instance

end rfcparser

/-! ## Command parser (`imap/command/parser.go`) -/

namespace command

open rfcparser (Token TokenType Err ByteToLower bytes IsAStringChar goString)

/-- Command payloads. `DoneCommand` is built by `Parse` itself, `UIDCommand` and
`UIDExpungeCommand` by the UID parser, `StartTLS` is the payload the command
reader looks for; `Built` stands for the payload of every other command
builder, kept abstract in the type `α`. -/
inductive Payload (α : Type) where
  | DoneCommand : Payload α
  | StartTLS : Payload α
  | UIDCommand (Command : Payload α) : Payload α
  | UIDExpungeCommand (SeqSet : α) : Payload α
  | Built (value : α) : Payload α
  deriving DecidableEq, Repr

/-- The `Command` struct; a nil payload is `none`. -/
structure Command (α : Type) where
  Tag : List Nat
  Payload : Option (Payload α)
  deriving DecidableEq, Repr

/-- `Builder.FromParser`, as a function on the parser state. -/
abbrev Builder (α : Type) := Nat → rfcparser.Parser → Option (Except Err (Payload α) × rfcparser.Parser)

/-- The command `Parser` struct; `commands` is the lookup of the dispatch map. -/
structure Parser (α : Type) where
  parser : rfcparser.Parser
  commands : List Nat → Option (Builder α)
  lastTag : List Nat
  lastCmd : List Nat

/-- `Parser.LastParsedTag`. -/
def Parser.LastParsedTag {α : Type} (p : Parser α) : List Nat := p.lastTag

/-- `Parser.LastParsedCommand`. -/
def Parser.LastParsedCommand {α : Type} (p : Parser α) : List Nat := p.lastCmd

/-- The closure `isTagChar` of `parseTag`. -/
def isTagChar (tt : TokenType) : Bool := IsAStringChar tt && tt != TokenType.Plus

/-- `Parser.parseTag`. -/
def Parser.parseTag {α : Type} (fuel : Nat) (p : Parser α) :
    Option (Except Err (List Nat) × Parser α) :=
  match p.parser.ConsumeWith isTagChar "Invalid tag char detected" with
  | (.error e, q) => some (.error e, { p with parser := q })
  | (.ok (), q) =>
    match q.CollectBytesWhileMatchesWithPrevWith fuel isTagChar with
    | none => none
    | some (.error e, q1) => some (.error e, { p with parser := q1 })
    | some (.ok tag, q1) => some (.ok tag.1, { p with parser := q1 })

/-- Loop of `Parser.parseCommand`: collect the lower-cased keyword bytes. -/
def Parser.parseCommand.loop :
    Nat → List Nat → rfcparser.Parser → Option (Except Err (List Nat) × rfcparser.Parser)
  | 0, _, _ => none
  | fuel + 1, commandBytes, q =>
    match q.Matches TokenType.Char with
    | (.error e, q1) => some (.error e, q1)
    | (.ok true, q1) =>
      Parser.parseCommand.loop fuel (commandBytes ++ [ByteToLower q1.PreviousToken.Value]) q1
    | (.ok false, q1) => some (.ok commandBytes, q1)

/-- `Parser.parseCommand`. -/
def Parser.parseCommand {α : Type} (fuel : Nat) (p : Parser α) :
    Option (Except Err (Payload α) × Parser α) :=
  match Parser.parseCommand.loop fuel [] p.parser with
  | none => none
  | some (.error e, q) => some (.error e, { p with parser := q })
  | some (.ok commandBytes, q) =>
    let p1 : Parser α := { p with parser := q, lastCmd := commandBytes }
    match p1.commands p1.lastCmd with
    | none =>
      some (.error (Err.plain ("unknown command \x27" ++ goString p1.lastCmd ++ "\x27")), p1)
    | some builder =>
      match builder fuel p1.parser with
      | none => none
      | some (r, q1) => some (r, { p1 with parser := q1 })

/-- `Parser.Parse`. It returns the command and the error side by side, as the
Go function does. `strings.ToLower` is applied bytewise, which agrees with it
on the comparison with `done`. -/
def Parser.Parse {α : Type} (fuel : Nat) (p0 : Parser α) :
    Option ((Command α × Option Err) × Parser α) :=
  let result : Command α := { Tag := [], Payload := none }
  let p : Parser α := { p0 with lastTag := [], lastCmd := [],
                                parser := p0.parser.ResetOffsetCounter }
  match p.parser.Advance with
  | (.error e, q) => some ((result, some e), { p with parser := q })
  | (.ok (), q) =>
  match Parser.parseTag fuel { p with parser := q } with
  | none => none
  | some (.error e, p1) => some ((result, some e), p1)
  | some (.ok tag, p1) =>
  if tag.map ByteToLower = bytes "done" then
    some (({ Tag := [], Payload := some Payload.DoneCommand }, none),
          { p1 with lastCmd := bytes "done" })
  else
  let result : Command α := { result with Tag := tag }
  let p2 : Parser α := { p1 with lastTag := tag }
  match p2.parser.Consume TokenType.SP "Expected space after tag" with
  | (.error e, q) => some ((result, some e), { p2 with parser := q })
  | (.ok (), q) =>
  match Parser.parseCommand fuel { p2 with parser := q } with
  | none => none
  | some (.error e, p3) => some ((result, some e), p3)
  | some (.ok payload, p3) =>
  let result : Command α := { result with Payload := some payload }
  match p3.parser.ConsumeNewLine with
  | (.error e, q) => some ((result, some e), { p3 with parser := q })
  | (.ok (), q) => some ((result, none), { p3 with parser := q })

/-- The part of `Parse` that follows the tag, for a tag other than `DONE`: the
same steps as in `Parse`, from the assignment of `result.Tag` on. -/
def Parser.parseAfterTag {α : Type} (fuel : Nat) (tag : List Nat) (p1 : Parser α) :
    Option ((Command α × Option Err) × Parser α) :=
  let result : Command α := { Tag := tag, Payload := none }
  let p2 : Parser α := { p1 with lastTag := tag }
  match p2.parser.Consume TokenType.SP "Expected space after tag" with
  | (.error e, q) => some ((result, some e), { p2 with parser := q })
  | (.ok (), q) =>
  match Parser.parseCommand fuel { p2 with parser := q } with
  | none => none
  | some (.error e, p3) => some ((result, some e), p3)
  | some (.ok payload, p3) =>
  let result : Command α := { result with Payload := some payload }
  match p3.parser.ConsumeNewLine with
  | (.error e, q) => some ((result, some e), { p3 with parser := q })
  | (.ok (), q) => some ((result, none), { p3 with parser := q })

/-- Two outcomes of `Parse` that are the same: both ran out of fuel, or both
returned the same command (tag and payload) with no error or with the same
failure, and left the same `LastParsedTag` and `LastParsedCommand`. -/
def sameOutcome {α : Type} :
    Option ((Command α × Option Err) × Parser α) →
    Option ((Command α × Option Err) × Parser α) → Prop
  | none, none => True
  | some ((c1, none), p1), some ((c2, none), p2) =>
    c1 = c2 ∧ p1.LastParsedTag = p2.LastParsedTag ∧
      p1.LastParsedCommand = p2.LastParsedCommand
  | some ((c1, some e1), p1), some ((c2, some e2), p2) =>
    c1 = c2 ∧ e1.sameFailure e2 ∧ p1.LastParsedTag = p2.LastParsedTag ∧
      p1.LastParsedCommand = p2.LastParsedCommand
  | _, _ => False

/-- Keys of the dispatch map built by `NewParserWithLiteralContinuationCb`. -/
def commandKeywords : List (List Nat) :=
  [bytes "list", bytes "append", bytes "search", bytes "fetch", bytes "capability",
   bytes "idle", bytes "noop", bytes "logout", bytes "check", bytes "close",
   bytes "expunge", bytes "unselect", bytes "starttls", bytes "status", bytes "select",
   bytes "examine", bytes "create", bytes "delete", bytes "subscribe",
   bytes "unsubscribe", bytes "rename", bytes "lsub", bytes "login", bytes "store",
   bytes "copy", bytes "move", bytes "uid"]

/-- Lookup in the dispatch map: `builders` gives the builder stored under each
key; the builders themselves are parameters of the development. -/
def dispatch {α : Type} (builders : List Nat → Builder α) (key : List Nat) :
    Option (Builder α) :=
  if key ∈ commandKeywords then some (builders key) else none

/-- `NewParserWithLiteralContinuationCb` of the command package. -/
def NewParserWithLiteralContinuationCb {α : Type} (s : rfcparser.Scanner)
    (cb : Option (String → Option Err)) (builders : List Nat → Builder α) : Parser α :=
  { parser := rfcparser.NewParserWithLiteralContinuationCb s cb,
    commands := dispatch builders, lastTag := [], lastCmd := [] }

/-- `NewParser` of the command package. -/
def NewParser {α : Type} (s : rfcparser.Scanner) (builders : List Nat → Builder α) : Parser α :=
  NewParserWithLiteralContinuationCb s none builders

/-- A byte whose token may stand in a tag. -/
def isTagByte (b : Nat) : Bool := isTagChar (rfcparser.classify b)

/-- The tag at the start of a line: its leading run of tag characters. -/
def tagOf (line : List Nat) : List Nat := line.takeWhile isTagByte

/-- A builder whose outcome does not depend on the raw byte of the previous
token nor on the trace: on two parser states that agree on everything else it
gives the same payload and leaves states that agree again, or fails with the
same failure, or runs out of fuel on both. -/
def Builder.caseBlind {α : Type} (b : Builder α) : Prop :=
  ∀ (fuel : Nat) (q1 q2 : rfcparser.Parser), q1.samePosition q2 →
    match b fuel q1, b fuel q2 with
    | none, none => True
    | some (.ok x, q1'), some (.ok y, q2') => x = y ∧ q1'.samePosition q2'
    | some (.error e1, _), some (.error e2, _) => e1.sameFailure e2
    | _, _ => False

end command

/-! ## Command reader (`internal/session/command.go`) -/

namespace session

open rfcparser (Token TokenType Err)

/-- The table `tlsHeaders` of `startCommandReader`. -/
def tlsHeaders : List (List Nat) :=
  [[0x16, 0x03, 0x01], [0x16, 0x03, 0x02], [0x16, 0x03, 0x03], [0x16, 0x03, 0x04],
   [0x16, 0x00, 0x00]]

/-- Modelled from the spec: `Parser.ConsumeInvalidInput` drops the current line
up to CRLF. When the current token is the line feed (or the end of input)
the line has been read already; otherwise the source is dropped through the
next line feed. -/
def ConsumeInvalidInput {α : Type} (p : command.Parser α) : Option Err × command.Parser α :=
  if p.parser.currentToken.TType = TokenType.LF ∨ p.parser.currentToken.TType = TokenType.EOF then
    (none, p)
  else
    let rest := (p.parser.scanner.source.dropWhile (fun b => b != 0x0a)).drop 1
    let read := p.parser.scanner.source.length - rest.length
    (none, { p with parser := { p.parser with
      scanner := { source := rest, currentOffset := p.parser.scanner.currentOffset + read,
                   lookahead := none } } })

/-- What one turn of the reader loop does: `stop` is a `return` (the command
channel is closed), `publish` is the send of a `commandResult`, `upgraded` is
the `continue` after a STARTTLS upgrade. -/
inductive ReaderStep (α : Type) where
  | stop : ReaderStep α
  | publish (command : command.Command α) (err : Option Err) : ReaderStep α
  | upgraded : ReaderStep α
  deriving DecidableEq, Repr

/-- One turn of the loop of `startCommandReader`. `handleStartTLS` is the
result of the TLS upgrade for a tag; the bytes seen by the input collector are
the bytes taken from the source during the turn. -/
def readerTurn {α : Type} (fuel : Nat) (handleStartTLS : List Nat → Option Err)
    (p : command.Parser α) : Option (ReaderStep α × command.Parser α) :=
  match p.Parse fuel with
  | none => none
  | some ((cmd, err), p1) =>
    let afterError : Option (command.Parser α) :=
      match err with
      | none => some p1
      | some e =>
        match e.asParserError with
        | none => none
        | some parserError =>
          if Err.IsEOF parserError then none
          else
            match ConsumeInvalidInput p1 with
            | (some _, _) => none
            | (none, p2) =>
              let bytesRead := p.parser.scanner.source.take
                (p.parser.scanner.source.length - p2.parser.scanner.source.length)
              if tlsHeaders.any (fun tlsHeader => tlsHeader.isPrefixOf bytesRead) then none
              else some p2
    match afterError with
    | none => some (ReaderStep.stop, p1)
    | some p2 =>
      match cmd.Payload with
      | some command.Payload.StartTLS =>
        match handleStartTLS cmd.Tag with
        | some _ => some (ReaderStep.stop, p2)
        | none => some (ReaderStep.upgraded, p2)
      | _ => some (ReaderStep.publish cmd err, p2)

end session

/-! ## Mailbox metadata (`internal/db/mailbox.go`) -/

namespace db

/-- Errors of the database: `Only` fails with `notFound` when no row matches and
with `notSingular` when several do; `Save` fails with `constraint` when a
column that holds each value once would hold a value twice. -/
inductive DBError where
  | notFound
  | notSingular
  | constraint
  deriving DecidableEq, Repr

/-- Modelled from the spec: `imap.UID` is a 32-bit identifier; `UID.Add` adds
in `uint32`, so the sum wraps at 2^32. -/
def UID.Add (u v : Nat) : Nat := (u + v) % 4294967296

/-- The conversion `uint32(n)` of a Go `int`. -/
def toUint32 (n : Int) : Nat := (n % 4294967296).toNat

/-- Modelled from the spec: the `Mailbox` entity (id, remoteID, name, uidNext,
uidValidity, flags, permFlags, attrs). The remote id is `none` as long as
none has been set; the table holds each name once and each remote id that is
set once. -/
structure Mailbox where
  ID : Nat
  RemoteID : Option (List Nat)
  Name : List Nat
  UIDNext : Nat
  UIDValidity : Nat
  Flags : List (List Nat)
  PermanentFlags : List (List Nat)
  Attributes : List (List Nat)
  deriving DecidableEq, Repr

/-- Modelled from the spec: the tables seen by a transaction: the mailboxes, the
`UIDValidity` singleton (absent before initialisation) and the next mailbox
id that the database hands out. An update or a delete of stored rows does not
fail. -/
structure Tx where
  mailboxes : List Mailbox
  uidValidity : Option Nat
  nextID : Nat
  deriving DecidableEq, Repr

/-- `getGlobalUIDValidity`. -/
def getGlobalUIDValidity (tx : Tx) : Except DBError Nat :=
  match tx.uidValidity with
  | none => .error .notFound
  | some v => .ok v

/-- `setGlobalUIDValidity`: an update of the stored rows. -/
def setGlobalUIDValidity (tx : Tx) (uidValidity : Nat) : Tx :=
  { tx with uidValidity := tx.uidValidity.map (fun _ => uidValidity) }

/-- `CreateMailbox`: the remote id is set only when `mboxID` is not empty; the
new mailbox gets the global UID validity; a new mailbox has UID-NEXT 1.
`create.Save` fails when the name, or the remote id that was set, is stored
already. -/
def CreateMailbox (tx : Tx) (mboxID name : List Nat) (flags permFlags attrs : List (List Nat)) :
    Except DBError (Mailbox × Tx) :=
  let remoteID : Option (List Nat) := if mboxID.length ≠ 0 then some mboxID else none
  match getGlobalUIDValidity tx with
  | .error e => .error e
  | .ok globalUIDValidity =>
    let mbox : Mailbox :=
      { ID := tx.nextID, RemoteID := remoteID, Name := name, UIDNext := 1,
        UIDValidity := globalUIDValidity, Flags := flags, PermanentFlags := permFlags,
        Attributes := attrs }
    if tx.mailboxes.any (fun m => m.Name = name ∨ (remoteID.isSome ∧ m.RemoteID = remoteID)) then
      .error .constraint
    else .ok (mbox, { tx with mailboxes := tx.mailboxes ++ [mbox], nextID := tx.nextID + 1 })

/-- `DeleteMailboxWithRemoteID`: returns the new global UID validity and whether
it has been increased. The predicate `mailbox.RemoteID(mboxID)` holds of the
mailboxes whose remote id is set to `mboxID`. -/
def DeleteMailboxWithRemoteID (tx : Tx) (mboxID : List Nat) : Except DBError ((Nat × Bool) × Tx) :=
  match tx.mailboxes.filter (fun m => m.RemoteID = some mboxID) with
  | [] => .error .notFound
  | [mbox] =>
    match getGlobalUIDValidity tx with
    | .error e => .error e
    | .ok curUIDValidity =>
      let newUIDValidity : Nat :=
        if mbox.UIDValidity = curUIDValidity then UID.Add curUIDValidity 1 else curUIDValidity
      let tx1 : Tx :=
        if newUIDValidity > curUIDValidity then setGlobalUIDValidity tx newUIDValidity else tx
      let tx2 : Tx :=
        { tx1 with mailboxes := tx1.mailboxes.filter (fun m => ¬ m.RemoteID = some mboxID) }
      .ok ((newUIDValidity, decide (newUIDValidity > curUIDValidity)), tx2)
  | _ => .error .notSingular

/-- `BumpMailboxUIDNext`: `withCount` is the variadic argument. The update sets
the stored UID-NEXT of the mailbox with the id of `mbox` from the UID-NEXT of
the record `mbox`. -/
def BumpMailboxUIDNext (tx : Tx) (mbox : Mailbox) (withCount : List Int) : Except DBError Tx :=
  let n : Int :=
    match withCount with
    | c :: _ => c
    | [] => 1
  .ok { tx with mailboxes := tx.mailboxes.map (fun m =>
          if m.ID = mbox.ID then { m with UIDNext := UID.Add mbox.UIDNext (toUint32 n) } else m) }

/-- `InitGlobalUIDValidity`. -/
def InitGlobalUIDValidity (tx : Tx) (uidValidity : Nat) : Except DBError Tx :=
  match tx.uidValidity with
  | none => .ok { tx with uidValidity := some uidValidity }
  | some curUIDValidity =>
    if uidValidity > curUIDValidity then .ok (setGlobalUIDValidity tx uidValidity)
    else .ok tx

/-- The stored UID-NEXT of the mailbox with the given id. -/
def storedUIDNext (tx : Tx) (id : Nat) : Option Nat :=
  (tx.mailboxes.find? (fun m => m.ID = id)).map (fun m => m.UIDNext)

/-- A call on the mailbox tables. -/
inductive Op where
  | create (mboxID name : List Nat) (flags permFlags attrs : List (List Nat))
  | delete (mboxID : List Nat)
  | init (uidValidity : Nat)
  deriving DecidableEq, Repr

/-- The tables after a call; a call that returns an error leaves them as they
were. -/
def applyOp (tx : Tx) : Op → Tx
  | .create mboxID name flags permFlags attrs =>
    match CreateMailbox tx mboxID name flags permFlags attrs with
    | .ok (_, tx1) => tx1
    | .error _ => tx
  | .delete mboxID =>
    match DeleteMailboxWithRemoteID tx mboxID with
    | .ok (_, tx1) => tx1
    | .error _ => tx
  | .init uidValidity =>
    match InitGlobalUIDValidity tx uidValidity with
    | .ok tx1 => tx1
    | .error _ => tx

/-- The tables after a sequence of calls. -/
def run (tx : Tx) (ops : List Op) : Tx := ops.foldl applyOp tx

/-- The global UID validity `a` is not above `b`; a missing value is below
every value. -/
def globalLE : Option Nat → Option Nat → Prop
  | none, _ => True
  | some _, none => False
  | some a, some b => a ≤ b

/-- Every stored mailbox has a UID validity that is at most the global one; no
mailbox is stored while there is no global value. -/
def validityBounded (tx : Tx) : Prop :=
  match tx.uidValidity with
  | none => tx.mailboxes = []
  | some g => ∀ m ∈ tx.mailboxes, m.UIDValidity ≤ g

end db

/-! ## Search over the snapshot (`internal/state/mailbox_search.go`) -/

namespace state

/-- Modelled from the spec: a row of the snapshot: the internal message id, the
UID and the flags of a message. -/
structure snapMsg where
  ID : Nat
  UID : Nat
  flags : List (List Nat)
  deriving DecidableEq, Repr

/-- Modelled from the spec: `snapMsgWithSeq`, a snapshot row with its sequence
number. -/
structure snapMsgWithSeq where
  ID : Nat
  UID : Nat
  flags : List (List Nat)
  Seq : Nat
  deriving DecidableEq, Repr

/-- Modelled from the spec: `getWithSeqID`: the row at the 1-based position
`seq` of the snapshot, if there is one. -/
def getWithSeqID (messages : List snapMsg) (seq : Nat) : Option snapMsgWithSeq :=
  if seq = 0 then none
  else (messages[seq - 1]?).map fun m =>
    { ID := m.ID, UID := m.UID, flags := m.flags, Seq := seq }

/-- The call `parallel.DoContext(ctx, parallelism, n, f)` of the worker pool: `f`
is called once for each index of `[0, n)`; `schedule` lists the indices in the
order in which the calls take effect, and the first error ends the run. -/
def DoContext {σ ε : Type} (parallelism : Int) (n : Nat) (f : Nat → σ → Except ε σ) :
    List Nat → σ → Except ε σ
  | [], s => .ok s
  | i :: rest, s =>
    match f i s with
    | .error e => .error e
    | .ok s1 => DoContext parallelism n f rest s1

/-- The degree of parallelism computed in `Search`:
`runtime.NumCPU() / int(activeSearchRequests)`. -/
def searchParallelism (numCPU activeSearchRequests : Int) : Int :=
  Int.tdiv numCPU activeSearchRequests

/-- The closure `mapFn` of `Search`. -/
def mapFn (isUID : Bool) (s : snapMsgWithSeq) : Nat :=
  if isUID then s.UID else s.Seq

/-- The closure that `Search` hands to `parallel.DoContext`: the work on the
index `i`, writing into the result vector. -/
def searchWorker {ε : Type} (isUID : Bool) (applySearch : snapMsgWithSeq → Except ε Bool)
    (messages : List snapMsg) (i : Nat) (result : List Nat) : Except ε (List Nat) :=
  match getWithSeqID messages (db.toUint32 ((i : Int) + 1)) with
  | none => .ok result
  | some msg =>
    match applySearch msg with
    | .error e => .error e
    | .ok matched =>
      if matched then .ok (result.set i (mapFn isUID msg)) else .ok result

/-- `Mailbox.Search`. `searchOp` is the result of `buildSearchOpListWithKeys`
followed by `applySearch` on a message; `messages` is the snapshot,
`totalActiveSearchRequests` the value of the counter before the call. -/
def Search {ε : Type} (isUID : Bool) (searchOp : Except ε (snapMsgWithSeq → Except ε Bool))
    (messages : List snapMsg) (numCPU totalActiveSearchRequests : Int) (schedule : List Nat) :
    Except ε (List Nat) :=
  match searchOp with
  | .error e => .error e
  | .ok applySearch =>
    let msgCount := messages.length
    let result : List Nat := List.replicate msgCount 0
    let activeSearchRequests := totalActiveSearchRequests + 1
    let parallelism := searchParallelism numCPU activeSearchRequests
    match DoContext parallelism msgCount (searchWorker isUID applySearch messages)
        schedule result with
    | .error e => .error e
    | .ok result => .ok (result.filter (fun v => v != 0))

/-- The search predicate is true on the message (and does not fail). -/
def isMatch {ε : Type} (applySearch : snapMsgWithSeq → Except ε Bool) (s : snapMsgWithSeq) :
    Bool :=
  match applySearch s with
  | .ok true => true
  | _ => false

/-- The search predicate is true on the message at the index `j` of the
snapshot. -/
def matchedAt {ε : Type} (applySearch : snapMsgWithSeq → Except ε Bool)
    (messages : List snapMsg) (j : Nat) : Bool :=
  match getWithSeqID messages (j + 1) with
  | some s => isMatch applySearch s
  | none => false

/-- Value of slot `j` of the result vector after the parallel pass: the
identifier of the message on a match, zero otherwise. -/
def slot {ε : Type} (isUID : Bool) (applySearch : snapMsgWithSeq → Except ε Bool)
    (messages : List snapMsg) (j : Nat) : Nat :=
  match getWithSeqID messages (j + 1) with
  | some s => if isMatch applySearch s then mapFn isUID s else 0
  | none => 0

/-- The rows of the snapshot at the sequence numbers 1..N, in ascending order. -/
def snapshotRows (messages : List snapMsg) : List snapMsgWithSeq :=
  (List.range messages.length).filterMap (fun i => getWithSeqID messages (i + 1))

end state

/-! ## Strings (`rfcparser/parser.go`) -/

namespace rfcparser

/-- `IsQuotedChar`. -/
def IsQuotedChar (tokenType : TokenType) : Bool := !IsQuotedSpecial tokenType

/-- Loop of `Parser.ParseQuoted`. -/
def Parser.ParseQuoted.loop : Nat → List Nat → Parser → Option (Except Err (List Nat) × Parser)
  | 0, _, _ => none
  | fuel + 1, quoted, p =>
    match p.MatchesWith IsQuotedChar with
    | (.error e, p1) => some (.error e, p1)
    | (.ok true, p1) => Parser.ParseQuoted.loop fuel (quoted ++ [p1.previousToken.Value]) p1
    | (.ok false, p1) =>
      match p1.Matches .Backslash with
      | (.error e, p2) => some (.error e, p2)
      | (.ok true, p2) =>
        match p2.ConsumeWith IsQuotedSpecial
            "Expected \x27\x5c\x27 or \x27\x22\x27 after \x27\x5c\x27 in quoted" with
        | (.error e, p3) => some (.error e, p3)
        | (.ok (), p3) => Parser.ParseQuoted.loop fuel (quoted ++ [p3.previousToken.Value]) p3
      | (.ok false, p2) => some (.ok quoted, p2)

/-- `Parser.ParseQuoted`; the result is the `Value` and the `Offset` of the
returned `String`. -/
def Parser.ParseQuoted (fuel : Nat) (p : Parser) : Option (Except Err (List Nat × Nat) × Parser) :=
  match p.Consume .DQuote "Expected \x27\x22\x27 for quoted start" with
  | (.error e, p1) => some (.error e, p1)
  | (.ok (), p1) =>
    let startOffset := p1.currentToken.Offset
    match Parser.ParseQuoted.loop fuel [] p1 with
    | none => none
    | some (.error e, p2) => some (.error e, p2)
    | some (.ok quoted, p2) =>
      match p2.Consume .DQuote "Expected \x27\x22\x27 for quoted end" with
      | (.error e, p3) => some (.error e, p3)
      | (.ok (), p3) => some (.ok (quoted, startOffset), p3)

/-- `Parser.ParseString`. -/
def Parser.ParseString (fuel : Nat) (p : Parser) : Option (Except Err (List Nat × Nat) × Parser) :=
  if p.Check .DQuote then p.ParseQuoted fuel
  else if p.Check .LCurly then
    let startOffset := p.currentToken.Offset
    match p.ParseLiteral fuel with
    | none => none
    | some (.error e, p1) => some (.error e, p1)
    | some (.ok l, p1) => some (.ok (l, startOffset), p1)
  else some (.error (p.MakeError "unexpected character, expected start of quote or literal"), p)

/-- Loop of `Parser.CollectBytesWhileMatchesWith`. -/
def Parser.CollectBytesWhileMatchesWith.loop (f : TokenType → Bool) :
    Nat → List Nat → Parser → Option (Except Err (List Nat) × Parser)
  | 0, _, _ => none
  | fuel + 1, value, p =>
    match p.MatchesWith f with
    | (.error e, p1) => some (.error e, p1)
    | (.ok true, p1) =>
      Parser.CollectBytesWhileMatchesWith.loop f fuel (value ++ [p1.previousToken.Value]) p1
    | (.ok false, p1) => some (.ok value, p1)

/-- `Parser.CollectBytesWhileMatchesWith`: the collected bytes do not include
the previous token. -/
def Parser.CollectBytesWhileMatchesWith (fuel : Nat) (p : Parser) (f : TokenType → Bool) :
    Option (Except Err (List Nat × Nat) × Parser) :=
  let startOffset := p.currentToken.Offset
  match Parser.CollectBytesWhileMatchesWith.loop f fuel [] p with
  | none => none
  | some (.error e, p1) => some (.error e, p1)
  | some (.ok v, p1) => some (.ok (v, startOffset), p1)

/-- `Parser.ParseAString`. -/
def Parser.ParseAString (fuel : Nat) (p : Parser) : Option (Except Err (List Nat × Nat) × Parser) :=
  if p.Check .DQuote || p.Check .LCurly then p.ParseString fuel
  else
    match p.CollectBytesWhileMatchesWith fuel IsAStringChar with
    | none => none
    | some (.error e, p1) => some (.error e, p1)
    | some (.ok astring, p1) => some (.ok astring, p1)

end rfcparser

/-! ## Command builders (`imap/command`) -/

namespace command

open rfcparser (Token TokenType Err ByteToLower bytes IsAStringChar goString)

/-- The `Login` payload of the test `TestParser_LoginCommandQuoted`. -/
structure Login where
  UserID : List Nat
  Password : List Nat
  deriving DecidableEq, Repr

/-- Modelled from the spec: `LoginCommandParser.FromParser`, the builder
registered under `login`. Its source is missing; the grammar is that of IMAP,
`login = "LOGIN" SP userid SP password` with astring arguments, as used in
`TestParser_LoginCommandQuoted`. -/
def LoginCommandParser.FromParser : Builder Login := fun fuel p =>
  match p.Consume TokenType.SP "expected space after command" with
  | (.error e, p1) => some (.error e, p1)
  | (.ok (), p1) =>
  match p1.ParseAString fuel with
  | none => none
  | some (.error e, p2) => some (.error e, p2)
  | some (.ok user, p2) =>
  match p2.Consume TokenType.SP "expected space after username" with
  | (.error e, p3) => some (.error e, p3)
  | (.ok (), p3) =>
  match p3.ParseAString fuel with
  | none => none
  | some (.error e, p4) => some (.error e, p4)
  | some (.ok password, p4) =>
    some (.ok (Payload.Built { UserID := user.1, Password := password.1 }), p4)

/-- Keys of the map built by `NewUIDCommandParser`. -/
def uidKeywords : List (List Nat) :=
  [bytes "copy", bytes "fetch", bytes "search", bytes "move", bytes "store"]

/-- Lookup in the map of `NewUIDCommandParser`; the builders stored in it are
the ones of the commands of the same name. -/
def uidCommands {α : Type} (builders : List Nat → Builder α) (key : List Nat) :
    Option (Builder α) :=
  if key ∈ uidKeywords then some (builders key) else none

/-- `UIDExpungeCommandParser.FromParser`; `ParseSeqSet` is a parameter. -/
def UIDExpungeCommandParser.FromParser {α : Type}
    (ParseSeqSet : Nat → rfcparser.Parser → Option (Except Err α × rfcparser.Parser)) :
    Builder α := fun fuel p =>
  match p.Consume TokenType.SP "expected space after command" with
  | (.error e, p1) => some (.error e, p1)
  | (.ok (), p1) =>
    match ParseSeqSet fuel p1 with
    | none => none
    | some (.error e, p2) => some (.error e, p2)
    | some (.ok seqSet, p2) => some (.ok (Payload.UIDExpungeCommand seqSet), p2)

/-- `UIDCommandParser.FromParser`. The loop that collects the lower-cased
keyword is the one of `parseCommand`. -/
def UIDCommandParser.FromParser {α : Type} (commands : List Nat → Option (Builder α))
    (ParseSeqSet : Nat → rfcparser.Parser → Option (Except Err α × rfcparser.Parser)) :
    Builder α := fun fuel p =>
  match p.Consume TokenType.SP "expected space after command" with
  | (.error e, p1) => some (.error e, p1)
  | (.ok (), p1) =>
  match Parser.parseCommand.loop fuel [] p1 with
  | none => none
  | some (.error e, p2) => some (.error e, p2)
  | some (.ok command, p2) =>
  if command = bytes "expunge" then UIDExpungeCommandParser.FromParser ParseSeqSet fuel p2
  else
    match commands command with
    | none =>
      some (.error (Err.plain ("unknown uid command \x27" ++ goString command ++ "\x27")), p2)
    | some builder =>
      match builder fuel p2 with
      | none => none
      | some (.error e, p3) => some (.error e, p3)
      | some (.ok payload, p3) => some (.ok (Payload.UIDCommand payload), p3)

/-- A byte whose token is a `Char` token. -/
def isCharByte (b : Nat) : Bool := rfcparser.classify b = TokenType.Char

/-- The bytes of a line after its tag and the byte that follows the tag. -/
def afterTag (line : List Nat) : List Nat := (line.dropWhile isTagByte).drop 1

/-- The command keyword of a line: the run of `Char` bytes after the tag and
the separator. -/
def keywordOf (line : List Nat) : List Nat := (afterTag line).takeWhile isCharByte

/-- What follows the command keyword on a line. -/
def argsOf (line : List Nat) : List Nat := (afterTag line).dropWhile isCharByte

end command

/-! ## Instants and calendar dates (the standard library `time`) -/

namespace time

/-- The standard library's `time.Time`, as far as the search predicates use it:
the instant, in nanoseconds since 1970-01-01T00:00:00Z, and the offset of the
time's location at that instant, in seconds east of UTC. -/
structure Time where
  unixNano : Int
  zoneOffset : Int
  deriving DecidableEq, Repr

/-- `time.Hour`, in nanoseconds. -/
def Hour : Int := 3600000000000

/-- Seconds from 0001-01-01T00:00:00Z, the zero time, to the Unix epoch. -/
def unixToInternal : Int := 62135596800

/-- `Time.Before`: the instants are compared. -/
def Time.Before (t u : Time) : Bool := t.unixNano < u.unixNano

/-- `Time.After`. -/
def Time.After (t u : Time) : Bool := u.unixNano < t.unixNano

/-- `Time.Equal`: the same instant, whatever the locations. -/
def Time.Equal (t u : Time) : Bool := t.unixNano = u.unixNano

/-- `Time.Truncate`: `t` rounded down to a multiple of `d` since the zero time;
it works on the instant, not on the presentation of the time. -/
def Time.Truncate (t : Time) (d : Int) : Time :=
  if d ≤ 0 then t
  else { t with unixNano := t.unixNano - (t.unixNano + unixToInternal * 1000000000) % d }

/-- Number of the day of the proleptic Gregorian date `y`-`m`-`d`, counted from
1970-01-01 (day 0), for a month in 1..12. -/
def daysFromCivil (y m d : Int) : Int :=
  let y1 := if m ≤ 2 then y - 1 else y
  let era := y1 / 400
  let yoe := y1 % 400
  let mp := if m > 2 then m - 3 else m + 9
  let doy := (153 * mp + 2) / 5 + d - 1
  let doe := yoe * 365 + yoe / 4 - yoe / 100 + doy
  era * 146097 + doe - 719468

/-- The proleptic Gregorian date (year, month, day) of the day number `z`: the
day is located in its cycle of 400 years (counted from a first of March), then
in its century, its group of four years and its year. -/
def civilFromDays (z : Int) : Int × Int × Int :=
  let z1 := z + 719468
  let era := z1 / 146097
  let doe := z1 % 146097
  let n100 := if doe / 36524 < 3 then doe / 36524 else 3
  let r1 := doe - 36524 * n100
  let n4 := r1 / 1461
  let r2 := r1 % 1461
  let n1 := if r2 / 365 < 3 then r2 / 365 else 3
  let doy := r2 - 365 * n1
  let y := 400 * era + 100 * n100 + 4 * n4 + n1
  let mp := (5 * doy + 2) / 153
  let d := doy - (153 * mp + 2) / 5 + 1
  let m := if mp < 10 then mp + 3 else mp - 9
  (if m ≤ 2 then y + 1 else y, m, d)

/-- Number of the day that the time shows in its own location: the instant is
shifted by the zone offset before the date is taken, as `Time.Year`,
`Time.Month` and `Time.Day` do. -/
def Time.localDay (t : Time) : Int := (t.unixNano / 1000000000 + t.zoneOffset) / 86400

/-- Number of the day of the instant in UTC. -/
def Time.utcDay (t : Time) : Int := t.unixNano / 1000000000 / 86400

/-- `Time.Year`. -/
def Time.Year (t : Time) : Int := (civilFromDays t.localDay).1

/-- `Time.Month`. -/
def Time.Month (t : Time) : Int := (civilFromDays t.localDay).2.1

/-- `Time.Day`. -/
def Time.Day (t : Time) : Int := (civilFromDays t.localDay).2.2

/-- `time.Date(year, month, day, hour, min, sec, nsec, loc)` for a location at
the fixed offset `zoneOffset`; `time.UTC` is the offset 0. -/
def Date (year month day hour min sec nsec zoneOffset : Int) : Time :=
  { unixNano := (daysFromCivil year month day * 86400 + hour * 3600 + min * 60 + sec
      - zoneOffset) * 1000000000 + nsec,
    zoneOffset := zoneOffset }

/-- The location `time.UTC`. -/
def UTC : Int := 0

end time

/-! ## Search operators (`internal/state/mailbox_search.go`) -/

namespace state

open rfcparser (ByteToLower bytes)

/-- `strings.Contains` and `bytes.Contains`. -/
def Contains (s substr : List Nat) : Bool := decide (substr <:+: s)

/-- Modelled from the spec: `FlagSet.ContainsUnchecked`: the flag set is a
case-insensitive set of tokens, kept under the lower-cased form of each
flag, and a value of the type is the list of these lower-cased forms; the
caller passes the flag in lower case and the function looks it up as it
is. -/
def ContainsUnchecked (fs : List (List Nat)) (flag : List Nat) : Bool :=
  decide (flag ∈ fs)

/-- `imap.FlagAnsweredLowerCase`. -/
def FlagAnsweredLowerCase : List Nat := bytes "\x5canswered"

/-- `imap.FlagDeletedLowerCase`. -/
def FlagDeletedLowerCase : List Nat := bytes "\x5cdeleted"

/-- `imap.FlagDraftLowerCase`. -/
def FlagDraftLowerCase : List Nat := bytes "\x5cdraft"

/-- `imap.FlagFlaggedLowerCase`. -/
def FlagFlaggedLowerCase : List Nat := bytes "\x5cflagged"

/-- `imap.FlagRecentLowerCase`. -/
def FlagRecentLowerCase : List Nat := bytes "\x5crecent"

/-- `imap.FlagSeenLowerCase`. -/
def FlagSeenLowerCase : List Nat := bytes "\x5cseen"

/-- The field `dbMessage` of `searchData`. -/
structure dbMessage where
  date : time.Time
  size : Int

/-- `searchData`. The parsed header is the function `header.Get`. -/
structure searchData where
  message : snapMsgWithSeq
  literal : List Nat
  dbMessage : dbMessage
  header : List Nat → List Nat

/-- `searchOp`. -/
abbrev searchOp := searchData → Except String Bool

/-- `buildSearchOpResult`. -/
structure buildSearchOpResult where
  op : searchOp
  needsLiteral : Bool
  needsMessage : Bool
  needsHeader : Bool

/-- `buildSearchOpResult.merge`. -/
def buildSearchOpResult.merge (b other : buildSearchOpResult) : buildSearchOpResult :=
  { b with needsLiteral := b.needsLiteral || other.needsLiteral,
           needsMessage := b.needsMessage || other.needsMessage,
           needsHeader := b.needsHeader || other.needsHeader }

/-- `searchOpResultOption`: the three implementations of the interface. -/
inductive searchOpResultOption where
  | withHeader : searchOpResultOption
  | withLiteral : searchOpResultOption
  | withDBMessage : searchOpResultOption
  deriving DecidableEq, Repr

/-- The method `apply` of the three options. -/
def searchOpResultOption.apply : searchOpResultOption → buildSearchOpResult → buildSearchOpResult
  | .withHeader, s => { s with needsHeader := true, needsLiteral := true }
  | .withLiteral, s => { s with needsLiteral := true }
  | .withDBMessage, s => { s with needsMessage := true }

/-- `needsHeader()`. -/
def needsHeader : searchOpResultOption := .withHeader

/-- `needsLiteral()`. -/
def needsLiteral : searchOpResultOption := .withLiteral

/-- `needsDBMessage()`. -/
def needsDBMessage : searchOpResultOption := .withDBMessage

/-- `newBuildSearchOpResult`. -/
def newBuildSearchOpResult (op : searchOp) (needs : List searchOpResultOption) :
    buildSearchOpResult :=
  needs.foldl (fun r v => v.apply r)
    { op := op, needsLiteral := false, needsMessage := false, needsHeader := false }

/-- The `nil` operator that `buildSearchOpListWithKeys` starts from; it is
replaced before the result is returned. -/
def nilOp : searchOp := fun _ => .error "nil searchOp"

/-- The message `proto.SearchKey`: its keyword together with the fields that
`buildSearchOp` reads for that keyword. `unknown` stands for a keyword outside
the enumeration. -/
inductive SearchKey where
  | SearchKWAll : SearchKey
  | SearchKWAnswered : SearchKey
  | SearchKWBcc (text : List Nat) : SearchKey
  | SearchKWBefore (date : List Nat) : SearchKey
  | SearchKWBody (text : List Nat) : SearchKey
  | SearchKWCc (text : List Nat) : SearchKey
  | SearchKWDeleted : SearchKey
  | SearchKWDraft : SearchKey
  | SearchKWFlagged : SearchKey
  | SearchKWFrom (text : List Nat) : SearchKey
  | SearchKWHeader (field text : List Nat) : SearchKey
  | SearchKWKeyword (flag : List Nat) : SearchKey
  | SearchKWLarger (size : Int) : SearchKey
  | SearchKWNew : SearchKey
  | SearchKWNot (leftOp : SearchKey) : SearchKey
  | SearchKWOld : SearchKey
  | SearchKWOn (date : List Nat) : SearchKey
  | SearchKWOr (leftOp rightOp : SearchKey) : SearchKey
  | SearchKWRecent : SearchKey
  | SearchKWSeen : SearchKey
  | SearchKWSentBefore (date : List Nat) : SearchKey
  | SearchKWSentOn (date : List Nat) : SearchKey
  | SearchKWSentSince (date : List Nat) : SearchKey
  | SearchKWSince (date : List Nat) : SearchKey
  | SearchKWSmaller (size : Int) : SearchKey
  | SearchKWSubject (text : List Nat) : SearchKey
  | SearchKWText (text : List Nat) : SearchKey
  | SearchKWTo (text : List Nat) : SearchKey
  | SearchKWUID (sequenceSet : List Nat) : SearchKey
  | SearchKWUnanswered : SearchKey
  | SearchKWUndeleted : SearchKey
  | SearchKWUndraft : SearchKey
  | SearchKWUnflagged : SearchKey
  | SearchKWUnkeyword (flag : List Nat) : SearchKey
  | SearchKWUnseen : SearchKey
  | SearchKWSeqSet (sequenceSet : List Nat) : SearchKey
  | SearchKWList (children : List SearchKey) : SearchKey
  | unknown : SearchKey

/-- What the operators take from outside this file: the charset decoder of the
session, the date that `time.Parse` reads under the layout `_2-Jan-2006` (a
layout without clock and zone: the result is the midnight UTC of that date),
`parser.ParseRFC5322DateTime`, the body of a parsed literal, the two interval
resolutions of the snapshot, and `strings.ToLower` and `bytes.ToLower` of the
Go library, which agree on the bytes of a string. -/
structure Env where
  ToLower : List Nat → List Nat
  decoder : List Nat → Except String (List Nat)
  parseDate : List Nat → Except String (Int × Int × Int)
  ParseRFC5322DateTime : List Nat → Except String time.Time
  Body : List Nat → List Nat
  resolveUIDInterval : List Nat → Except String (List (Nat × Nat))
  resolveSeqInterval : List Nat → Except String (List (Nat × Nat))

/-- `time.Parse("_2-Jan-2006", value)`. -/
def Env.timeParse (env : Env) (value : List Nat) : Except String time.Time :=
  match env.parseDate value with
  | .error e => .error e
  | .ok (year, month, day) => .ok (time.Date year month day 0 0 0 0 time.UTC)

/-- `convertToDateWithoutTZ`. -/
def convertToDateWithoutTZ (t : time.Time) : time.Time :=
  time.Date t.Year t.Month t.Day 0 0 0 0 time.UTC

/-- `buildSearchOpAnswered`. -/
def buildSearchOpAnswered : Except String buildSearchOpResult :=
  let op : searchOp := fun s => .ok (ContainsUnchecked s.message.flags FlagAnsweredLowerCase)
  .ok (newBuildSearchOpResult op [])

/-- `buildSearchOpBcc`. -/
def buildSearchOpBcc (env : Env) (text : List Nat) : Except String buildSearchOpResult :=
  match env.decoder text with
  | .error e => .error e
  | .ok decodedKey =>
    let decodedKeyStr := env.ToLower decodedKey
    let op : searchOp := fun s =>
      let value := s.header (bytes "Bcc")
      .ok (Contains (env.ToLower value) decodedKeyStr)
    .ok (newBuildSearchOpResult op [needsHeader])

/-- `buildSearchOpCc`. -/
def buildSearchOpCc (env : Env) (text : List Nat) : Except String buildSearchOpResult :=
  match env.decoder text with
  | .error e => .error e
  | .ok decodedKey =>
    let decodedKeyStr := env.ToLower decodedKey
    let op : searchOp := fun s =>
      let value := s.header (bytes "Cc")
      .ok (Contains (env.ToLower value) decodedKeyStr)
    .ok (newBuildSearchOpResult op [needsHeader])

/-- `buildSearchOpDeleted`. -/
def buildSearchOpDeleted : Except String buildSearchOpResult :=
  let op : searchOp := fun s => .ok (ContainsUnchecked s.message.flags FlagDeletedLowerCase)
  .ok (newBuildSearchOpResult op [])

/-- `buildSearchOpDraft`. -/
def buildSearchOpDraft : Except String buildSearchOpResult :=
  let op : searchOp := fun s => .ok (ContainsUnchecked s.message.flags FlagDraftLowerCase)
  .ok (newBuildSearchOpResult op [])

/-- `buildSearchOpFlagged`. -/
def buildSearchOpFlagged : Except String buildSearchOpResult :=
  let op : searchOp := fun s => .ok (ContainsUnchecked s.message.flags FlagFlaggedLowerCase)
  .ok (newBuildSearchOpResult op [])

/-- `buildSearchOpFrom`. -/
def buildSearchOpFrom (env : Env) (text : List Nat) : Except String buildSearchOpResult :=
  match env.decoder text with
  | .error e => .error e
  | .ok decodedKey =>
    let decodedKeyStr := env.ToLower decodedKey
    let op : searchOp := fun s =>
      let value := s.header (bytes "From")
      .ok (Contains (env.ToLower value) decodedKeyStr)
    .ok (newBuildSearchOpResult op [needsHeader])

/-- `buildSearchOpHeader`. -/
def buildSearchOpHeader (env : Env) (field text : List Nat) : Except String buildSearchOpResult :=
  match env.decoder text with
  | .error e => .error e
  | .ok decodedKey =>
    let decodedKeyStr := env.ToLower decodedKey
    let op : searchOp := fun s =>
      let value := s.header field
      .ok (Contains (env.ToLower value) decodedKeyStr)
    .ok (newBuildSearchOpResult op [needsHeader])

/-- `buildSearchOpSubject`. -/
def buildSearchOpSubject (env : Env) (text : List Nat) : Except String buildSearchOpResult :=
  match env.decoder text with
  | .error e => .error e
  | .ok decodedKey =>
    let decodedKeyStr := env.ToLower decodedKey
    let op : searchOp := fun s =>
      let value := s.header (bytes "Subject")
      .ok (Contains (env.ToLower value) decodedKeyStr)
    .ok (newBuildSearchOpResult op [needsHeader])

/-- `buildSearchOpTo`. -/
def buildSearchOpTo (env : Env) (text : List Nat) : Except String buildSearchOpResult :=
  match env.decoder text with
  | .error e => .error e
  | .ok decodedKey =>
    let decodedKeyStr := env.ToLower decodedKey
    let op : searchOp := fun s =>
      let value := s.header (bytes "To")
      .ok (Contains (env.ToLower value) decodedKeyStr)
    .ok (newBuildSearchOpResult op [needsHeader])

/-- `buildSearchOpUnanswered`. -/
def buildSearchOpUnanswered : Except String buildSearchOpResult :=
  let op : searchOp := fun s => .ok (!ContainsUnchecked s.message.flags FlagAnsweredLowerCase)
  .ok (newBuildSearchOpResult op [])

/-- `buildSearchOpUndeleted`. -/
def buildSearchOpUndeleted : Except String buildSearchOpResult :=
  let op : searchOp := fun s => .ok (!ContainsUnchecked s.message.flags FlagDeletedLowerCase)
  .ok (newBuildSearchOpResult op [])

/-- `buildSearchOpUndraft`. -/
def buildSearchOpUndraft : Except String buildSearchOpResult :=
  let op : searchOp := fun s => .ok (!ContainsUnchecked s.message.flags FlagDraftLowerCase)
  .ok (newBuildSearchOpResult op [])

/-- `buildSearchOpUnflagged`. -/
def buildSearchOpUnflagged : Except String buildSearchOpResult :=
  let op : searchOp := fun s => .ok (!ContainsUnchecked s.message.flags FlagFlaggedLowerCase)
  .ok (newBuildSearchOpResult op [])

/-- `buildSearchOpUnseen`. -/
def buildSearchOpUnseen : Except String buildSearchOpResult :=
  let op : searchOp := fun s => .ok (!ContainsUnchecked s.message.flags FlagSeenLowerCase)
  .ok (newBuildSearchOpResult op [])

/-- `buildSearchOpAll`. -/
def buildSearchOpAll : Except String buildSearchOpResult :=
  .ok (newBuildSearchOpResult (fun _ => .ok true) [])

/-- `buildSearchOpBefore`. -/
def buildSearchOpBefore (env : Env) (date : List Nat) : Except String buildSearchOpResult :=
  match env.timeParse date with
  | .error e => .error e
  | .ok beforeDate =>
    let op : searchOp := fun s => .ok (s.dbMessage.date.Before beforeDate)
    .ok (newBuildSearchOpResult op [needsDBMessage])

/-- `buildSearchOpBody`. -/
def buildSearchOpBody (env : Env) (text : List Nat) : Except String buildSearchOpResult :=
  match env.decoder text with
  | .error e => .error e
  | .ok keyBytes =>
    let keyBytesLower := env.ToLower keyBytes
    let op : searchOp := fun s => .ok (Contains (env.ToLower (env.Body s.literal)) keyBytesLower)
    .ok (newBuildSearchOpResult op [needsLiteral])

/-- `buildSearchOpKeyword`. -/
def buildSearchOpKeyword (env : Env) (flag : List Nat) : Except String buildSearchOpResult :=
  let flagLowerCase := env.ToLower flag
  let op : searchOp := fun s => .ok (ContainsUnchecked s.message.flags flagLowerCase)
  .ok (newBuildSearchOpResult op [])

/-- `buildSearchOpLarger`. -/
def buildSearchOpLarger (size : Int) : Except String buildSearchOpResult :=
  let op : searchOp := fun s => .ok (decide (s.dbMessage.size > size))
  .ok (newBuildSearchOpResult op [needsDBMessage])

/-- `buildSearchOpNew`. -/
def buildSearchOpNew : Except String buildSearchOpResult :=
  let op : searchOp := fun s =>
    .ok (ContainsUnchecked s.message.flags FlagRecentLowerCase &&
      !ContainsUnchecked s.message.flags FlagSeenLowerCase)
  .ok (newBuildSearchOpResult op [])

/-- `buildSearchOpOld`. -/
def buildSearchOpOld : Except String buildSearchOpResult :=
  let op : searchOp := fun s => .ok (!ContainsUnchecked s.message.flags FlagRecentLowerCase)
  .ok (newBuildSearchOpResult op [])

/-- `buildSearchOpOn`. -/
def buildSearchOpOn (env : Env) (date : List Nat) : Except String buildSearchOpResult :=
  match env.timeParse date with
  | .error e => .error e
  | .ok onDate =>
    let op : searchOp := fun s =>
      .ok ((onDate.Truncate (24 * time.Hour)).Equal (s.dbMessage.date.Truncate (24 * time.Hour)))
    .ok (newBuildSearchOpResult op [needsDBMessage])

/-- `buildSearchOpRecent`. -/
def buildSearchOpRecent : Except String buildSearchOpResult :=
  let op : searchOp := fun s => .ok (ContainsUnchecked s.message.flags FlagRecentLowerCase)
  .ok (newBuildSearchOpResult op [])

/-- `buildSearchOpSeen`. -/
def buildSearchOpSeen : Except String buildSearchOpResult :=
  let op : searchOp := fun s => .ok (ContainsUnchecked s.message.flags FlagSeenLowerCase)
  .ok (newBuildSearchOpResult op [])

/-- `buildSearchOpSentBefore`. -/
def buildSearchOpSentBefore (env : Env) (date : List Nat) : Except String buildSearchOpResult :=
  match env.timeParse date with
  | .error e => .error e
  | .ok beforeDate =>
    let op : searchOp := fun s =>
      let value := s.header (bytes "Date")
      match env.ParseRFC5322DateTime value with
      | .error e => .error e
      | .ok date =>
        let date := convertToDateWithoutTZ date
        .ok (date.Before beforeDate)
    .ok (newBuildSearchOpResult op [needsHeader])

/-- `buildSearchOpSentOn`. -/
def buildSearchOpSentOn (env : Env) (date : List Nat) : Except String buildSearchOpResult :=
  match env.timeParse date with
  | .error e => .error e
  | .ok onDate =>
    let op : searchOp := fun s =>
      let value := s.header (bytes "Date")
      match env.ParseRFC5322DateTime value with
      | .error e => .error e
      | .ok date =>
        let date := convertToDateWithoutTZ date
        .ok (date.Equal onDate)
    .ok (newBuildSearchOpResult op [needsHeader])

/-- `buildSearchOpSentSince`. -/
def buildSearchOpSentSince (env : Env) (date : List Nat) : Except String buildSearchOpResult :=
  match env.timeParse date with
  | .error e => .error e
  | .ok sinceDate =>
    let op : searchOp := fun s =>
      let value := s.header (bytes "Date")
      match env.ParseRFC5322DateTime value with
      | .error e => .error e
      | .ok date =>
        let date := convertToDateWithoutTZ date
        .ok (date.Equal sinceDate || date.After sinceDate)
    .ok (newBuildSearchOpResult op [needsHeader])

/-- `buildSearchOpSince`. -/
def buildSearchOpSince (env : Env) (date : List Nat) : Except String buildSearchOpResult :=
  match env.timeParse date with
  | .error e => .error e
  | .ok sinceDate =>
    let op : searchOp := fun s =>
      let date := convertToDateWithoutTZ s.dbMessage.date
      .ok (date.Equal sinceDate || date.After sinceDate)
    .ok (newBuildSearchOpResult op [needsDBMessage])

/-- `buildSearchOpSmaller`. -/
def buildSearchOpSmaller (size : Int) : Except String buildSearchOpResult :=
  let op : searchOp := fun s => .ok (decide (s.dbMessage.size < size))
  .ok (newBuildSearchOpResult op [needsDBMessage])

/-- `buildSearchOpText`. -/
def buildSearchOpText (env : Env) (text : List Nat) : Except String buildSearchOpResult :=
  match env.decoder text with
  | .error e => .error e
  | .ok decodedKey =>
    let decodedKeyLower := env.ToLower decodedKey
    let op : searchOp := fun s => .ok (Contains (env.ToLower s.literal) decodedKeyLower)
    .ok (newBuildSearchOpResult op [needsLiteral])

/-- The loop over the intervals in `buildSearchOpUID` and `buildSearchOpSeqSet`:
membership in one of the intervals. -/
def containsAny (intervals : List (Nat × Nat)) (x : Nat) : Bool :=
  intervals.any (fun v => decide (v.1 ≤ x ∧ x ≤ v.2))

/-- `buildSearchOpUID`. -/
def buildSearchOpUID (env : Env) (sequenceSet : List Nat) : Except String buildSearchOpResult :=
  match env.resolveUIDInterval sequenceSet with
  | .error e => .error e
  | .ok intervals =>
    .ok (newBuildSearchOpResult (fun s => .ok (containsAny intervals s.message.UID)) [])

/-- `buildSearchOpUnkeyword`. -/
def buildSearchOpUnkeyword (env : Env) (flag : List Nat) : Except String buildSearchOpResult :=
  let flagLowerCase := env.ToLower flag
  let op : searchOp := fun s => .ok (!ContainsUnchecked s.message.flags flagLowerCase)
  .ok (newBuildSearchOpResult op [])

/-- `buildSearchOpSeqSet`. -/
def buildSearchOpSeqSet (env : Env) (sequenceSet : List Nat) : Except String buildSearchOpResult :=
  match env.resolveSeqInterval sequenceSet with
  | .error e => .error e
  | .ok intervals =>
    .ok (newBuildSearchOpResult (fun s => .ok (containsAny intervals s.message.Seq)) [])

/-- The operator that `buildSearchOpListWithKeys` returns: the conjunction of
the operators of the list, stopping at the first that is false. -/
def listOp : List searchOp → Bool → searchOp
  | [], result, _ => .ok result
  | v :: rest, result, s =>
    match v s with
    | .error e => .error e
    | .ok ok =>
      let result := result && ok
      if !result then .ok result else listOp rest result s

/-- The operator that `buildSearchOpNot` returns. -/
def notOp (toNegate : searchOp) : searchOp := fun s =>
  match toNegate s with
  | .error e => .error e
  | .ok result => .ok (!result)

/-- The operator that `buildSearchOpOr` returns. -/
def orOp (leftOp rightOp : searchOp) : searchOp := fun s =>
  match leftOp s with
  | .error e => .error e
  | .ok leftResult =>
    match rightOp s with
    | .error e => .error e
    | .ok rightResult => .ok (leftResult || rightResult)

mutual

/-- `buildSearchOp`, with `buildSearchOpNot`, `buildSearchOpOr` and
`buildSearchOpList` in place. -/
def buildSearchOp (env : Env) : SearchKey → Except String buildSearchOpResult
  | .SearchKWAll => buildSearchOpAll
  | .SearchKWAnswered => buildSearchOpAnswered
  | .SearchKWBcc text => buildSearchOpBcc env text
  | .SearchKWBefore date => buildSearchOpBefore env date
  | .SearchKWBody text => buildSearchOpBody env text
  | .SearchKWCc text => buildSearchOpCc env text
  | .SearchKWDeleted => buildSearchOpDeleted
  | .SearchKWDraft => buildSearchOpDraft
  | .SearchKWFlagged => buildSearchOpFlagged
  | .SearchKWFrom text => buildSearchOpFrom env text
  | .SearchKWHeader field text => buildSearchOpHeader env field text
  | .SearchKWKeyword flag => buildSearchOpKeyword env flag
  | .SearchKWLarger size => buildSearchOpLarger size
  | .SearchKWNew => buildSearchOpNew
  | .SearchKWNot leftOp =>
    match buildSearchOp env leftOp with
    | .error e => .error e
    | .ok toNegateOpResult =>
      let result := newBuildSearchOpResult (notOp toNegateOpResult.op) []
      .ok (result.merge toNegateOpResult)
  | .SearchKWOld => buildSearchOpOld
  | .SearchKWOn date => buildSearchOpOn env date
  | .SearchKWOr leftKey rightKey =>
    match buildSearchOp env leftKey with
    | .error e => .error e
    | .ok leftOp =>
      match buildSearchOp env rightKey with
      | .error e => .error e
      | .ok rightOp =>
        let result := newBuildSearchOpResult (orOp leftOp.op rightOp.op) []
        .ok ((result.merge leftOp).merge rightOp)
  | .SearchKWRecent => buildSearchOpRecent
  | .SearchKWSeen => buildSearchOpSeen
  | .SearchKWSentBefore date => buildSearchOpSentBefore env date
  | .SearchKWSentOn date => buildSearchOpSentOn env date
  | .SearchKWSentSince date => buildSearchOpSentSince env date
  | .SearchKWSince date => buildSearchOpSince env date
  | .SearchKWSmaller size => buildSearchOpSmaller size
  | .SearchKWSubject text => buildSearchOpSubject env text
  | .SearchKWText text => buildSearchOpText env text
  | .SearchKWTo text => buildSearchOpTo env text
  | .SearchKWUID sequenceSet => buildSearchOpUID env sequenceSet
  | .SearchKWUnanswered => buildSearchOpUnanswered
  | .SearchKWUndeleted => buildSearchOpUndeleted
  | .SearchKWUndraft => buildSearchOpUndraft
  | .SearchKWUnflagged => buildSearchOpUnflagged
  | .SearchKWUnkeyword flag => buildSearchOpUnkeyword env flag
  | .SearchKWUnseen => buildSearchOpUnseen
  | .SearchKWSeqSet sequenceSet => buildSearchOpSeqSet env sequenceSet
  | .SearchKWList children =>
    buildSearchOpListWithKeys.loop env children (newBuildSearchOpResult nilOp []) []
  | .unknown => .error "bad search keyword"

/-- The loop of `buildSearchOpListWithKeys` over the keys that are left, with
the merged result and the operators collected so far, followed by the
assignment of the operator of the list. -/
def buildSearchOpListWithKeys.loop (env : Env) :
    List SearchKey → buildSearchOpResult → List searchOp → Except String buildSearchOpResult
  | [], opResult, ops => .ok { opResult with op := listOp ops true }
  | opKey :: rest, opResult, ops =>
    match buildSearchOp env opKey with
    | .error e => .error e
    | .ok result =>
      buildSearchOpListWithKeys.loop env rest (opResult.merge result) (ops ++ [result.op])

end

/-- `buildSearchOpListWithKeys`. -/
def buildSearchOpListWithKeys (env : Env) (opKeys : List SearchKey) :
    Except String buildSearchOpResult :=
  buildSearchOpListWithKeys.loop env opKeys (newBuildSearchOpResult nilOp []) []

/-- An environment for the examples: the lower case of ASCII text, the identity
decoder, the key dates `1-Jan-2023` and `2-Jan-2023`, one `Date` header, the
literal as its own body, and no intervals. -/
def exampleEnv : Env :=
  { ToLower := fun s => s.map ByteToLower,
    decoder := fun text => .ok text,
    parseDate := fun value =>
      if value = bytes "1-Jan-2023" then .ok (2023, 1, 1)
      else if value = bytes "2-Jan-2023" then .ok (2023, 1, 2)
      else .error "parsing time",
    ParseRFC5322DateTime := fun value =>
      if value = bytes "Sun, 01 Jan 2023 23:30:00 -0500" then
        .ok (time.Date 2023 1 1 23 30 0 0 (-18000))
      else .error "invalid date",
    Body := fun literal => literal,
    resolveUIDInterval := fun _ => .ok [],
    resolveSeqInterval := fun _ => .ok [] }

/-- A message for the examples: sequence number 1, UID 7, the flags given, the
size 100, the internal date and the `Date` header of 23:30 on the first of
January 2023 at five hours west of UTC, which is 04:30 UTC on the second. -/
def exampleData (flags : List (List Nat)) : searchData :=
  { message := { ID := 1, UID := 7, flags := flags, Seq := 1 },
    literal := [],
    dbMessage := { date := time.Date 2023 1 1 23 30 0 0 (-18000), size := 100 },
    header := fun field =>
      if field = bytes "Date" then bytes "Sun, 01 Jan 2023 23:30:00 -0500" else [] }

end state

/-! ## The reader loop and the EXPUNGE handlers (`internal/session`) -/

namespace session

open rfcparser (Token TokenType Err)

/-- The `return` statements of the loop of `startCommandReader`, in the order
in which a turn meets them. -/
inductive StopCause where
  | notParserError : StopCause
  | endOfInput : StopCause
  | consumeInvalidInput : StopCause
  | tlsHandshake : StopCause
  | startTLS : StopCause
  deriving DecidableEq, Repr

/-- The bytes that the input collector holds at the end of a turn that began
with the parser `p` and ended with the parser `p2`: the bytes taken from the
source in between. -/
def bytesRead {α : Type} (p p2 : command.Parser α) : List Nat :=
  p.parser.scanner.source.take
    (p.parser.scanner.source.length - p2.parser.scanner.source.length)

/-- The `return` statements of the error branch of the loop: what the turn
does with the error of `Parse`, for the parser `p` at the start of the turn and
the parser `p1` that `Parse` left. `none` when the turn goes on. -/
def errorStop {α : Type} (p p1 : command.Parser α) : Option Err → Option StopCause
  | none => none
  | some e =>
    match e.asParserError with
    | none => some .notParserError
    | some parserError =>
      if Err.IsEOF parserError then some .endOfInput
      else
        match ConsumeInvalidInput p1 with
        | (some _, _) => some .consumeInvalidInput
        | (none, p2) =>
          if tlsHeaders.any (fun tlsHeader => tlsHeader.isPrefixOf (bytesRead p p2)) then
            some .tlsHandshake
          else none

/-- The `return` of the `switch` on the payload: a STARTTLS upgrade that
fails. -/
def startTLSStop {α : Type} (handleStartTLS : List Nat → Option Err) (cmd : command.Command α) :
    Option StopCause :=
  match cmd.Payload with
  | some command.Payload.StartTLS =>
    match handleStartTLS cmd.Tag with
    | some _ => some .startTLS
    | none => none
  | _ => none

/-- The `return` at which one turn of the loop of `startCommandReader` leaves
the loop, `none` when the turn ends with the send of the command or with
`continue`. The steps are those of `readerTurn`. -/
def readerTurnStop {α : Type} (fuel : Nat) (handleStartTLS : List Nat → Option Err)
    (p : command.Parser α) : Option (Option StopCause) :=
  match p.Parse fuel with
  | none => none
  | some ((cmd, err), p1) =>
    match errorStop p p1 err with
    | some cause => some (some cause)
    | none => some (startTLSStop handleStartTLS cmd)

/-- The parser of a session that has just read the line `a` CR LF, which fails
for want of a command, with the bytes `rest` still to come. -/
def afterFailedLine (rest : List Nat) : command.Parser Nat :=
  match readerTurn 8 (fun _ => none)
      (command.NewParser (rfcparser.NewScanner ([0x61, 0x0d, 0x0a] ++ rest))
        (fun _ _ q => some (.ok (command.Payload.Built 0), q))) with
  | some (_, p) => p
  | none =>
    command.NewParser (rfcparser.NewScanner rest)
      (fun _ _ q => some (.ok (command.Payload.Built 0), q))

/-- Modelled from the spec: the responses that the EXPUNGE handlers produce:
the tagged `OK` and `NO`, the untagged `EXPUNGE` with its sequence number, and
any other untagged line (`EXISTS`, `RECENT`, `FETCH`). -/
inductive Response where
  | Ok (tag : List Nat) (message : String) : Response
  | No (tag : List Nat) (message : String) : Response
  | Expunge (seq : Nat) : Response
  | untagged (line : List Nat) : Response
  deriving DecidableEq, Repr

/-- The errors of a handler: `ErrReadOnly` and any other error. -/
inductive HandlerError where
  | ErrReadOnly : HandlerError
  | other (message : String) : HandlerError
  deriving DecidableEq, Repr

/-- The calls that a handler makes on the mailbox: `mailbox.Expunge(ctx, seqSet)`
and `flush(ctx, mailbox, permitExpunge, ch)`, with the UID mode of the
context. -/
inductive Call where
  | Expunge (isUID : Bool) (seqSet : Option (List (Nat × Nat))) : Call
  | flush (isUID : Bool) (permitExpunge : Bool) : Call
  deriving DecidableEq, Repr

/-- What the handlers use of `state.Mailbox` and of the session: `ReadOnly`,
`Expunge` and `flush`, each with the error it returns, the mailbox it leaves
and, for `flush`, the responses it sends on the channel. A sequence set is a
list of closed intervals. -/
structure MailboxOps (M : Type) where
  ReadOnly : M → Bool
  Expunge : Bool → Option (List (Nat × Nat)) → M → Option HandlerError × M
  flush : Bool → M → Bool → Option HandlerError × M × List Response

/-- The state that a handler works on: the mailbox, the responses sent on the
channel `ch`, and the calls made on the mailbox so far. -/
structure HandlerState (M : Type) where
  mailbox : M
  ch : List Response
  calls : List Call

/-- `Session.handleExpunge`. -/
def handleExpunge {M : Type} (ops : MailboxOps M) (tag : List Nat) (st : HandlerState M) :
    Except HandlerError Response × HandlerState M :=
  if ops.ReadOnly st.mailbox then (.error HandlerError.ErrReadOnly, st)
  else
    match ops.Expunge false none st.mailbox with
    | (some err, m1) =>
      (.error err, { st with mailbox := m1, calls := st.calls ++ [Call.Expunge false none] })
    | (none, m1) =>
      match ops.flush false m1 true with
      | (some err, m2, sent) =>
        (.error err, { mailbox := m2, ch := st.ch ++ sent,
                       calls := st.calls ++ [Call.Expunge false none, Call.flush false true] })
      | (none, m2, sent) =>
        (.ok (Response.Ok tag "EXPUNGE"),
         { mailbox := m2, ch := st.ch ++ sent,
           calls := st.calls ++ [Call.Expunge false none, Call.flush false true] })

/-- `Session.handleUIDExpunge`; `seqSet` is `cmd.GetSequenceSet()`. -/
def handleUIDExpunge {M : Type} (ops : MailboxOps M) (tag : List Nat)
    (seqSet : List (Nat × Nat)) (st : HandlerState M) :
    Except HandlerError Response × HandlerState M :=
  if ops.ReadOnly st.mailbox then (.error HandlerError.ErrReadOnly, st)
  else
    match ops.Expunge true (some seqSet) st.mailbox with
    | (some err, m1) =>
      (.error err,
       { st with mailbox := m1, calls := st.calls ++ [Call.Expunge true (some seqSet)] })
    | (none, m1) =>
      match ops.flush true m1 true with
      | (some err, m2, sent) =>
        (.error err, { mailbox := m2, ch := st.ch ++ sent,
                       calls := st.calls ++ [Call.Expunge true (some seqSet),
                                             Call.flush true true] })
      | (none, m2, sent) =>
        (.ok (Response.Ok tag "EXPUNGE"),
         { mailbox := m2, ch := st.ch ++ sent,
           calls := st.calls ++ [Call.Expunge true (some seqSet), Call.flush true true] })

/-- Modelled from the spec: the lines that the session writes for a command: the
responses that the handler sent on the channel, in their order, and the tagged
response last, `NO` for a handler error. -/
def commandOutput {M : Type} (tag : List Nat)
    (result : Except HandlerError Response × HandlerState M) : List Response :=
  result.2.ch ++
    [match result.1 with
     | .ok response => response
     | .error HandlerError.ErrReadOnly => Response.No tag "read-only"
     | .error (HandlerError.other message) => Response.No tag message]

/-- Modelled from the spec: the selected mailbox of a session: whether it was
opened read-only, the rows of the snapshot in the order of their sequence
numbers, and the pending-expunge queue. -/
structure Mailbox where
  readOnly : Bool
  snap : List state.snapMsg
  pendingExpunge : List Nat
  deriving DecidableEq, Repr

/-- Modelled from the spec: `expunge(seq)`: remove the row, which decrements
the sequence numbers of all rows after it, and record the removed sequence
number in the pending-expunge queue. -/
def Mailbox.expunge (m : Mailbox) (seq : Nat) : Mailbox :=
  { m with snap := m.snap.eraseIdx (seq - 1), pendingExpunge := m.pendingExpunge ++ [seq] }

/-- The row is marked `\Deleted` and, for `UID EXPUNGE`, its UID lies in the
sequence set. -/
def toBeExpunged (seqSet : Option (List (Nat × Nat))) (row : state.snapMsg) : Bool :=
  state.ContainsUnchecked row.flags state.FlagDeletedLowerCase &&
    match seqSet with
    | none => true
    | some intervals => state.containsAny intervals row.UID

/-- Modelled from the spec: the sequence numbers that `Mailbox.Expunge` removes:
those of the rows marked `\Deleted` (within the sequence set, if there is
one), from the highest to the lowest. -/
def Mailbox.toExpunge (m : Mailbox) (seqSet : Option (List (Nat × Nat))) : List Nat :=
  (((List.range m.snap.length).filter
      (fun i => (m.snap[i]?).any (toBeExpunged seqSet))).reverse).map (fun i => i + 1)

/-- Modelled from the spec: `Mailbox.Expunge`: the `deleted` flag is the marker
consulted by EXPUNGE; each marked row is expunged from the snapshot. -/
def Mailbox.Expunge (m : Mailbox) (seqSet : Option (List (Nat × Nat))) : Mailbox :=
  (m.toExpunge seqSet).foldl Mailbox.expunge m

/-- Modelled from the spec: `flush` for a session with no update pending from
other sessions: when the command permits expunge responses, one `EXPUNGE` per
removed message, in descending order of the sequence numbers, and the queue is
emptied; otherwise the expunges stay deferred. -/
def flush (m : Mailbox) (permitExpunge : Bool) : Mailbox × List Response :=
  if permitExpunge then
    ({ m with pendingExpunge := [] },
     (m.pendingExpunge.insertionSort (fun a b => b ≤ a)).map Response.Expunge)
  else (m, [])

/-- The operations of the modelled mailbox, none of which fails. -/
def mailboxOps : MailboxOps Mailbox :=
  { ReadOnly := fun m => m.readOnly,
    Expunge := fun _ seqSet m => (none, m.Expunge seqSet),
    flush := fun _ m permitExpunge => (none, flush m permitExpunge) }

/-- A mailbox with the UIDs 1 to 5 in which the messages 2 and 4 are marked
`\Deleted`. -/
def exampleMailbox (readOnly : Bool) : Mailbox :=
  { readOnly := readOnly,
    snap := [{ ID := 11, UID := 1, flags := [] },
             { ID := 12, UID := 2, flags := [rfcparser.bytes "\x5cdeleted"] },
             { ID := 13, UID := 3, flags := [] },
             { ID := 14, UID := 4, flags := [rfcparser.bytes "\x5cdeleted"] },
             { ID := 15, UID := 5, flags := [] }],
    pendingExpunge := [] }

end session

/-! ## Numbers of a fixed length and quoted strings (`rfcparser/parser.go`) -/

namespace rfcparser

/-- Loop of `Parser.ParseNumberN`: at most `count` further digits are taken, and
the loop is left at the first token that is not a digit. -/
def Parser.ParseNumberN.loop : Nat → Int → Parser → Except Err Int × Parser
  | 0, number, p => (.ok number, p)
  | count + 1, number, p =>
    match p.Matches .Digit with
    | (.error e, p1) => (.error e, p1)
    | (.ok true, p1) =>
      Parser.ParseNumberN.loop count
        (wrap64 (wrap64 (number * 10) + ByteToInt p1.previousToken.Value)) p1
    | (.ok false, p1) => (.ok number, p1)

/-- `Parser.ParseNumberN`; the loop `for i := 0; i < n-1; i++` runs at most
`n - 1` times. -/
def Parser.ParseNumberN (p : Parser) (n : Int) : Except Err Int × Parser :=
  if n = 0 then (.error (p.MakeError "requested ParserNumberN with 0 length number"), p)
  else
    match p.Consume .Digit "expected valid digit for number" with
    | (.error e, p1) => (.error e, p1)
    | (.ok (), p1) =>
      Parser.ParseNumberN.loop (n - 1).toNat (ByteToInt p1.previousToken.Value) p1

/-- A `QUOTED-CHAR` as it is written between the quotes: a byte that stands for
itself, or a byte written after a backslash. -/
inductive QuotedItem where
  | plain (b : Nat) : QuotedItem
  | escaped (b : Nat) : QuotedItem
  deriving DecidableEq, Repr

/-- The item is well formed for the code: a plain byte is none of the
quoted-specials, an escaped byte is one of them. -/
def QuotedItem.wellFormed : QuotedItem → Bool
  | .plain b => IsQuotedChar (classify b)
  | .escaped b => IsQuotedSpecial (classify b)

/-- The bytes that write the item. -/
def QuotedItem.written : QuotedItem → List Nat
  | .plain b => [b]
  | .escaped b => [0x5c, b]

/-- The byte that the item stands for. -/
def QuotedItem.value : QuotedItem → Nat
  | .plain b => b
  | .escaped b => b

/-- The bytes between the quotes for a sequence of items. -/
def quotedBytes : List QuotedItem → List Nat
  | [] => []
  | item :: items => item.written ++ quotedBytes items

/-- `TEXT-CHAR` of RFC 3501: any `CHAR` (1 to 127) except CR and LF. -/
def IsTextChar (b : Nat) : Bool := 1 ≤ b && b ≤ 127 && b != 0x0d && b != 0x0a

end rfcparser

/-! ## Lazy fetching of the search data (`internal/state/mailbox_search.go`) -/

namespace state

/-- What `buildSearchData` fetches from outside this file: the date and size of
a message from the database, its literal from the store, the header part that
`rfc822.Split` cuts from a literal, and the header that `rfc822.NewHeader`
parses from it (as the function `header.Get`). -/
structure Fetch where
  GetMessageDateAndSize : Nat → Except String dbMessage
  getLiteral : Nat → Except String (List Nat)
  Split : List Nat → List Nat
  NewHeader : List Nat → Except String (List Nat → List Nat)

/-- The value `searchData{message: message}` that `buildSearchData` starts from:
no literal, the zero time and size, no header. -/
def emptyData (message : snapMsgWithSeq) : searchData :=
  { message := message, literal := [],
    dbMessage := { date := { unixNano := -62135596800000000000, zoneOffset := 0 }, size := 0 },
    header := fun _ => [] }

/-- `buildSearchData`. -/
def buildSearchData (f : Fetch) (op : buildSearchOpResult) (message : snapMsgWithSeq) :
    Except String searchData :=
  let data := emptyData message
  match (if op.needsMessage then
      match f.GetMessageDateAndSize message.ID with
      | .error e => .error e
      | .ok dbm => .ok { data with dbMessage := { size := dbm.size, date := dbm.date } }
    else .ok data : Except String searchData) with
  | .error e => .error e
  | .ok data =>
  match (if op.needsLiteral then
      match f.getLiteral message.ID with
      | .error e => .error e
      | .ok l => .ok { data with literal := l }
    else .ok data : Except String searchData) with
  | .error e => .error e
  | .ok data =>
  if op.needsHeader then
    match f.NewHeader (f.Split data.literal) with
    | .error e => .error e
    | .ok h => .ok { data with header := h }
  else .ok data

/-- `applySearch`. -/
def applySearch (f : Fetch) (msg : snapMsgWithSeq) (searchOp : buildSearchOpResult) :
    Except String Bool :=
  match buildSearchData f searchOp msg with
  | .error e => .error e
  | .ok data => searchOp.op data

/-- Two values of `searchData` agree on the snapshot message and on each of the
database row, the literal and the header that the given requirements name. -/
def agreeOn (needsLiteral needsMessage needsHeader : Bool) (s1 s2 : searchData) : Prop :=
  s1.message = s2.message ∧ (needsMessage = true → s1.dbMessage = s2.dbMessage) ∧
  (needsLiteral = true → s1.literal = s2.literal) ∧
  (needsHeader = true → s1.header = s2.header)

/-- A key that is neither `NOT`, `OR` nor a list. -/
def SearchKey.isLeaf : SearchKey → Bool
  | .SearchKWNot _ => false
  | .SearchKWOr _ _ => false
  | .SearchKWList _ => false
  | _ => true

/-- A fetch for the examples: every message has the size 100, the literal
`Subject: hi` CR LF CR LF `body`, and a header with the one field `Subject`. -/
def exampleFetch : Fetch :=
  { GetMessageDateAndSize := fun _ =>
      .ok { date := time.Date 2023 1 1 23 30 0 0 (-18000), size := 100 },
    getLiteral := fun _ => .ok (rfcparser.bytes "Subject: hi\r\n\r\nbody"),
    Split := fun literal => literal.take 13,
    NewHeader := fun header =>
      .ok (fun field =>
        if field = rfcparser.bytes "Subject" ∧ header = rfcparser.bytes "Subject: hi\r\n"
        then rfcparser.bytes "hi" else []) }

end state

/-! ## Stepping lemmas -/

namespace rfcparser

theorem startParser_eq (input : List Nat) (cb : Option (String → Option Err)) :
    startParser input cb
      = Parser.atInput cb ⟨.EOF, 0, 0⟩ input 0 [Event.scan (tokenAt input 0)] := by
  cases input <;> rfl

theorem Advance_atInput_cons (cb : Option (String → Option Err)) (prev : Token) (b : Nat)
    (rest : List Nat) (o : Nat) (tr : List Event) :
    (Parser.atInput cb prev (b :: rest) o tr).Advance
      = (.ok (), Parser.atInput cb ⟨classify b, b, o⟩ rest (o + 1)
          (tr ++ [Event.scan (tokenAt rest (o + 1))])) := by
  cases rest <;> rfl

theorem Advance_atInput_nil (cb : Option (String → Option Err)) (prev : Token)
    (o : Nat) (tr : List Event) :
    (Parser.atInput cb prev [] o tr).Advance
      = (.ok (), Parser.atInput cb ⟨.EOF, 0, o⟩ [] o (tr ++ [Event.scan ⟨.EOF, 0, o⟩])) := rfl

theorem tokenAt_TType (input : List Nat) (o o' : Nat) :
    (tokenAt input o).TType = (tokenAt input o').TType := by
  cases input <;> rfl

theorem ConsumeWith_hit (f : TokenType → Bool) (msg : String)
    (cb : Option (String → Option Err)) (prev : Token) (b : Nat)
    (rest : List Nat) (o : Nat) (tr : List Event) (h : f (classify b) = true) :
    (Parser.atInput cb prev (b :: rest) o tr).ConsumeWith f msg
      = (.ok (), Parser.atInput cb ⟨classify b, b, o⟩ rest (o + 1)
          (tr ++ [Event.scan (tokenAt rest (o + 1))])) := by
  have hc : f (Parser.atInput cb prev (b :: rest) o tr).currentToken.TType = true := h
  rw [Parser.ConsumeWith, if_pos hc, Advance_atInput_cons]

theorem ConsumeWith_miss (f : TokenType → Bool) (msg : String)
    (cb : Option (String → Option Err)) (prev : Token) (input : List Nat)
    (o : Nat) (tr : List Event) (h : stopsAt f input) :
    (Parser.atInput cb prev input o tr).ConsumeWith f msg
      = (.error (.parser prev msg), Parser.atInput cb prev input o tr) := by
  unfold stopsAt at h
  rw [tokenAt_TType input 0 o] at h
  simp [Parser.ConsumeWith, Parser.atInput, h, Parser.MakeError]

theorem Consume_hit (tt : TokenType) (msg : String)
    (cb : Option (String → Option Err)) (prev : Token) (b : Nat)
    (rest : List Nat) (o : Nat) (tr : List Event) (h : classify b = tt) :
    (Parser.atInput cb prev (b :: rest) o tr).Consume tt msg
      = (.ok (), Parser.atInput cb ⟨classify b, b, o⟩ rest (o + 1)
          (tr ++ [Event.scan (tokenAt rest (o + 1))])) := by
  unfold Parser.Consume
  exact ConsumeWith_hit _ msg cb prev b rest o tr (by simp [h])

theorem Consume_miss (tt : TokenType) (msg : String)
    (cb : Option (String → Option Err)) (prev : Token) (input : List Nat)
    (o : Nat) (tr : List Event) (h : (tokenAt input 0).TType ≠ tt) :
    (Parser.atInput cb prev input o tr).Consume tt msg
      = (.error (.parser prev msg), Parser.atInput cb prev input o tr) := by
  unfold Parser.Consume
  exact ConsumeWith_miss _ msg cb prev input o tr (by simp [stopsAt, h])

theorem MatchesWith_hit (f : TokenType → Bool)
    (cb : Option (String → Option Err)) (prev : Token) (b : Nat)
    (rest : List Nat) (o : Nat) (tr : List Event) (h : f (classify b) = true) :
    (Parser.atInput cb prev (b :: rest) o tr).MatchesWith f
      = (.ok true, Parser.atInput cb ⟨classify b, b, o⟩ rest (o + 1)
          (tr ++ [Event.scan (tokenAt rest (o + 1))])) := by
  have hc : f (Parser.atInput cb prev (b :: rest) o tr).currentToken.TType = true := h
  simp only [Parser.MatchesWith, Parser.CheckWith, hc, Advance_atInput_cons]
  rfl

theorem MatchesWith_miss (f : TokenType → Bool)
    (cb : Option (String → Option Err)) (prev : Token) (input : List Nat)
    (o : Nat) (tr : List Event) (h : stopsAt f input) :
    (Parser.atInput cb prev input o tr).MatchesWith f
      = (.ok false, Parser.atInput cb prev input o tr) := by
  unfold stopsAt at h
  rw [tokenAt_TType input 0 o] at h
  simp [Parser.MatchesWith, Parser.CheckWith, Parser.atInput, h]

theorem Matches_eq_MatchesWith (p : Parser) (tt : TokenType) :
    p.Matches tt = p.MatchesWith (fun t => t = tt) := by
  simp [Parser.Matches, Parser.MatchesWith, Parser.Check, Parser.CheckWith]

end rfcparser
namespace rfcparser

theorem ParseNumber_loop_run (rest : List Nat) (hstop : stopsAt (fun t => t = .Digit) rest) :
    ∀ (ds : List Nat) (fuel : Nat) (number : Int) (cb : Option (String → Option Err))
      (prev : Token) (o : Nat) (tr : List Event),
      (∀ d ∈ ds, classify d = .Digit) → ds.length < fuel →
      Parser.ParseNumber.loop fuel number (Parser.atInput cb prev (ds ++ rest) o tr)
        = some (.ok (accDigits number ds),
            Parser.atInput cb (lastToken prev ds o) rest (o + ds.length)
              (tr ++ scanTrace ds rest o)) := by
  intro ds
  induction ds with
  | nil =>
    intro fuel number cb prev o tr _ hf
    obtain ⟨k, rfl⟩ : ∃ k, fuel = k + 1 := ⟨fuel - 1, by simp at hf; omega⟩
    simp only [List.nil_append, Parser.ParseNumber.loop, Matches_eq_MatchesWith,
      MatchesWith_miss _ cb prev rest o tr hstop]
    simp [accDigits, lastToken, scanTrace]
  | cons d ds ih =>
    intro fuel number cb prev o tr hd hf
    obtain ⟨k, rfl⟩ : ∃ k, fuel = k + 1 := ⟨fuel - 1, by simp at hf; omega⟩
    have hd0 : classify d = .Digit := hd d (by simp)
    have hds : ∀ x ∈ ds, classify x = .Digit := fun x hx => hd x (by simp [hx])
    simp only [List.cons_append, Parser.ParseNumber.loop, Matches_eq_MatchesWith]
    rw [MatchesWith_hit _ cb prev d (ds ++ rest) o tr (by simp [hd0])]
    simp only []
    rw [ih k _ cb _ (o + 1) _ hds (by simp at hf; omega)]
    simp [accDigits, lastToken, scanTrace, Parser.atInput, Nat.add_assoc, Nat.add_comm 1]

end rfcparser

namespace rfcparser

theorem ParseNumber_run (rest : List Nat) (hstop : stopsAt (fun t => t = .Digit) rest)
    (d0 : Nat) (ds : List Nat) (fuel : Nat) (cb : Option (String → Option Err))
    (prev : Token) (o : Nat) (tr : List Event)
    (hd0 : classify d0 = .Digit) (hds : ∀ d ∈ ds, classify d = .Digit) (hf : ds.length < fuel) :
    (Parser.atInput cb prev (d0 :: ds ++ rest) o tr).ParseNumber fuel
      = some (.ok (accDigits (ByteToInt d0) ds),
          Parser.atInput cb (lastToken prev (d0 :: ds) o) rest (o + (ds.length + 1))
            (tr ++ scanTrace (d0 :: ds) rest o)) := by
  unfold Parser.ParseNumber
  rw [List.cons_append, Consume_hit _ _ cb prev d0 (ds ++ rest) o tr hd0]
  simp only []
  rw [ParseNumber_loop_run rest hstop ds fuel _ cb _ (o + 1) _ hds hf]
  simp [lastToken, scanTrace, Parser.atInput, Nat.add_assoc, Nat.add_comm 1]

theorem continuations_append (a b : List Event) :
    continuations (a ++ b) = continuations a ++ continuations b := by
  simp [continuations, List.filterMap_append]

theorem literalReads_append (a b : List Event) :
    literalReads (a ++ b) = literalReads a ++ literalReads b := by
  simp [literalReads, List.filterMap_append]

theorem continuations_scanTrace (ds rest : List Nat) (o : Nat) :
    continuations (scanTrace ds rest o) = [] := by
  induction ds generalizing o with
  | nil => rfl
  | cons d ds ih => simpa [scanTrace, continuations] using ih (o + 1)

theorem literalReads_scanTrace (ds rest : List Nat) (o : Nat) :
    literalReads (scanTrace ds rest o) = [] := by
  induction ds generalizing o with
  | nil => rfl
  | cons d ds ih => simpa [scanTrace, literalReads] using ih (o + 1)

/-- State of the parser after the header `'{' digits` of a literal. -/
theorem ParseLiteral_header (rest : List Nat) (hstop : stopsAt (fun t => t = .Digit) rest)
    (d0 : Nat) (ds : List Nat) (fuel : Nat) (cb : Option (String → Option Err))
    (prev : Token) (o : Nat) (tr : List Event)
    (hd0 : classify d0 = .Digit) (hds : ∀ d ∈ ds, classify d = .Digit) (hf : ds.length < fuel)
    (hv : accDigits (ByteToInt d0) ds ≤ 0 ∨ 30 * 1024 * 1024 ≤ accDigits (ByteToInt d0) ds) :
    (Parser.atInput cb prev (0x7b :: d0 :: ds ++ rest) o tr).ParseLiteral fuel
      = some (.error
          (.plain (if accDigits (ByteToInt d0) ds ≤ 0 then "invalid literal size"
                   else "literal size exceeds maximum size of 30MB")),
          Parser.atInput cb (lastToken prev (0x7b :: d0 :: ds) o) rest (o + (ds.length + 2))
            (tr ++ scanTrace (0x7b :: d0 :: ds) rest o)) := by
  unfold Parser.ParseLiteral
  rw [List.cons_append, Consume_hit _ _ cb prev 0x7b (d0 :: ds ++ rest) o tr (by decide)]
  simp only []
  rw [ParseNumber_run rest hstop d0 ds fuel cb _ (o + 1) _ hd0 hds hf]
  simp only []
  have e1 : lastToken prev (0x7b :: d0 :: ds) o
      = lastToken ⟨classify 0x7b, 0x7b, o⟩ (d0 :: ds) (o + 1) := rfl
  have e2 : tr ++ scanTrace (0x7b :: d0 :: ds) rest o
      = tr ++ [Event.scan (tokenAt (d0 :: ds ++ rest) (o + 1))]
          ++ scanTrace (d0 :: ds) rest (o + 1) := by
    simp [scanTrace]
  have e3 : o + (ds.length + 2) = o + 1 + (ds.length + 1) := by omega
  rw [e1, e2, e3]
  by_cases h0 : accDigits (ByteToInt d0) ds ≤ 0
  · simp [h0]
  · have h1 : 30 * 1024 * 1024 ≤ accDigits (ByteToInt d0) ds := by
      rcases hv with h | h
      · exact absurd h h0
      · exact h
    simp only [h0, if_false, ge_iff_le, h1, if_true]

end rfcparser

namespace rfcparser

theorem classify_digit (b : Nat) (h : 48 ≤ b ∧ b ≤ 57) : classify b = .Digit := by
  obtain ⟨h1, h2⟩ := h
  interval_cases b <;> rfl

theorem decimalValue_cons (n d : Nat) (ds : List Nat) :
    decimalValue n (d :: ds) = decimalValue (n * 10 + (d - 48)) ds := by
  simp only [decimalValue, List.foldl_cons]

theorem le_decimalValue (ds : List Nat) : ∀ n : Nat, n ≤ decimalValue n ds := by
  induction ds with
  | nil => intro n; simp [decimalValue]
  | cons d ds ih =>
    intro n
    have h := ih (n * 10 + (d - 48))
    rw [decimalValue_cons]
    generalize decimalValue (n * 10 + (d - 48)) ds = v at h ⊢
    omega

theorem accDigits_eq_decimalValue (ds : List Nat) :
    ∀ n : Nat, (∀ d ∈ ds, 48 ≤ d ∧ d ≤ 57) → decimalValue n ds < 9223372036854775808 →
      accDigits (n : Int) ds = (decimalValue n ds : Int) := by
  induction ds with
  | nil => intro n _ _; simp [decimalValue, accDigits]
  | cons d ds ih =>
    intro n hd h
    have hd0 := hd d (by simp)
    have hds : ∀ x ∈ ds, 48 ≤ x ∧ x ≤ 57 := fun x hx => hd x (by simp [hx])
    rw [decimalValue_cons] at h ⊢
    have hle := le_decimalValue ds (n * 10 + (d - 48))
    have hlt : n * 10 + (d - 48) < 9223372036854775808 := Nat.lt_of_le_of_lt hle h
    have hstep : wrap64 (wrap64 ((n : Int) * 10) + ByteToInt d)
        = ((n * 10 + (d - 48) : Nat) : Int) := by
      unfold wrap64 ByteToInt
      omega
    rw [accDigits, hstep]
    exact ih _ hds h

theorem stopsAt_cons (f : TokenType → Bool) (b : Nat) (rest : List Nat)
    (h : f (classify b) = false) : stopsAt f (b :: rest) := h

theorem bytes_literal_30MiB :
    bytes "{31457280}\r\n" = 0x7b :: 51 :: [49, 52, 53, 55, 50, 56, 48] ++ [0x7d, 0x0d, 0x0a] := by
  decide

/-- C1 (the code at the boundary): for the input `{31457280}` CR LF followed by any
bytes (so also by 31457280 literal bytes), with or without a continuation
callback, `ParseLiteral` returns the error "literal size exceeds maximum size
of 30MB" instead of the literal. -/
theorem C1_literal_of_30MiB_is_rejected (fuel : Nat) (body : List Nat)
    (cb : Option (String → Option Err)) :
    ((startParser (bytes "{31457280}\r\n" ++ body) cb).ParseLiteral (fuel + 8)).map Prod.fst
      = some (.error (.plain "literal size exceeds maximum size of 30MB")) := by
  have hv : accDigits (ByteToInt 51) [49, 52, 53, 55, 50, 56, 48] = 31457280 := by decide
  rw [startParser_eq, bytes_literal_30MiB, List.append_assoc,
    ParseLiteral_header ([0x7d, 0x0d, 0x0a] ++ body) (stopsAt_cons _ _ _ (by decide)) 51 [49, 52, 53, 55, 50, 56, 48]
      (fuel + 8) cb _ 0 _ (by decide) (by decide) (by simp) (by rw [hv]; decide)]
  rw [hv]
  rfl

end rfcparser

namespace rfcparser

/-- C2 (counterexample): the digit string of `{18446744073709551621}` denotes a
number far above 30 MiB, yet `ParseLiteral` succeeds on it: the value wraps
to 5 in 64-bit arithmetic and five literal bytes are read from the scanner. -/
theorem C2_overlong_size_is_accepted :
    31457280 < decimalValue 0 (bytes "18446744073709551621") ∧
    ((startParser (bytes "{18446744073709551621}\r\nabcdefgh") none).ParseLiteral 32).map
        (fun r => (r.1, literalReads r.2.trace))
      = some (.ok (bytes "abcde"), [bytes "abcde"]) := by
  constructor
  · decide
  · set_option maxRecDepth 100000 in decide

/-- C2 (amended): for every literal header `'{' N '}'` whose digit string denotes
a number `N` with 31457280 < N < 2^63 (it fits a 64-bit `int`), `ParseLiteral`
fails, and it neither calls the continuation callback nor reads literal
bytes: the scanner is left right after the `'}'` that was looked at. -/
theorem C2_oversized_literal_is_rejected (d0 : Nat) (ds rest : List Nat) (fuel : Nat)
    (cb : Option (String → Option Err)) (prev : Token) (o : Nat) (tr : List Event)
    (hd : ∀ d ∈ d0 :: ds, 48 ≤ d ∧ d ≤ 57)
    (hlo : 31457280 < decimalValue 0 (d0 :: ds))
    (hhi : decimalValue 0 (d0 :: ds) < 9223372036854775808)
    (hf : ds.length < fuel) :
    ∃ e p', (Parser.atInput cb prev (0x7b :: d0 :: ds ++ 0x7d :: rest) o tr).ParseLiteral fuel
        = some (.error e, p') ∧
      literalReads p'.trace = literalReads tr ∧
      continuations p'.trace = continuations tr ∧
      p'.scanner.source = rest := by
  have hd0 := hd d0 (by simp)
  have hds : ∀ x ∈ ds, 48 ≤ x ∧ x ≤ 57 := fun x hx => hd x (by simp [hx])
  have hb : ByteToInt d0 = ((d0 - 48 : Nat) : Int) := by
    unfold ByteToInt
    omega
  have hdv : decimalValue 0 (d0 :: ds) = decimalValue (d0 - 48) ds := by
    rw [decimalValue_cons]
    simp
  rw [hdv] at hlo hhi
  have hv : accDigits (ByteToInt d0) ds = (decimalValue (d0 - 48) ds : Int) := by
    rw [hb]
    exact accDigits_eq_decimalValue ds _ hds hhi
  have hge : 30 * 1024 * 1024 ≤ accDigits (ByteToInt d0) ds := by
    rw [hv]
    generalize decimalValue (d0 - 48) ds = v at hlo
    omega
  refine ⟨_, _, ParseLiteral_header (0x7d :: rest) (stopsAt_cons _ _ _ (by decide)) d0 ds fuel
    cb prev o tr (classify_digit d0 hd0) (fun d h => classify_digit d (hds d h)) hf (Or.inr hge),
    ?_, ?_, ?_⟩
  · simp [Parser.atInput, literalReads_append, literalReads_scanTrace]
  · simp [Parser.atInput, continuations_append, continuations_scanTrace]
  · simp [Parser.atInput, scannerAt]

/-- C2 (witness): the amended statement at the header `{31457281}`. -/
theorem C2_oversized_literal_is_rejected_witness :
    (∀ d ∈ 51 :: [49, 52, 53, 55, 50, 56, 49], 48 ≤ d ∧ d ≤ 57) ∧
    31457280 < decimalValue 0 (51 :: [49, 52, 53, 55, 50, 56, 49]) ∧
    ∃ e p', (Parser.atInput none ⟨.EOF, 0, 0⟩
          (0x7b :: 51 :: [49, 52, 53, 55, 50, 56, 49] ++ 0x7d :: [13, 10, 97]) 0 []).ParseLiteral 8
        = some (.error e, p') ∧
      literalReads p'.trace = literalReads [] ∧
      continuations p'.trace = continuations [] ∧
      p'.scanner.source = [13, 10, 97] :=
  ⟨by decide, by decide,
    C2_oversized_literal_is_rejected 51 [49, 52, 53, 55, 50, 56, 49] [13, 10, 97] 8 none
      ⟨.EOF, 0, 0⟩ 0 [] (by decide) (by decide) (by decide) (by decide)⟩

/-- C3: for a literal header `{0}` the parser, wherever it stands and whatever
callback is configured, returns an error; the continuation callback is not
called, no literal bytes are read, and the scanner is left right after the
`'}'` that was looked at. -/
theorem C3_zero_size_literal_fails (fuel : Nat) (cb : Option (String → Option Err))
    (prev : Token) (o : Nat) (tr : List Event) (rest : List Nat) :
    ∃ e p', (Parser.atInput cb prev (bytes "{0}" ++ rest) o tr).ParseLiteral (fuel + 1)
        = some (.error e, p') ∧
      continuations p'.trace = continuations tr ∧
      literalReads p'.trace = literalReads tr ∧
      p'.scanner.source = rest := by
  have hb : bytes "{0}" ++ rest = 0x7b :: 48 :: [] ++ 0x7d :: rest := by
    have : bytes "{0}" = [0x7b, 48, 0x7d] := by decide
    rw [this]; rfl
  rw [hb]
  refine ⟨_, _, ParseLiteral_header (0x7d :: rest) (stopsAt_cons _ _ _ (by decide)) 48 []
    (fuel + 1) cb prev o tr (by decide) (by simp) (by simp) (Or.inl (by decide)), ?_, ?_, ?_⟩
  · simp [Parser.atInput, continuations_append, continuations_scanTrace]
  · simp [Parser.atInput, literalReads_append, literalReads_scanTrace]
  · simp [Parser.atInput, scannerAt]

/-- C6 (the code on a bad size): the error that `ParseLiteral` returns for the
header `{0}`, and the one it returns for `{31457281}`, is not a parser
`Error`: `IsError` is false for it and it carries no token. -/
theorem C6_size_errors_are_not_parser_errors (fuel : Nat) (cb : Option (String → Option Err))
    (prev : Token) (o : Nat) (tr : List Event) (rest : List Nat) :
    (∃ e p', (Parser.atInput cb prev (bytes "{0}" ++ rest) o tr).ParseLiteral (fuel + 8)
        = some (.error e, p') ∧ IsError e = false ∧ e.asParserError = none) ∧
    (∃ e p', (Parser.atInput cb prev (bytes "{31457281}" ++ rest) o tr).ParseLiteral (fuel + 8)
        = some (.error e, p') ∧ IsError e = false ∧ e.asParserError = none) := by
  constructor
  · have hb : bytes "{0}" ++ rest = 0x7b :: 48 :: [] ++ 0x7d :: rest := by
      have : bytes "{0}" = [0x7b, 48, 0x7d] := by decide
      rw [this]; rfl
    rw [hb]
    refine ⟨_, _, ParseLiteral_header (0x7d :: rest) (stopsAt_cons _ _ _ (by decide)) 48 []
      (fuel + 8) cb prev o tr (by decide) (by simp) (by simp) (Or.inl (by decide)), ?_, ?_⟩
    · split <;> rfl
    · split <;> rfl
  · have hb : bytes "{31457281}" ++ rest
        = 0x7b :: 51 :: [49, 52, 53, 55, 50, 56, 49] ++ 0x7d :: rest := by
      have : bytes "{31457281}" = [0x7b, 51, 49, 52, 53, 55, 50, 56, 49, 0x7d] := by decide
      rw [this]; rfl
    rw [hb]
    refine ⟨_, _, ParseLiteral_header (0x7d :: rest) (stopsAt_cons _ _ _ (by decide)) 51
      [49, 52, 53, 55, 50, 56, 49] (fuel + 8) cb prev o tr (by decide) (by decide) (by simp)
      (Or.inr (by decide)), ?_, ?_⟩
    · split <;> rfl
    · split <;> rfl

end rfcparser

/-! ## The bytes of a literal -/

namespace rfcparser

theorem callContinuation_atInput (cb : Option (String → Option Err)) (prev : Token)
    (rest : List Nat) (o : Nat) (tr : List Event)
    (hcb : ∀ f, cb = some f → f DefaultContinuationMessage = none) :
    (Parser.atInput cb prev (0x0a :: rest) o tr).callContinuation DefaultContinuationMessage
      = (.ok (), Parser.atInput cb prev (0x0a :: rest) o
          (tr ++ (if cb.isSome then [Event.continuation DefaultContinuationMessage] else []))) := by
  cases cb with
  | none => simp [Parser.callContinuation, Parser.atInput, Parser.Check, tokenAt]
  | some f =>
    have hf := hcb f rfl
    have hc : (Parser.atInput (some f) prev (0x0a :: rest) o tr).Check .LF = true := by rfl
    simp only [Parser.callContinuation, hc, if_true]
    simp [Parser.atInput, hf]

theorem ConsumeBytes_scannerAt (b0 : Nat) (bs rest : List Nat) (o : Nat) :
    (scannerAt (b0 :: bs ++ rest) o).ConsumeBytes (bs.length + 1)
      = (.ok (b0 :: bs),
          { source := rest, currentOffset := o + (bs.length + 1), lookahead := none }) := by
  simp [Scanner.ConsumeBytes, scannerAt, Scanner.pending, List.take_append, List.drop_append]

/-- A literal parse that succeeds: the header `'{' digits '}'` CR LF, then the
bytes of the literal. -/
theorem ParseLiteral_run (d0 : Nat) (ds : List Nat) (b0 : Nat) (bs rest : List Nat) (fuel : Nat)
    (cb : Option (String → Option Err)) (prev : Token) (o : Nat) (tr : List Event)
    (hd0 : classify d0 = .Digit) (hds : ∀ d ∈ ds, classify d = .Digit) (hf : ds.length < fuel)
    (hv : accDigits (ByteToInt d0) ds = ((bs.length + 1 : Nat) : Int))
    (hmax : bs.length + 1 < 31457280)
    (hcb : ∀ f, cb = some f → f DefaultContinuationMessage = none) :
    (Parser.atInput cb prev (0x7b :: d0 :: ds ++ 0x7d :: 0x0d :: 0x0a :: (b0 :: bs ++ rest))
        o tr).ParseLiteral fuel
      = some (.ok (b0 :: bs),
          Parser.atInput cb ⟨classify b0, b0, o + (ds.length + 5)⟩ rest
            (o + (ds.length + 5) + (bs.length + 1))
            (tr ++ scanTrace (0x7b :: d0 :: ds) (0x7d :: 0x0d :: 0x0a :: (b0 :: bs ++ rest)) o
              ++ [Event.scan ⟨.CR, 0x0d, o + (ds.length + 3)⟩,
                  Event.scan ⟨.LF, 0x0a, o + (ds.length + 4)⟩]
              ++ (if cb.isSome then [Event.continuation DefaultContinuationMessage] else [])
              ++ [Event.scan ⟨classify b0, b0, o + (ds.length + 5)⟩,
                  Event.consumeBytes (b0 :: bs),
                  Event.scan (tokenAt rest (o + (ds.length + 5) + (bs.length + 1)))])) := by
  unfold Parser.ParseLiteral
  rw [List.cons_append, Consume_hit _ _ cb prev 0x7b _ o tr (by decide)]
  simp only []
  rw [ParseNumber_run (0x7d :: 0x0d :: 0x0a :: (b0 :: bs ++ rest)) (stopsAt_cons _ _ _ (by decide))
    d0 ds fuel cb _ (o + 1) _ hd0 hds hf]
  simp only [hv]
  have h1 : ¬ (((bs.length + 1 : Nat) : Int) ≤ 0) := by omega
  have h2 : ¬ (((bs.length + 1 : Nat) : Int) ≥ 30 * 1024 * 1024) := by omega
  simp only [h1, h2, if_false]
  rw [Consume_hit _ _ cb _ 0x7d _ _ _ (by decide)]
  simp only []
  rw [Consume_hit _ _ cb _ 0x0d _ _ _ (by decide)]
  simp only []
  rw [callContinuation_atInput cb _ _ _ _ hcb]
  simp only []
  rw [Consume_hit _ _ cb _ 0x0a _ _ _ (by decide)]
  simp only []
  have hs : (Parser.atInput cb ⟨classify 0x0a, 0x0a, o + 1 + (ds.length + 1) + 1 + 1⟩
      (b0 :: bs ++ rest) (o + 1 + (ds.length + 1) + 1 + 1 + 1)
      (tr ++ [Event.scan (tokenAt (d0 :: ds ++ 0x7d :: 0x0d :: 0x0a :: (b0 :: bs ++ rest)) (o + 1))]
        ++ scanTrace (d0 :: ds) (0x7d :: 0x0d :: 0x0a :: (b0 :: bs ++ rest)) (o + 1)
        ++ [Event.scan (tokenAt (0x0d :: 0x0a :: (b0 :: bs ++ rest)) (o + 1 + (ds.length + 1) + 1))]
        ++ [Event.scan (tokenAt (0x0a :: (b0 :: bs ++ rest)) (o + 1 + (ds.length + 1) + 1 + 1))]
        ++ (if cb.isSome then [Event.continuation DefaultContinuationMessage] else [])
        ++ [Event.scan (tokenAt (b0 :: bs ++ rest) (o + 1 + (ds.length + 1) + 1 + 1 + 1))])).scanner
      = scannerAt (b0 :: bs ++ rest) (o + 1 + (ds.length + 1) + 1 + 1 + 1) := rfl
  rw [hs]
  have hn : ((bs.length + 1 : Nat) : Int).toNat = bs.length + 1 := by simp
  rw [hn, ConsumeBytes_scannerAt]
  have e5 : o + 1 + (ds.length + 1) + 1 + 1 + 1 = o + (ds.length + 5) := by omega
  have e4 : o + 1 + (ds.length + 1) + 1 + 1 = o + (ds.length + 4) := by omega
  have e3 : o + 1 + (ds.length + 1) + 1 = o + (ds.length + 3) := by omega
  rw [e5, e4, e3]
  cases rest with
  | nil =>
    simp [Parser.Advance, Scanner.ScanToken, Parser.atInput, scannerAt, tokenAt, scanTrace,
      List.append_assoc]
    decide
  | cons r rs =>
    simp [Parser.Advance, Scanner.ScanToken, Parser.atInput, scannerAt, tokenAt, scanTrace,
      List.append_assoc]
    decide


/-- C4: for every size `N` that `ParseLiteral` accepts (0 < N < 30 MiB, written as
a digit string, leading zeros allowed) and every sequence `b` of `N` bytes,
whatever their values, the parse of `{N}` CR LF `b` followed by any further
input returns exactly `b`, and the parser it leaves stands on what follows:
its current token is the token of the first byte after `b`, or the `EOF`
token when nothing follows. A configured continuation callback is assumed not
to fail. -/
theorem C4_literal_is_returned_exactly (d0 : Nat) (ds b rest : List Nat) (fuel : Nat)
    (cb : Option (String → Option Err)) (prev : Token) (o : Nat) (tr : List Event)
    (hd : ∀ d ∈ d0 :: ds, 48 ≤ d ∧ d ≤ 57)
    (hlen : b.length = decimalValue 0 (d0 :: ds))
    (hpos : 0 < decimalValue 0 (d0 :: ds))
    (hmax : decimalValue 0 (d0 :: ds) < 31457280)
    (hcb : ∀ f, cb = some f → f DefaultContinuationMessage = none)
    (hf : ds.length < fuel) :
    ∃ p', (Parser.atInput cb prev (0x7b :: d0 :: ds ++ 0x7d :: 0x0d :: 0x0a :: (b ++ rest))
          o tr).ParseLiteral fuel = some (.ok b, p') ∧
      p'.currentToken = tokenAt rest (o + (ds.length + 5) + b.length) ∧
      p'.scanner = scannerAt rest (o + (ds.length + 5) + b.length) ∧
      literalReads p'.trace = literalReads tr ++ [b] := by
  have hd0 := hd d0 (by simp)
  have hds : ∀ x ∈ ds, 48 ≤ x ∧ x ≤ 57 := fun x hx => hd x (by simp [hx])
  have hb : ByteToInt d0 = ((d0 - 48 : Nat) : Int) := by
    unfold ByteToInt
    omega
  have hdv : decimalValue 0 (d0 :: ds) = decimalValue (d0 - 48) ds := by
    rw [decimalValue_cons]
    simp
  cases b with
  | nil =>
    rw [← hlen] at hpos
    simp at hpos
  | cons b0 bs =>
    have hl : decimalValue (d0 - 48) ds = bs.length + 1 := by
      rw [← hdv, ← hlen]
      rfl
    have hv : accDigits (ByteToInt d0) ds = ((bs.length + 1 : Nat) : Int) := by
      rw [hb, accDigits_eq_decimalValue ds _ hds (by rw [hl]; omega), hl]
    have hm : bs.length + 1 < 31457280 := by
      rw [← hl, ← hdv]
      exact hmax
    refine ⟨_, ParseLiteral_run d0 ds b0 bs rest fuel cb prev o tr (classify_digit d0 hd0)
      (fun d h => classify_digit d (hds d h)) hf hv hm hcb, rfl, rfl, ?_⟩
    simp only [Parser.atInput, literalReads_append, literalReads_scanTrace]
    cases cb <;> simp [literalReads]

/-- C4 (witness): the literal of the scenario with embedded line ends, the twelve
bytes `AB` CR LF `CD` CR LF `EFGH`, followed by a closing parenthesis. -/
theorem C4_literal_is_returned_exactly_witness :
    ∃ p', (startParser (bytes "{12}\r\nAB\r\nCD\r\nEFGH)\r\n") none).ParseLiteral 8
        = some (.ok (bytes "AB\r\nCD\r\nEFGH"), p') ∧
      p'.currentToken = ⟨.RParen, 0x29, 18⟩ :=
  let ⟨p', h1, h2, _⟩ := C4_literal_is_returned_exactly 0x31 [0x32] (bytes "AB\r\nCD\r\nEFGH")
    (bytes ")\r\n") 8 none ⟨.EOF, 0, 0⟩ 0 [Event.scan ⟨.LCurly, 0x7b, 0⟩] (by decide) (by decide)
    (by decide) (by decide) (by simp) (by decide)
  ⟨p', h1, h2⟩

end rfcparser

namespace rfcparser

/-! ## Effects of a literal parse on an arbitrary parser state -/

theorem Advance_inv (p : Parser) :
    ∃ p1, p.Advance = (.ok (), p1) ∧
      p1.literalContinuationCb = p.literalContinuationCb ∧
      p1.previousToken = p.currentToken ∧
      p1.trace = p.trace ++ [Event.scan p1.currentToken] := by
  unfold Parser.Advance Scanner.ScanToken
  cases h : p.scanner.source <;> simp [h]

theorem Consume_inv (p p1 : Parser) (tt : TokenType) (msg : String)
    (h : p.Consume tt msg = (.ok (), p1)) :
    p.currentToken.TType = tt ∧ p.Advance = (.ok (), p1) ∧
      p1.literalContinuationCb = p.literalContinuationCb ∧
      p1.previousToken = p.currentToken ∧
      p1.trace = p.trace ++ [Event.scan p1.currentToken] := by
  unfold Parser.Consume Parser.ConsumeWith at h
  by_cases hc : p.currentToken.TType = tt
  · simp only [hc, decide_True, if_true] at h
    obtain ⟨q, hq, h1, h2, h3⟩ := Advance_inv p
    rw [hq] at h
    have : q = p1 := by simpa using h
    subst this
    exact ⟨hc, hq, h1, h2, h3⟩
  · simp [hc] at h

theorem ParseNumber_loop_inv :
    ∀ (fuel : Nat) (number : Int) (p : Parser) (r : Except Err Int) (p' : Parser),
      Parser.ParseNumber.loop fuel number p = some (r, p') →
      p'.literalContinuationCb = p.literalContinuationCb ∧
      ∃ pre, p'.trace = p.trace ++ pre ∧ continuations pre = [] ∧ literalReads pre = [] := by
  intro fuel
  induction fuel with
  | zero => intro number p r p' h; simp [Parser.ParseNumber.loop] at h
  | succ k ih =>
    intro number p r p' h
    unfold Parser.ParseNumber.loop Parser.Matches at h
    by_cases hc : p.Check .Digit = true
    · obtain ⟨q, hq, h1, _, h3⟩ := Advance_inv p
      simp only [hc, Bool.not_true, Bool.false_eq_true, if_false, hq] at h
      obtain ⟨e1, pre, e2, e3, e4⟩ := ih _ q r p' h
      refine ⟨e1.trans h1, [Event.scan q.currentToken] ++ pre, ?_, ?_, ?_⟩
      · rw [e2, h3, List.append_assoc]
      · rw [continuations_append, e3]; rfl
      · rw [literalReads_append, e4]; rfl
    · simp only [hc, Bool.not_false, if_true] at h
      have : r = .ok number ∧ p' = p := by
        simp only [Option.some.injEq, Prod.mk.injEq] at h
        exact ⟨h.1.symm, h.2.symm⟩
      obtain ⟨_, rfl⟩ := this
      exact ⟨rfl, [], by simp, rfl, rfl⟩

theorem ParseNumber_inv (fuel : Nat) (p : Parser) (n : Int) (p' : Parser)
    (h : p.ParseNumber fuel = some (.ok n, p')) :
    p'.literalContinuationCb = p.literalContinuationCb ∧
    ∃ pre, p'.trace = p.trace ++ pre ∧ continuations pre = [] ∧ literalReads pre = [] := by
  unfold Parser.ParseNumber at h
  split at h
  · simp at h
  · rename_i q hq
    obtain ⟨_, _, h1, _, h3⟩ := Consume_inv p q _ _ hq
    obtain ⟨e1, pre, e2, e3, e4⟩ := ParseNumber_loop_inv fuel _ q _ p' h
    refine ⟨e1.trans h1, [Event.scan q.currentToken] ++ pre, ?_, ?_, ?_⟩
    · rw [e2, h3, List.append_assoc]
    · rw [continuations_append, e3]; rfl
    · rw [literalReads_append, e4]; rfl

end rfcparser

namespace rfcparser

theorem callContinuation_inv (p p1 : Parser) (msg : String)
    (h : p.callContinuation msg = (.ok (), p1)) :
    p1.currentToken = p.currentToken ∧
    (p.currentToken.TType = .LF →
      p1.trace = p.trace ++
        (if p.literalContinuationCb.isSome then [Event.continuation msg] else [])) := by
  unfold Parser.callContinuation Parser.Check at h
  by_cases hc : p.currentToken.TType = .LF
  · simp only [hc, decide_True, if_true] at h
    cases hcb : p.literalContinuationCb with
    | none =>
      simp only [hcb] at h
      have : p1 = p := by simpa using h.symm
      subst this
      simp [hcb]
    | some f =>
      simp only [hcb] at h
      cases hf : f msg with
      | some e => simp [hf] at h
      | none =>
        simp only [hf] at h
        have : p1 = { p with trace := p.trace ++ [Event.continuation msg] } := by
          simpa [hcb] using h.symm
        subst this
        simp [hcb]
  · simp only [hc, decide_False, Bool.false_eq_true, if_false] at h
    have : p1 = p := by simpa using h.symm
    subst this
    exact ⟨rfl, fun h' => absurd h' hc⟩

/-- Shape of the trace of a successful `ParseLiteral`. -/
theorem ParseLiteral_ok_inv (fuel : Nat) (p p' : Parser) (lit : List Nat)
    (h : p.ParseLiteral fuel = some (.ok lit, p')) :
    ∃ pre tCR tLF tNext tAfter, tCR.TType = .CR ∧ tLF.TType = .LF ∧
      continuations pre = [] ∧ literalReads pre = [] ∧
      p'.trace = p.trace ++ pre ++ [Event.scan tCR, Event.scan tLF]
        ++ (if p.literalContinuationCb.isSome then [Event.continuation "Ready"] else [])
        ++ [Event.scan tNext, Event.consumeBytes lit, Event.scan tAfter] := by
  unfold Parser.ParseLiteral at h
  split at h
  · simp at h
  rename_i p1 h1
  split at h
  · simp at h
  · simp at h
  rename_i literalSize p2 h2
  split_ifs at h
  · simp at h
  · simp at h
  split at h
  · simp at h
  rename_i p3 h3
  split at h
  · simp at h
  rename_i p4 h4
  split at h
  · simp at h
  rename_i p5 h5
  split at h
  · simp at h
  rename_i p6 h6
  split at h
  · simp at h
  rename_i literal s hs
  obtain ⟨q, hq, _, _, t8⟩ := Advance_inv
    { p6 with scanner := s, trace := p6.trace ++ [Event.consumeBytes literal] }
  simp only [hq, Option.some.injEq, Prod.mk.injEq, Except.ok.injEq] at h
  obtain ⟨rfl, rfl⟩ := h
  obtain ⟨_, _, c1, _, t1⟩ := Consume_inv _ _ _ _ h1
  obtain ⟨c2, pre2, t2, n1, n2⟩ := ParseNumber_inv _ _ _ _ h2
  obtain ⟨_, _, c3, _, t3⟩ := Consume_inv _ _ _ _ h3
  obtain ⟨k4, _, c4, _, t4⟩ := Consume_inv _ _ _ _ h4
  obtain ⟨k5, t5⟩ := callContinuation_inv _ _ _ h5
  obtain ⟨k6, _, c6, _, t6⟩ := Consume_inv _ _ _ _ h6
  have hLF : p4.currentToken.TType = .LF := by rw [← k5]; exact k6
  refine ⟨[Event.scan p1.currentToken] ++ pre2, p3.currentToken, p4.currentToken,
    p6.currentToken, q.currentToken, k4, hLF, ?_, ?_, ?_⟩
  · rw [continuations_append, n1]; rfl
  · rw [literalReads_append, n2]; rfl
  · have hcb : p4.literalContinuationCb = p.literalContinuationCb := by
      rw [c4, c3, c2, c1]
    rw [t8]
    simp only []
    rw [t6, t5 hLF, t4, t3, t2, t1, hcb]
    simp [DefaultContinuationMessage, List.append_assoc]

end rfcparser

namespace rfcparser

/-- Two parser states with the same scanner and the same two tokens. -/
theorem Advance_sim (p q : Parser) (hs : p.scanner = q.scanner)
    (hc : p.currentToken = q.currentToken) :
    ∃ p1 q1, p.Advance = (.ok (), p1) ∧ q.Advance = (.ok (), q1) ∧
      p1.scanner = q1.scanner ∧ p1.currentToken = q1.currentToken ∧
      p1.previousToken = q1.previousToken ∧
      q1.literalContinuationCb = q.literalContinuationCb := by
  unfold Parser.Advance Scanner.ScanToken
  rw [← hs, ← hc]
  cases h : p.scanner.source <;> simp [h]

theorem Consume_sim (p q p1 : Parser) (tt : TokenType) (msg : String)
    (hs : p.scanner = q.scanner) (hc : p.currentToken = q.currentToken)
    (h : p.Consume tt msg = (.ok (), p1)) :
    ∃ q1, q.Consume tt msg = (.ok (), q1) ∧
      p1.scanner = q1.scanner ∧ p1.currentToken = q1.currentToken ∧
      p1.previousToken = q1.previousToken ∧
      q1.literalContinuationCb = q.literalContinuationCb := by
  obtain ⟨ht, ha, _⟩ := Consume_inv p p1 tt msg h
  obtain ⟨p1', q1, e1, e2, r1, r2, r3, r4⟩ := Advance_sim p q hs hc
  rw [ha] at e1
  have : p1 = p1' := by simpa using e1
  subst this
  refine ⟨q1, ?_, r1, r2, r3, r4⟩
  unfold Parser.Consume Parser.ConsumeWith
  rw [← hc]
  simp [ht, e2]

theorem ParseNumber_loop_sim :
    ∀ (fuel : Nat) (number : Int) (p q : Parser) (r : Except Err Int) (p' : Parser),
      p.scanner = q.scanner → p.currentToken = q.currentToken →
      p.previousToken = q.previousToken →
      Parser.ParseNumber.loop fuel number p = some (r, p') →
      ∃ q', Parser.ParseNumber.loop fuel number q = some (r, q') ∧
        p'.scanner = q'.scanner ∧ p'.currentToken = q'.currentToken ∧
        p'.previousToken = q'.previousToken ∧
        q'.literalContinuationCb = q.literalContinuationCb := by
  intro fuel
  induction fuel with
  | zero => intro number p q r p' _ _ _ h; simp [Parser.ParseNumber.loop] at h
  | succ k ih =>
    intro number p q r p' hs hc hp h
    obtain ⟨p1, q1, e1, e2, r1, r2, r3, r4⟩ := Advance_sim p q hs hc
    unfold Parser.ParseNumber.loop Parser.Matches Parser.Check at h ⊢
    rw [← hc]
    by_cases hd : p.currentToken.TType = .Digit
    · simp only [hd, decide_True, Bool.not_true, Bool.false_eq_true, if_false, e1, e2] at h ⊢
      rw [← r3]
      obtain ⟨q', g1, g2, g3, g4, g5⟩ := ih _ p1 q1 r p' r1 r2 r3 h
      exact ⟨q', g1, g2, g3, g4, g5.trans r4⟩
    · simp only [hd, decide_False, Bool.not_false, if_true] at h ⊢
      simp only [Option.some.injEq, Prod.mk.injEq] at h
      obtain ⟨rfl, rfl⟩ := h
      exact ⟨q, rfl, hs, hc, hp, rfl⟩

theorem ParseNumber_sim (fuel : Nat) (p q : Parser) (n : Int) (p' : Parser)
    (hs : p.scanner = q.scanner) (hc : p.currentToken = q.currentToken)
    (h : p.ParseNumber fuel = some (.ok n, p')) :
    ∃ q', q.ParseNumber fuel = some (.ok n, q') ∧
      p'.scanner = q'.scanner ∧ p'.currentToken = q'.currentToken ∧
      p'.previousToken = q'.previousToken ∧
      q'.literalContinuationCb = q.literalContinuationCb := by
  unfold Parser.ParseNumber at h ⊢
  split at h
  · simp at h
  · rename_i p1 h1
    obtain ⟨q1, e1, r1, r2, r3, r4⟩ := Consume_sim p q p1 _ _ hs hc h1
    rw [e1]
    simp only []
    rw [← r3]
    obtain ⟨q', g1, g2, g3, g4, g5⟩ := ParseNumber_loop_sim fuel _ p1 q1 _ p' r1 r2 r3 h
    exact ⟨q', g1, g2, g3, g4, g5.trans r4⟩

/-- A literal parse that succeeds with a callback returns the same bytes
without one. -/
theorem ParseLiteral_without_callback (fuel : Nat) (p p' : Parser) (lit : List Nat)
    (h : p.ParseLiteral fuel = some (.ok lit, p')) :
    ∃ p'', (p.withCallback none).ParseLiteral fuel = some (.ok lit, p'') := by
  unfold Parser.ParseLiteral at h
  split at h
  · simp at h
  rename_i p1 h1
  split at h
  · simp at h
  · simp at h
  rename_i literalSize p2 h2
  split_ifs at h with i1 i2
  · simp at h
  · simp at h
  split at h
  · simp at h
  rename_i p3 h3
  split at h
  · simp at h
  rename_i p4 h4
  split at h
  · simp at h
  rename_i p5 h5
  split at h
  · simp at h
  rename_i p6 h6
  split at h
  · simp at h
  rename_i literal s hs
  obtain ⟨k5, _⟩ := callContinuation_inv _ _ _ h5
  have hsc5 : p5.scanner = p4.scanner := by
    unfold Parser.callContinuation at h5
    split_ifs at h5
    · split at h5
      · split at h5
        · simp at h5
        · simp only [Prod.mk.injEq, true_and] at h5
          rw [← h5]
      · simp only [Prod.mk.injEq, true_and] at h5
        rw [← h5]
    · simp only [Prod.mk.injEq, true_and] at h5
      rw [← h5]
  obtain ⟨q1, e1, a1, b1, _, c1⟩ := Consume_sim p (p.withCallback none) p1 _ _ rfl rfl h1
  obtain ⟨q2, e2, a2, b2, _, c2⟩ := ParseNumber_sim fuel p1 q1 _ p2 a1 b1 h2
  obtain ⟨q3, e3, a3, b3, _, c3⟩ := Consume_sim p2 q2 p3 _ _ a2 b2 h3
  obtain ⟨q4, e4, a4, b4, _, c4⟩ := Consume_sim p3 q3 p4 _ _ a3 b3 h4
  have hcb : q4.literalContinuationCb = none := by
    rw [c4, c3, c2, c1]; rfl
  have e5 : q4.callContinuation DefaultContinuationMessage = (.ok (), q4) := by
    unfold Parser.callContinuation
    rw [hcb]
    split_ifs <;> rfl
  obtain ⟨q6, e6, a6, b6, _, c6⟩ :=
    Consume_sim p5 q4 p6 _ _ (hsc5.trans a4) (k5.trans b4) h6
  obtain ⟨p8, q8, g1, g2, _⟩ := Advance_sim
    { p6 with scanner := s, trace := p6.trace ++ [Event.consumeBytes literal] }
    { q6 with scanner := s, trace := q6.trace ++ [Event.consumeBytes literal] } rfl b6
  simp only [g1, Option.some.injEq, Prod.mk.injEq, Except.ok.injEq] at h
  obtain ⟨rfl, _⟩ := h
  refine ⟨q8, ?_⟩
  unfold Parser.ParseLiteral
  rw [e1]
  simp only []
  rw [e2]
  simp only [i1, i2, if_false]
  rw [e3]
  simp only []
  rw [e4]
  simp only []
  rw [e5]
  simp only []
  rw [e6]
  simp only []
  rw [← a6, hs]
  simp only [g2]

end rfcparser

namespace rfcparser

/-- C5: when a continuation callback is configured, a successful `ParseLiteral`
calls it exactly once, with the message "Ready": in the trace the call comes
right after the scans that loaded the CR and the LF of the header (the CR is
consumed, the LF is the current token) and before the scan that consumes the
LF and before the read of the literal bytes. Without a callback no call is
made, and the parse without the callback succeeds with the same bytes. -/
theorem C5_continuation_is_called_once (fuel : Nat) (p p' : Parser) (lit : List Nat)
    (h : p.ParseLiteral fuel = some (.ok lit, p')) :
    (p.literalContinuationCb.isSome = true →
      continuations p'.trace = continuations p.trace ++ ["Ready"] ∧
      ∃ pre tCR tLF tNext tAfter, tCR.TType = .CR ∧ tLF.TType = .LF ∧
        continuations pre = [] ∧ literalReads pre = [] ∧
        p'.trace = p.trace ++ pre ++
          [Event.scan tCR, Event.scan tLF, Event.continuation "Ready", Event.scan tNext,
           Event.consumeBytes lit, Event.scan tAfter]) ∧
    (p.literalContinuationCb = none → continuations p'.trace = continuations p.trace) ∧
    ∃ p'', (p.withCallback none).ParseLiteral fuel = some (.ok lit, p'') ∧
      continuations p''.trace = continuations p.trace := by
  obtain ⟨pre, tCR, tLF, tNext, tAfter, k1, k2, k3, k4, ht⟩ := ParseLiteral_ok_inv fuel p p' lit h
  refine ⟨?_, ?_, ?_⟩
  · intro hcb
    rw [hcb] at ht
    simp only [if_true] at ht
    refine ⟨?_, pre, tCR, tLF, tNext, tAfter, k1, k2, k3, k4, ?_⟩
    · rw [ht]
      simp only [continuations_append, k3]
      simp [continuations]
    · rw [ht]
      simp [List.append_assoc]
  · intro hcb
    rw [hcb] at ht
    rw [ht]
    simp only [continuations_append, k3]
    simp [continuations]
  · obtain ⟨p'', h''⟩ := ParseLiteral_without_callback fuel p p' lit h
    refine ⟨p'', h'', ?_⟩
    obtain ⟨pre, tCR, tLF, tNext, tAfter, _, _, k3, _, ht⟩ :=
      ParseLiteral_ok_inv fuel (p.withCallback none) p'' lit h''
    rw [ht]
    simp only [continuations_append, k3]
    simp [continuations, Parser.withCallback]

/-- C5 (witness): the literal `{3}` CR LF `abcdef` parsed with a callback that
accepts every message. -/
theorem C5_continuation_is_called_once_witness :
    (startParser (bytes "{3}\r\nabcdef") (some fun _ => none)).ParseLiteral 4
      = some (.ok (bytes "abc"),
          { scanner := { source := [0x65, 0x66], currentOffset := 9, lookahead := some 0x64 },
            literalContinuationCb := some fun _ => none,
            previousToken := ⟨.Char, 0x61, 5⟩, currentToken := ⟨.Char, 0x64, 8⟩,
            trace := [Event.scan ⟨.LCurly, 0x7b, 0⟩, Event.scan ⟨.Digit, 0x33, 1⟩,
              Event.scan ⟨.RCurly, 0x7d, 2⟩, Event.scan ⟨.CR, 0x0d, 3⟩,
              Event.scan ⟨.LF, 0x0a, 4⟩, Event.continuation "Ready",
              Event.scan ⟨.Char, 0x61, 5⟩, Event.consumeBytes (bytes "abc"),
              Event.scan ⟨.Char, 0x64, 8⟩] }) ∧
    ∃ p'', ((startParser (bytes "{3}\r\nabcdef") (some fun _ => none)).withCallback
        none).ParseLiteral 4 = some (.ok (bytes "abc"), p'') ∧
      continuations p''.trace
        = continuations (startParser (bytes "{3}\r\nabcdef") (some fun _ => none)).trace :=
  ⟨rfl, (C5_continuation_is_called_once 4
      (startParser (bytes "{3}\r\nabcdef") (some fun _ => none)) _ (bytes "abc") rfl).2.2⟩

end rfcparser

/-! ## The tag and the keyword of a command line -/

namespace rfcparser

theorem collect_loop_run (f : TokenType → Bool) (rest : List Nat) (hstop : stopsAt f rest) :
    ∀ (ds : List Nat) (fuel : Nat) (value : List Nat) (cb : Option (String → Option Err))
      (prev : Token) (o : Nat) (tr : List Event),
      (∀ d ∈ ds, f (classify d) = true) →
      Parser.CollectBytesWhileMatchesWithPrevWith.loop f fuel value
          (Parser.atInput cb prev (ds ++ rest) o tr)
        = if ds.length < fuel then
            some (.ok (value ++ ds),
              Parser.atInput cb (lastToken prev ds o) rest (o + ds.length)
                (tr ++ scanTrace ds rest o))
          else none := by
  intro ds
  induction ds with
  | nil =>
    intro fuel value cb prev o tr _
    cases fuel with
    | zero => simp [Parser.CollectBytesWhileMatchesWithPrevWith.loop]
    | succ k =>
      simp only [List.nil_append, Parser.CollectBytesWhileMatchesWithPrevWith.loop,
        MatchesWith_miss _ cb prev rest o tr hstop]
      simp [lastToken, scanTrace]
  | cons d ds ih =>
    intro fuel value cb prev o tr hd
    have hd0 : f (classify d) = true := hd d (by simp)
    have hds : ∀ x ∈ ds, f (classify x) = true := fun x hx => hd x (by simp [hx])
    cases fuel with
    | zero => simp [Parser.CollectBytesWhileMatchesWithPrevWith.loop]
    | succ k =>
      simp only [List.cons_append, Parser.CollectBytesWhileMatchesWithPrevWith.loop]
      rw [MatchesWith_hit _ cb prev d (ds ++ rest) o tr hd0]
      simp only []
      rw [ih k _ cb _ (o + 1) _ hds]
      by_cases hk : ds.length < k
      · simp [hk, lastToken, scanTrace, Parser.atInput, Nat.add_assoc, Nat.add_comm 1]
      · simp [hk]

theorem Advance_reset (q : Parser) :
    (q.ResetOffsetCounter).Advance
      = (.ok (), Parser.atInput q.literalContinuationCb q.currentToken q.scanner.source 0
          (q.trace ++ [Event.scan (tokenAt q.scanner.source 0)])) := by
  obtain ⟨⟨src, off⟩, cb, prev, cur, tr⟩ := q
  cases src <;> rfl

end rfcparser

namespace command
open rfcparser

theorem parseCommand_loop_run (rest : List Nat) (hstop : stopsAt (fun t => t = .Char) rest) :
    ∀ (ds : List Nat) (fuel : Nat) (commandBytes : List Nat)
      (cb : Option (String → Option Err)) (prev : Token) (o : Nat) (tr : List Event),
      (∀ d ∈ ds, classify d = .Char) →
      Parser.parseCommand.loop fuel commandBytes (rfcparser.Parser.atInput cb prev (ds ++ rest) o tr)
        = if ds.length < fuel then
            some (.ok (commandBytes ++ ds.map ByteToLower),
              rfcparser.Parser.atInput cb (lastToken prev ds o) rest (o + ds.length)
                (tr ++ scanTrace ds rest o))
          else none := by
  intro ds
  induction ds with
  | nil =>
    intro fuel commandBytes cb prev o tr _
    cases fuel with
    | zero => simp [Parser.parseCommand.loop]
    | succ k =>
      simp only [List.nil_append, Parser.parseCommand.loop, Matches_eq_MatchesWith,
        MatchesWith_miss _ cb prev rest o tr hstop]
      simp [lastToken, scanTrace]
  | cons d ds ih =>
    intro fuel commandBytes cb prev o tr hd
    have hd0 : classify d = .Char := hd d (by simp)
    have hds : ∀ x ∈ ds, classify x = .Char := fun x hx => hd x (by simp [hx])
    cases fuel with
    | zero => simp [Parser.parseCommand.loop]
    | succ k =>
      simp only [List.cons_append, Parser.parseCommand.loop, Matches_eq_MatchesWith]
      rw [MatchesWith_hit _ cb prev d (ds ++ rest) o tr (by simp [hd0])]
      simp only []
      rw [ih k _ cb _ (o + 1) _ hds]
      by_cases hk : ds.length < k
      · simp [hk, lastToken, scanTrace, rfcparser.Parser.atInput, rfcparser.Parser.PreviousToken,
          Nat.add_assoc, Nat.add_comm 1]
      · simp [hk]

theorem tagOf_split (line : List Nat) :
    line = tagOf line ++ line.dropWhile isTagByte ∧
    stopsAt isTagChar (line.dropWhile isTagByte) ∧
    ∀ d ∈ tagOf line, isTagChar (classify d) = true := by
  refine ⟨(List.takeWhile_append_dropWhile isTagByte line).symm, ?_, ?_⟩
  · induction line with
    | nil => rfl
    | cons b l ih =>
      by_cases hb : isTagByte b = true
      · simpa [List.dropWhile, hb] using ih
      · have hb' : isTagByte b = false := by simpa using hb
        simp only [List.dropWhile, hb']
        exact hb'
  · intro d hd
    have h : isTagByte d = true := List.mem_takeWhile_imp hd
    exact h

theorem parseTag_miss {α : Type} (fuel : Nat) (commands : List Nat → Option (Builder α))
    (lastTag lastCmd : List Nat) (cb : Option (String → Option Err)) (prev : Token)
    (input : List Nat) (o : Nat) (tr : List Event) (h : stopsAt isTagChar input) :
    Parser.parseTag fuel
        { parser := rfcparser.Parser.atInput cb prev input o tr, commands := commands,
          lastTag := lastTag, lastCmd := lastCmd }
      = some (.error (Err.parser prev "Invalid tag char detected"),
          { parser := rfcparser.Parser.atInput cb prev input o tr, commands := commands,
            lastTag := lastTag, lastCmd := lastCmd }) := by
  unfold Parser.parseTag
  simp only [ConsumeWith_miss _ _ cb prev input o tr h]

theorem parseTag_run {α : Type} (fuel : Nat) (commands : List Nat → Option (Builder α))
    (lastTag lastCmd : List Nat) (cb : Option (String → Option Err)) (prev : Token)
    (t0 : Nat) (ts rest : List Nat) (o : Nat) (tr : List Event)
    (hstop : stopsAt isTagChar rest) (ht : ∀ d ∈ t0 :: ts, isTagChar (classify d) = true) :
    Parser.parseTag fuel
        { parser := rfcparser.Parser.atInput cb prev (t0 :: ts ++ rest) o tr,
          commands := commands, lastTag := lastTag, lastCmd := lastCmd }
      = if ts.length < fuel then
          some (.ok (t0 :: ts),
            { parser := rfcparser.Parser.atInput cb (lastToken prev (t0 :: ts) o) rest
                (o + (ts.length + 1)) (tr ++ scanTrace (t0 :: ts) rest o),
              commands := commands, lastTag := lastTag, lastCmd := lastCmd })
        else none := by
  have ht0 : isTagChar (classify t0) = true := ht t0 (by simp)
  have hts : ∀ x ∈ ts, isTagChar (classify x) = true := fun x hx => ht x (by simp [hx])
  unfold Parser.parseTag
  rw [List.cons_append, ConsumeWith_hit _ _ cb prev t0 (ts ++ rest) o tr ht0]
  simp only []
  unfold rfcparser.Parser.CollectBytesWhileMatchesWithPrevWith
  simp only []
  have hv : (rfcparser.Parser.atInput cb ⟨classify t0, t0, o⟩ (ts ++ rest) (o + 1)
      (tr ++ [Event.scan (tokenAt (ts ++ rest) (o + 1))])).previousToken.Value = t0 := rfl
  rw [hv, collect_loop_run isTagChar rest hstop ts fuel [t0] cb _ (o + 1) _ hts]
  by_cases hk : ts.length < fuel
  · simp [hk, lastToken, scanTrace, Nat.add_assoc, Nat.add_comm 1]
  · simp [hk]

end command

namespace command
open rfcparser

theorem Parse_bad_tag {α : Type} (fuel : Nat) (cp : Parser α)
    (h : tagOf cp.parser.scanner.source = []) :
    cp.Parse fuel
      = some (({ Tag := [], Payload := none },
            some (Err.parser cp.parser.currentToken "Invalid tag char detected")),
          { parser := rfcparser.Parser.atInput cp.parser.literalContinuationCb
              cp.parser.currentToken cp.parser.scanner.source 0
              (cp.parser.trace ++ [Event.scan (tokenAt cp.parser.scanner.source 0)]),
            commands := cp.commands, lastTag := [], lastCmd := [] }) := by
  obtain ⟨h1, h2, _⟩ := tagOf_split cp.parser.scanner.source
  rw [h, List.nil_append] at h1
  rw [← h1] at h2
  unfold Parser.Parse
  simp only [Advance_reset]
  rw [parseTag_miss fuel _ _ _ _ _ _ _ _ h2]

theorem Parse_tagged {α : Type} (fuel : Nat) (cp : Parser α) (t0 : Nat) (ts : List Nat)
    (h : tagOf cp.parser.scanner.source = t0 :: ts) :
    cp.Parse fuel
      = if ts.length < fuel then
          if (t0 :: ts).map ByteToLower = bytes "done" then
            some (({ Tag := [], Payload := some Payload.DoneCommand }, none),
              { parser := rfcparser.Parser.atInput cp.parser.literalContinuationCb
                  (lastToken cp.parser.currentToken (t0 :: ts) 0)
                  (cp.parser.scanner.source.dropWhile isTagByte) (0 + (ts.length + 1))
                  (cp.parser.trace ++ [Event.scan (tokenAt cp.parser.scanner.source 0)]
                    ++ scanTrace (t0 :: ts) (cp.parser.scanner.source.dropWhile isTagByte) 0),
                commands := cp.commands, lastTag := [], lastCmd := bytes "done" })
          else
            Parser.parseAfterTag fuel (t0 :: ts)
              { parser := rfcparser.Parser.atInput cp.parser.literalContinuationCb
                  (lastToken cp.parser.currentToken (t0 :: ts) 0)
                  (cp.parser.scanner.source.dropWhile isTagByte) (0 + (ts.length + 1))
                  (cp.parser.trace ++ [Event.scan (tokenAt cp.parser.scanner.source 0)]
                    ++ scanTrace (t0 :: ts) (cp.parser.scanner.source.dropWhile isTagByte) 0),
                commands := cp.commands, lastTag := [], lastCmd := [] }
        else none := by
  obtain ⟨h1, h2, h3⟩ := tagOf_split cp.parser.scanner.source
  rw [h] at h1 h3
  unfold Parser.Parse
  simp only [Advance_reset]
  have hsrc : rfcparser.Parser.atInput cp.parser.literalContinuationCb cp.parser.currentToken
        cp.parser.scanner.source 0
        (cp.parser.trace ++ [Event.scan (tokenAt cp.parser.scanner.source 0)])
      = rfcparser.Parser.atInput cp.parser.literalContinuationCb cp.parser.currentToken
        (t0 :: ts ++ cp.parser.scanner.source.dropWhile isTagByte) 0
        (cp.parser.trace ++ [Event.scan (tokenAt cp.parser.scanner.source 0)]) := by
    rw [← h1]
  rw [hsrc, parseTag_run fuel _ _ _ _ _ t0 ts _ 0 _ h2 h3]
  by_cases hk : ts.length < fuel
  · simp only [hk, if_true]
    by_cases hd : (t0 :: ts).map ByteToLower = bytes "done"
    · simp only [hd, if_true]
    · simp only [hd, if_false]
      rfl
  · simp only [hk, if_false]

theorem parseCommand_lastTag {α : Type} (fuel : Nat) (p p' : Parser α)
    (r : Except Err (Payload α)) (h : Parser.parseCommand fuel p = some (r, p')) :
    p'.lastTag = p.lastTag ∧ p'.commands = p.commands := by
  unfold Parser.parseCommand at h
  split at h
  · simp at h
  · simp only [Option.some.injEq, Prod.mk.injEq] at h
    rw [← h.2]
    exact ⟨rfl, rfl⟩
  · simp only [] at h
    split at h
    · simp only [Option.some.injEq, Prod.mk.injEq] at h
      rw [← h.2]
      exact ⟨rfl, rfl⟩
    · split at h
      · simp at h
      · simp only [Option.some.injEq, Prod.mk.injEq] at h
        rw [← h.2]
        exact ⟨rfl, rfl⟩

theorem parseAfterTag_lastTag {α : Type} (fuel : Nat) (tag : List Nat) (p1 p' : Parser α)
    (r : Command α × Option Err) (h : Parser.parseAfterTag fuel tag p1 = some (r, p')) :
    p'.lastTag = tag ∧ r.1.Tag = tag := by
  unfold Parser.parseAfterTag at h
  simp only [] at h
  split at h
  · simp only [Option.some.injEq, Prod.mk.injEq] at h
    rw [← h.2, ← h.1]
    exact ⟨rfl, rfl⟩
  · split at h
    · simp at h
    · rename_i p3 h3
      simp only [Option.some.injEq, Prod.mk.injEq] at h
      rw [← h.2, ← h.1]
      exact ⟨(parseCommand_lastTag _ _ _ _ h3).1, rfl⟩
    · rename_i p3 h3
      have h4 := (parseCommand_lastTag _ _ _ _ h3).1
      split at h
      · simp only [Option.some.injEq, Prod.mk.injEq] at h
        rw [← h.2, ← h.1]
        exact ⟨h4, rfl⟩
      · simp only [Option.some.injEq, Prod.mk.injEq] at h
        rw [← h.2, ← h.1]
        exact ⟨h4, rfl⟩

/-- When `Parse` fails, `LastParsedTag` is the leading run of tag characters of
the bytes that the scanner had not read, whatever tag an earlier command left
in the parser; it is empty exactly when that run is empty, and the failure is
then the one of the tag itself. The tag of the returned command is the same. -/
theorem Parse_failed_lastTag {α : Type} (fuel : Nat) (cp cp' : Parser α)
    (cmd : Command α) (e : Err) (h : cp.Parse fuel = some ((cmd, some e), cp')) :
    cp'.LastParsedTag = tagOf cp.parser.scanner.source ∧
    cmd.Tag = tagOf cp.parser.scanner.source ∧
    (tagOf cp.parser.scanner.source = [] →
      e = Err.parser cp.parser.currentToken "Invalid tag char detected") := by
  cases ht : tagOf cp.parser.scanner.source with
  | nil =>
    rw [Parse_bad_tag fuel cp ht] at h
    simp only [Option.some.injEq, Prod.mk.injEq] at h
    obtain ⟨⟨h1, h2⟩, h3⟩ := h
    rw [← h3, ← h1]
    exact ⟨rfl, rfl, fun _ => h2.symm⟩
  | cons t0 ts =>
    rw [Parse_tagged fuel cp t0 ts ht] at h
    split_ifs at h with hk hd
    · simp at h
    · obtain ⟨h1, h2⟩ := parseAfterTag_lastTag _ _ _ _ _ h
      exact ⟨h1, h2, fun hn => by simp at hn⟩

end command

namespace command
open rfcparser

/-- When the leading run of tag characters of the bytes that the scanner has not
read is `done` in any letter case, `Parse` returns a command with an empty tag
and the `DoneCommand` payload and no error, `LastParsedTag` is empty and
`LastParsedCommand` is "done", whatever follows the run. -/
theorem Parse_done_keyword {α : Type} (fuel : Nat) (cp : Parser α)
    (h : (tagOf cp.parser.scanner.source).map ByteToLower = bytes "done") :
    ∃ cp', cp.Parse (fuel + 4)
        = some (({ Tag := [], Payload := some Payload.DoneCommand }, none), cp') ∧
      cp'.LastParsedTag = [] ∧ cp'.LastParsedCommand = bytes "done" := by
  cases ht : tagOf cp.parser.scanner.source with
  | nil =>
    rw [ht] at h
    exact absurd h (by decide)
  | cons t0 ts =>
    rw [ht] at h
    have hl : ts.length + 1 = 4 := by
      have := congrArg List.length h
      simpa [bytes] using this
    rw [Parse_tagged (fuel + 4) cp t0 ts ht]
    have hk : ts.length < fuel + 4 := by omega
    simp only [hk, h, if_true]
    exact ⟨_, rfl, rfl, rfl⟩

end command

namespace session
open rfcparser command

/-- C7 (the code on an unknown keyword): on the line `tag FOO` CR LF, `Parse`
fails with the plain error "unknown command 'foo'" (not a parser `Error`),
and the turn of the command reader ends in `return`: nothing is published on
the command channel and no further command is read. A line that fails with a
parser `Error`, such as `tag` CR LF, is published with its error. -/
theorem C7_reader_stops_on_unknown_command {α : Type} (builders : List Nat → Builder α)
    (cb : Option (String → Option Err)) (handleStartTLS : List Nat → Option Err) :
    ((command.NewParserWithLiteralContinuationCb (NewScanner (bytes "tag FOO\r\n")) cb
        builders).Parse 8).map (fun r => r.1)
      = some ({ Tag := bytes "tag", Payload := none },
              some (Err.plain "unknown command 'foo'")) ∧
    (readerTurn 8 handleStartTLS
        (command.NewParserWithLiteralContinuationCb (NewScanner (bytes "tag FOO\r\n")) cb
          builders)).map (fun r => r.1)
      = some ReaderStep.stop ∧
    (readerTurn 8 handleStartTLS
        (command.NewParserWithLiteralContinuationCb (NewScanner (bytes "tag\r\n")) cb
          builders)).map (fun r => r.1)
      = some (ReaderStep.publish { Tag := bytes "tag", Payload := none }
          (some (Err.parser ⟨.Char, 0x67, 2⟩ "Expected space after tag"))) := by
  refine ⟨rfl, rfl, rfl⟩

end session

/-! ## Letter case of the command keyword -/

namespace command
open rfcparser

theorem tagOf_line (tag rest : List Nat) (htag : ∀ d ∈ tag, isTagByte d = true)
    (hrest : stopsAt isTagChar rest) :
    tagOf (tag ++ rest) = tag ∧ (tag ++ rest).dropWhile isTagByte = rest := by
  induction tag with
  | nil =>
    cases rest with
    | nil => exact ⟨rfl, rfl⟩
    | cons b l =>
      have hb : isTagByte b = false := hrest
      simp [tagOf, List.takeWhile, List.dropWhile, hb]
  | cons d ds ih =>
    have hd : isTagByte d = true := htag d (by simp)
    obtain ⟨i1, i2⟩ := ih (fun x hx => htag x (by simp [hx]))
    constructor
    · simp only [tagOf] at i1
      simp only [tagOf, List.cons_append, List.takeWhile_cons, hd, if_true, i1]
    · simp only [List.cons_append, List.dropWhile_cons, hd, if_true, i2]

theorem lastToken_samePosition (ds1 : List Nat) :
    ∀ (ds2 : List Nat) (prev1 prev2 : Token) (o : Nat),
      prev1.TType = prev2.TType → prev1.Offset = prev2.Offset →
      ds1.length = ds2.length →
      (∀ d ∈ ds1, classify d = .Char) → (∀ d ∈ ds2, classify d = .Char) →
      (lastToken prev1 ds1 o).TType = (lastToken prev2 ds2 o).TType ∧
      (lastToken prev1 ds1 o).Offset = (lastToken prev2 ds2 o).Offset := by
  induction ds1 with
  | nil =>
    intro ds2 prev1 prev2 o h1 h2 hl _ _
    cases ds2 with
    | nil => exact ⟨h1, h2⟩
    | cons _ _ => simp at hl
  | cons d ds ih =>
    intro ds2 prev1 prev2 o h1 h2 hl hc1 hc2
    cases ds2 with
    | nil => simp at hl
    | cons d' ds' =>
      simp only [lastToken]
      refine ih ds' _ _ (o + 1) ?_ rfl (by simpa using hl)
        (fun x hx => hc1 x (by simp [hx])) (fun x hx => hc2 x (by simp [hx]))
      show classify d = classify d'
      rw [hc1 d (by simp), hc2 d' (by simp)]

theorem ConsumeNewLine_sim (q1 q2 : rfcparser.Parser) (h : q1.samePosition q2) :
    (∃ r1 r2, q1.ConsumeNewLine = (.ok (), r1) ∧ q2.ConsumeNewLine = (.ok (), r2)) ∨
    (∃ e1 e2 r1 r2, q1.ConsumeNewLine = (.error e1, r1) ∧ q2.ConsumeNewLine = (.error e2, r2) ∧
      e1.sameFailure e2) := by
  obtain ⟨hs, _, hc, ht, ho⟩ := h
  obtain ⟨p1, p2, a1, a2, s1, c1, v1, _⟩ := Advance_sim q1 q2 hs hc
  obtain ⟨p1', p2', b1, b2, _⟩ := Advance_sim p1 p2 s1 c1
  unfold rfcparser.Parser.ConsumeNewLine rfcparser.Parser.Consume rfcparser.Parser.ConsumeWith
  rw [← hc]
  by_cases hcr : q1.currentToken.TType = .CR
  · simp only [hcr, decide_True, if_true, a1, a2]
    rw [← c1]
    by_cases hlf : p1.currentToken.TType = .LF
    · simp only [hlf, decide_True, if_true, b1, b2]
      exact Or.inl ⟨_, _, rfl, rfl⟩
    · simp only [hlf, decide_False, Bool.false_eq_true, if_false]
      refine Or.inr ⟨_, _, _, _, rfl, rfl, ?_⟩
      simp only [rfcparser.Parser.MakeError, Err.sameFailure, v1, and_self]
  · simp only [hcr, decide_False, Bool.false_eq_true, if_false]
    refine Or.inr ⟨_, _, _, _, rfl, rfl, ?_⟩
    simp only [rfcparser.Parser.MakeError, Err.sameFailure, ht, ho, and_self]

end command

namespace command
open rfcparser

theorem parseCommand_run {α : Type} (fuel : Nat) (commands : List Nat → Option (Builder α))
    (lastTag lastCmd : List Nat) (cb : Option (String → Option Err)) (prev : Token)
    (kw rest : List Nat) (o : Nat) (tr : List Event)
    (hk : ∀ d ∈ kw, classify d = .Char) (hrest : stopsAt (fun t => t = .Char) rest) :
    Parser.parseCommand fuel
        { parser := rfcparser.Parser.atInput cb prev (kw ++ rest) o tr, commands := commands,
          lastTag := lastTag, lastCmd := lastCmd }
      = if kw.length < fuel then
          match commands (kw.map ByteToLower) with
          | none =>
            some (.error (Err.plain
                ("unknown command \x27" ++ goString (kw.map ByteToLower) ++ "\x27")),
              { parser := rfcparser.Parser.atInput cb (lastToken prev kw o) rest (o + kw.length)
                  (tr ++ scanTrace kw rest o),
                commands := commands, lastTag := lastTag, lastCmd := kw.map ByteToLower })
          | some b =>
            match b fuel (rfcparser.Parser.atInput cb (lastToken prev kw o) rest (o + kw.length)
                (tr ++ scanTrace kw rest o)) with
            | none => none
            | some (r, q1) =>
              some (r, { parser := q1, commands := commands, lastTag := lastTag,
                         lastCmd := kw.map ByteToLower })
        else none := by
  unfold Parser.parseCommand
  simp only []
  rw [parseCommand_loop_run rest hrest kw fuel [] cb prev o tr hk]
  by_cases hf : kw.length < fuel
  · simp only [hf, if_true, List.nil_append]
  · simp only [hf, if_false]

theorem parseAfterTag_sim {α : Type} (fuel : Nat) (tag : List Nat)
    (commands : List Nat → Option (Builder α)) (lastTag lastCmd : List Nat)
    (cb : Option (String → Option Err)) (prev : Token) (kw1 kw2 rest : List Nat) (o : Nat)
    (tr1 tr2 : List Event)
    (hk1 : ∀ d ∈ kw1, classify d = .Char) (hk2 : ∀ d ∈ kw2, classify d = .Char)
    (hcase : kw1.map ByteToLower = kw2.map ByteToLower)
    (hrest : stopsAt (fun t => t = .Char) rest)
    (hblind : ∀ key b, commands key = some b → b.caseBlind) :
    sameOutcome
      (Parser.parseAfterTag fuel tag
        { parser := rfcparser.Parser.atInput cb prev (0x20 :: kw1 ++ rest) o tr1,
          commands := commands, lastTag := lastTag, lastCmd := lastCmd })
      (Parser.parseAfterTag fuel tag
        { parser := rfcparser.Parser.atInput cb prev (0x20 :: kw2 ++ rest) o tr2,
          commands := commands, lastTag := lastTag, lastCmd := lastCmd }) ∧
    ∀ r p, Parser.parseAfterTag fuel tag
        { parser := rfcparser.Parser.atInput cb prev (0x20 :: kw1 ++ rest) o tr1,
          commands := commands, lastTag := lastTag, lastCmd := lastCmd } = some (r, p) →
      p.LastParsedCommand = kw1.map ByteToLower := by
  have hlen : kw1.length = kw2.length := by
    have := congrArg List.length hcase
    simpa using this
  have hpos : ∀ (t1 t2 : List Event),
      (rfcparser.Parser.atInput cb (lastToken ⟨classify 0x20, 0x20, o⟩ kw1 (o + 1)) rest
          (o + 1 + kw1.length) t1).samePosition
        (rfcparser.Parser.atInput cb (lastToken ⟨classify 0x20, 0x20, o⟩ kw2 (o + 1)) rest
          (o + 1 + kw2.length) t2) := by
    intro t1 t2
    obtain ⟨e1, e2⟩ := lastToken_samePosition kw1 kw2 ⟨classify 0x20, 0x20, o⟩
      ⟨classify 0x20, 0x20, o⟩ (o + 1) rfl rfl hlen hk1 hk2
    rw [hlen]
    exact ⟨rfl, rfl, rfl, e1, e2⟩
  unfold Parser.parseAfterTag
  simp only [List.cons_append]
  rw [Consume_hit _ _ cb prev 0x20 (kw1 ++ rest) o tr1 (by decide),
    Consume_hit _ _ cb prev 0x20 (kw2 ++ rest) o tr2 (by decide)]
  simp only []
  rw [parseCommand_run fuel commands tag lastCmd cb _ kw1 rest (o + 1) _ hk1 hrest,
    parseCommand_run fuel commands tag lastCmd cb _ kw2 rest (o + 1) _ hk2 hrest]
  rw [← hcase, ← hlen]
  by_cases hf : kw1.length < fuel
  · simp only [hf, if_true]
    cases hc : commands (kw1.map ByteToLower) with
    | none =>
      simp only []
      refine ⟨⟨rfl, rfl, rfl, rfl⟩, ?_⟩
      intro r p h
      simp only [Option.some.injEq, Prod.mk.injEq] at h
      rw [← h.2]
      rfl
    | some b =>
      simp only []
      have hb := hblind _ b hc fuel _ _ (hpos
        (tr1 ++ [Event.scan (tokenAt (kw1 ++ rest) (o + 1))] ++ scanTrace kw1 rest (o + 1))
        (tr2 ++ [Event.scan (tokenAt (kw2 ++ rest) (o + 1))] ++ scanTrace kw2 rest (o + 1)))
      rw [← hlen] at hb
      revert hb
      cases b fuel (rfcparser.Parser.atInput cb (lastToken ⟨classify 0x20, 0x20, o⟩ kw1 (o + 1))
          rest (o + 1 + kw1.length)
          (tr1 ++ [Event.scan (tokenAt (kw1 ++ rest) (o + 1))] ++ scanTrace kw1 rest (o + 1)))
        with
      | none =>
        cases b fuel (rfcparser.Parser.atInput cb
            (lastToken ⟨classify 0x20, 0x20, o⟩ kw2 (o + 1)) rest (o + 1 + kw1.length)
            (tr2 ++ [Event.scan (tokenAt (kw2 ++ rest) (o + 1))] ++ scanTrace kw2 rest (o + 1)))
          with
        | none =>
          intro _
          exact ⟨trivial, fun r p h => by simp at h⟩
        | some y =>
          obtain ⟨ry, qy⟩ := y
          cases ry <;> intro hb <;> exact absurd hb (by simp)
      | some x =>
        obtain ⟨rx, qx⟩ := x
        cases b fuel (rfcparser.Parser.atInput cb
            (lastToken ⟨classify 0x20, 0x20, o⟩ kw2 (o + 1)) rest (o + 1 + kw1.length)
            (tr2 ++ [Event.scan (tokenAt (kw2 ++ rest) (o + 1))] ++ scanTrace kw2 rest (o + 1)))
          with
        | none =>
          cases rx <;> intro hb <;> exact absurd hb (by simp)
        | some y =>
          obtain ⟨ry, qy⟩ := y
          cases rx with
          | error ex =>
            cases ry with
            | error ey =>
              intro hb
              refine ⟨⟨rfl, hb, rfl, rfl⟩, ?_⟩
              intro r p h
              simp only [Option.some.injEq, Prod.mk.injEq] at h
              rw [← h.2]
              rfl
            | ok vy => intro hb; exact absurd hb (by simp)
          | ok vx =>
            cases ry with
            | error ey => intro hb; exact absurd hb (by simp)
            | ok vy =>
              intro hb
              obtain ⟨hv, hq⟩ := hb
              subst hv
              simp only []
              rcases ConsumeNewLine_sim qx qy hq with ⟨r1, r2, g1, g2⟩ | ⟨e1, e2, r1, r2, g1, g2, g3⟩
              · rw [g1, g2]
                simp only []
                refine ⟨⟨rfl, rfl, rfl⟩, ?_⟩
                intro r p h
                simp only [Option.some.injEq, Prod.mk.injEq] at h
                rw [← h.2]
                rfl
              · rw [g1, g2]
                simp only []
                refine ⟨⟨rfl, g3, rfl, rfl⟩, ?_⟩
                intro r p h
                simp only [Option.some.injEq, Prod.mk.injEq] at h
                rw [← h.2]
                rfl
  · simp only [hf, if_false]
    exact ⟨trivial, fun r p h => by simp at h⟩

end command

namespace command
open rfcparser

/-- C10: two command lines `tag SP keyword rest` that differ only in the letter
case of the keyword have the same `Parse` outcome: the same command (tag and
payload) with no error, or the same failure, or both run out of fuel; and
after either of them `LastParsedCommand` is the keyword in lower case. The
builders of the dispatch map are parameters, assumed not to look at the raw
byte of the token before their input; the tag is one that `Parse` does not take for the DONE keyword. -/
theorem C10_dispatch_ignores_letter_case {α : Type} (fuel : Nat) (cp1 cp2 : Parser α)
    (t0 : Nat) (ts kw1 kw2 rest : List Nat)
    (htag : ∀ d ∈ t0 :: ts, isTagByte d = true)
    (hnd : (t0 :: ts).map ByteToLower ≠ bytes "done")
    (hk1 : ∀ d ∈ kw1, classify d = .Char) (hk2 : ∀ d ∈ kw2, classify d = .Char)
    (hcase : kw1.map ByteToLower = kw2.map ByteToLower)
    (hrest : stopsAt (fun t => t = .Char) rest)
    (hs1 : cp1.parser.scanner.source = (t0 :: ts) ++ (0x20 :: (kw1 ++ rest)))
    (hs2 : cp2.parser.scanner.source = (t0 :: ts) ++ (0x20 :: (kw2 ++ rest)))
    (hcb : cp2.parser.literalContinuationCb = cp1.parser.literalContinuationCb)
    (hcmd : cp2.commands = cp1.commands)
    (hblind : ∀ key b, cp1.commands key = some b → b.caseBlind) :
    sameOutcome (cp1.Parse fuel) (cp2.Parse fuel) ∧
    ∀ r p, cp1.Parse fuel = some (r, p) → p.LastParsedCommand = kw1.map ByteToLower := by
  obtain ⟨a1, b1⟩ := tagOf_line (t0 :: ts) (0x20 :: (kw1 ++ rest)) htag
    (stopsAt_cons _ _ _ (by decide))
  obtain ⟨a2, b2⟩ := tagOf_line (t0 :: ts) (0x20 :: (kw2 ++ rest)) htag
    (stopsAt_cons _ _ _ (by decide))
  rw [← hs1] at a1 b1
  rw [← hs2] at a2 b2
  rw [Parse_tagged fuel cp1 t0 ts a1, Parse_tagged fuel cp2 t0 ts a2]
  by_cases hf : ts.length < fuel
  · simp only [hf, if_true, hnd, if_false, b1, b2, hcb, hcmd]
    have hl : ∀ c : Token, lastToken c (t0 :: ts) 0 = lastToken ⟨classify t0, t0, 0⟩ ts 1 :=
      fun _ => rfl
    rw [hl cp1.parser.currentToken, hl cp2.parser.currentToken]
    have key := parseAfterTag_sim fuel (t0 :: ts) cp1.commands [] []
      cp1.parser.literalContinuationCb (lastToken ⟨classify t0, t0, 0⟩ ts 1) kw1 kw2 rest
      (0 + (ts.length + 1))
      (cp1.parser.trace ++ [Event.scan (tokenAt cp1.parser.scanner.source 0)]
        ++ scanTrace (t0 :: ts) (0x20 :: (kw1 ++ rest)) 0)
      (cp2.parser.trace ++ [Event.scan (tokenAt cp2.parser.scanner.source 0)]
        ++ scanTrace (t0 :: ts) (0x20 :: (kw2 ++ rest)) 0)
      hk1 hk2 hcase hrest hblind
    simp only [List.cons_append] at key
    exact key
  · simp only [hf, if_false]
    exact ⟨trivial, fun r p h => by simp at h⟩

/-- C10 (witness): the lines `a1 NOOP` and `a1 noop`, with a builder that
returns its payload at once. -/
theorem C10_dispatch_ignores_letter_case_witness :
    ((NewParser (α := Nat) (NewScanner (bytes "a1 NOOP\r\n"))
        (fun _ _ q => some (.ok (Payload.Built 0), q))).Parse 8).map (fun r => r.1)
      = some ({ Tag := bytes "a1", Payload := some (Payload.Built 0) }, none) ∧
    sameOutcome
      ((NewParser (α := Nat) (NewScanner (bytes "a1 NOOP\r\n"))
        (fun _ _ q => some (.ok (Payload.Built 0), q))).Parse 8)
      ((NewParser (α := Nat) (NewScanner (bytes "a1 noop\r\n"))
        (fun _ _ q => some (.ok (Payload.Built 0), q))).Parse 8) ∧
    ∀ r p, (NewParser (α := Nat) (NewScanner (bytes "a1 NOOP\r\n"))
        (fun _ _ q => some (.ok (Payload.Built 0), q))).Parse 8 = some (r, p) →
      p.LastParsedCommand = (bytes "NOOP").map ByteToLower :=
  ⟨rfl, C10_dispatch_ignores_letter_case 8 _ _ 0x61 [0x31] (bytes "NOOP") (bytes "noop")
    [0x0d, 0x0a] (by decide) (by decide) (by decide) (by decide) (by decide) (by decide)
    rfl rfl rfl rfl (by
      intro key b hb
      unfold NewParser NewParserWithLiteralContinuationCb dispatch at hb
      simp only [] at hb
      split_ifs at hb
      simp only [Option.some.injEq] at hb
      subst hb
      intro fuel q1 q2 hq
      exact ⟨rfl, hq⟩)⟩

end command

/-! ## UID validity and UID-NEXT -/

namespace db

theorem globalLE_refl (a : Option Nat) : globalLE a a := by
  cases a with
  | none => trivial
  | some x => exact Nat.le_refl x

theorem globalLE_trans (a b c : Option Nat) (h1 : globalLE a b) (h2 : globalLE b c) :
    globalLE a c := by
  cases a with
  | none => trivial
  | some x =>
    cases b with
    | none => exact absurd h1 (by simp [globalLE])
    | some y =>
      cases c with
      | none => exact absurd h2 (by simp [globalLE])
      | some z => exact Nat.le_trans h1 h2

theorem CreateMailbox_ok (tx tx1 : Tx) (mboxID name : List Nat)
    (flags permFlags attrs : List (List Nat)) (mb : Mailbox)
    (h : CreateMailbox tx mboxID name flags permFlags attrs = .ok (mb, tx1)) :
    ∃ g, tx.uidValidity = some g ∧ mb.UIDValidity = g ∧ tx1.uidValidity = some g ∧
      tx1.mailboxes = tx.mailboxes ++ [mb] := by
  unfold CreateMailbox getGlobalUIDValidity at h
  cases hg : tx.uidValidity with
  | none => simp [hg] at h
  | some g =>
    simp only [hg] at h
    split_ifs at h <;>
      (simp only [Except.ok.injEq, Prod.mk.injEq] at h
       obtain ⟨h1, h2⟩ := h
       subst h1 h2
       exact ⟨g, rfl, rfl, rfl, rfl⟩)

theorem DeleteMailboxWithRemoteID_ok (tx tx1 : Tx) (mboxID : List Nat) (res : Nat × Bool)
    (h : DeleteMailboxWithRemoteID tx mboxID = .ok (res, tx1)) :
    ∃ mbox g, tx.mailboxes.filter (fun m => m.RemoteID = some mboxID) = [mbox] ∧
      tx.uidValidity = some g ∧
      res = (if mbox.UIDValidity = g then UID.Add g 1 else g,
             decide ((if mbox.UIDValidity = g then UID.Add g 1 else g) > g)) ∧
      tx1.uidValidity
        = some (if (if mbox.UIDValidity = g then UID.Add g 1 else g) > g
                then (if mbox.UIDValidity = g then UID.Add g 1 else g) else g) ∧
      tx1.mailboxes = tx.mailboxes.filter (fun m => ¬ m.RemoteID = some mboxID) ∧
      tx1.nextID = tx.nextID := by
  unfold DeleteMailboxWithRemoteID getGlobalUIDValidity at h
  split at h
  · simp at h
  · rename_i mbox hf
    cases hg : tx.uidValidity with
    | none => simp [hg] at h
    | some g =>
      simp only [hg, Except.ok.injEq, Prod.mk.injEq] at h
      obtain ⟨h1, h2⟩ := h
      refine ⟨mbox, g, hf, rfl, h1.symm, ?_, ?_, ?_⟩
      · rw [← h2]
        by_cases hc : (if mbox.UIDValidity = g then UID.Add g 1 else g) > g
        · simp [hc, setGlobalUIDValidity, hg]
        · simp [hc, hg]
      · rw [← h2]
        by_cases hc : (if mbox.UIDValidity = g then UID.Add g 1 else g) > g
        · simp [hc, setGlobalUIDValidity]
        · simp [hc]
      · rw [← h2]
        by_cases hc : (if mbox.UIDValidity = g then UID.Add g 1 else g) > g
        · simp [hc, setGlobalUIDValidity]
        · simp [hc]
  · simp at h

theorem InitGlobalUIDValidity_ok (tx : Tx) (v : Nat) :
    InitGlobalUIDValidity tx v
      = .ok { tx with uidValidity := some (match tx.uidValidity with
                                           | none => v
                                           | some c => max c v) } := by
  unfold InitGlobalUIDValidity
  cases hg : tx.uidValidity with
  | none => rfl
  | some c =>
    by_cases hc : v > c
    · have hm : max c v = v := Nat.max_eq_right (Nat.le_of_lt hc)
      simp [hc, setGlobalUIDValidity, hg, hm]
    · have hm : max c v = c := Nat.max_eq_left (Nat.le_of_not_lt hc)
      simp only [hc, if_false, hm]
      cases tx
      simp only [] at hg
      subst hg
      rfl

theorem applyOp_create (tx : Tx) (mboxID name : List Nat)
    (flags permFlags attrs : List (List Nat)) :
    applyOp tx (.create mboxID name flags permFlags attrs)
      = match CreateMailbox tx mboxID name flags permFlags attrs with
        | .ok (_, tx1) => tx1
        | .error _ => tx := rfl

theorem applyOp_delete (tx : Tx) (mboxID : List Nat) :
    applyOp tx (.delete mboxID)
      = match DeleteMailboxWithRemoteID tx mboxID with
        | .ok (_, tx1) => tx1
        | .error _ => tx := rfl

theorem applyOp_init (tx : Tx) (v : Nat) :
    applyOp tx (.init v)
      = { tx with uidValidity := some (match tx.uidValidity with
                                       | none => v
                                       | some c => max c v) } := by
  show (match InitGlobalUIDValidity tx v with
        | .ok tx1 => tx1
        | .error _ => tx) = _
  rw [InitGlobalUIDValidity_ok]

theorem applyOp_globalLE (tx : Tx) (op : Op) :
    globalLE tx.uidValidity (applyOp tx op).uidValidity := by
  cases op with
  | create mboxID name flags permFlags attrs =>
    rw [applyOp_create]
    cases h : CreateMailbox tx mboxID name flags permFlags attrs with
    | error e => exact globalLE_refl _
    | ok r =>
      obtain ⟨mb, tx1⟩ := r
      obtain ⟨g, h1, _, h3, _⟩ := CreateMailbox_ok _ _ _ _ _ _ _ _ h
      simp only [h1, h3]
      exact Nat.le_refl g
  | delete mboxID =>
    rw [applyOp_delete]
    cases h : DeleteMailboxWithRemoteID tx mboxID with
    | error e => exact globalLE_refl _
    | ok r =>
      obtain ⟨res, tx1⟩ := r
      obtain ⟨mbox, g, _, h2, _, h4, _⟩ := DeleteMailboxWithRemoteID_ok _ _ _ _ h
      simp only [h2, h4]
      show g ≤ _
      generalize (if mbox.UIDValidity = g then UID.Add g 1 else g) = nv
      split_ifs <;> omega
  | init v =>
    rw [applyOp_init]
    cases hg : tx.uidValidity with
    | none => trivial
    | some c => exact Nat.le_max_left c v

theorem run_globalLE (ops : List Op) :
    ∀ tx : Tx, globalLE tx.uidValidity (run tx ops).uidValidity := by
  induction ops with
  | nil => intro tx; exact globalLE_refl _
  | cons op ops ih =>
    intro tx
    exact globalLE_trans _ _ _ (applyOp_globalLE tx op) (ih (applyOp tx op))

theorem CreateMailbox_validityBounded (tx tx1 : Tx) (mboxID name : List Nat)
    (flags permFlags attrs : List (List Nat)) (mb : Mailbox)
    (hc : CreateMailbox tx mboxID name flags permFlags attrs = .ok (mb, tx1))
    (h : validityBounded tx) : validityBounded tx1 := by
  obtain ⟨g, h1, h2, h3, h4⟩ := CreateMailbox_ok _ _ _ _ _ _ _ _ hc
  unfold validityBounded at h ⊢
  rw [h1] at h
  rw [h3]
  intro m hm
  rw [h4] at hm
  rcases List.mem_append.mp hm with hm1 | hm1
  · exact h m hm1
  · have : m = mb := by simpa using hm1
    rw [this, h2]

theorem DeleteMailboxWithRemoteID_validityBounded (tx tx1 : Tx) (mboxID : List Nat)
    (res : Nat × Bool) (hd : DeleteMailboxWithRemoteID tx mboxID = .ok (res, tx1))
    (h : validityBounded tx) : validityBounded tx1 := by
  obtain ⟨mbox, g, _, h2, _, h4, h5, _⟩ := DeleteMailboxWithRemoteID_ok _ _ _ _ hd
  unfold validityBounded at h ⊢
  rw [h2] at h
  rw [h4]
  intro m hm
  rw [h5] at hm
  have hle := h m (List.mem_filter.mp hm).1
  show m.UIDValidity ≤ _
  generalize (if mbox.UIDValidity = g then UID.Add g 1 else g) = nv
  split_ifs <;> omega

theorem applyOp_validityBounded (tx : Tx) (op : Op) (h : validityBounded tx) :
    validityBounded (applyOp tx op) := by
  cases op with
  | create mboxID name flags permFlags attrs =>
    rw [applyOp_create]
    cases hc : CreateMailbox tx mboxID name flags permFlags attrs with
    | error e => exact h
    | ok r => exact CreateMailbox_validityBounded _ _ _ _ _ _ _ _ hc h
  | delete mboxID =>
    rw [applyOp_delete]
    cases hd : DeleteMailboxWithRemoteID tx mboxID with
    | error e => exact h
    | ok r => exact DeleteMailboxWithRemoteID_validityBounded _ _ _ _ hd h
  | init v =>
    rw [applyOp_init]
    unfold validityBounded at h ⊢
    cases hg : tx.uidValidity with
    | none =>
      rw [hg] at h
      simp only [h]
      intro m hm
      simp at hm
    | some c =>
      rw [hg] at h
      intro m hm
      exact Nat.le_trans (h m hm) (Nat.le_max_left c v)

theorem run_validityBounded (ops : List Op) :
    ∀ tx : Tx, validityBounded tx → validityBounded (run tx ops) := by
  induction ops with
  | nil => intro tx h; exact h
  | cons op ops ih =>
    intro tx h
    exact ih (applyOp tx op) (applyOp_validityBounded tx op h)

end db

namespace db

/-- C15 (counterexample): with the global UID validity at 2^32 - 1 and a mailbox
of that same UID validity, `DeleteMailboxWithRemoteID` does not store
2^32 and does not return (2^32, true): the 32-bit sum wraps to 0, the global
stays as it is and (0, false) is returned. -/
theorem C15_global_at_maximum_is_not_bumped :
    DeleteMailboxWithRemoteID
        { mailboxes := [⟨1, some [120], [88], 1, 4294967295, [], [], []⟩],
          uidValidity := some 4294967295, nextID := 2 } [120]
      = .ok ((0, false),
          { mailboxes := [], uidValidity := some 4294967295, nextID := 2 }) := by
  decide

/-- C15 (amended): for a mailbox that is the only one with the remote id, of UID
validity `m`, and a stored global `g` below 2^32 - 1: if `m = g` the call stores
`g + 1` and returns `(g + 1, true)`, otherwise it leaves the global as it is
and returns `(g, false)`; in both cases no mailbox with that remote id is left
and the other mailboxes are kept. The boolean is true exactly when the stored
global has grown. -/
theorem C15_delete_bumps_equal_validity (tx : Tx) (mboxID : List Nat) (mbox : Mailbox) (g : Nat)
    (hex : tx.mailboxes.filter (fun m => m.RemoteID = some mboxID) = [mbox])
    (hg : tx.uidValidity = some g) (hlt : g < 4294967295) :
    ∃ tx1, DeleteMailboxWithRemoteID tx mboxID
        = .ok ((if mbox.UIDValidity = g then g + 1 else g, decide (mbox.UIDValidity = g)), tx1) ∧
      tx1.uidValidity = some (if mbox.UIDValidity = g then g + 1 else g) ∧
      tx1.mailboxes = tx.mailboxes.filter (fun m => ¬ m.RemoteID = some mboxID) ∧
      (∀ m ∈ tx1.mailboxes, m.RemoteID ≠ some mboxID) ∧
      (decide (mbox.UIDValidity = g) = true ↔ globalLE (some (g + 1)) tx1.uidValidity) := by
  have hadd : UID.Add g 1 = g + 1 := by
    unfold UID.Add
    omega
  unfold DeleteMailboxWithRemoteID getGlobalUIDValidity
  rw [hex]
  simp only [hg, hadd]
  by_cases hm : mbox.UIDValidity = g
  · simp only [hm, if_true, gt_iff_lt, Nat.lt_succ_self, decide_True]
    refine ⟨_, rfl, ?_, rfl, ?_, ?_⟩
    · simp [setGlobalUIDValidity, hg]
    · intro m h
      simp only [setGlobalUIDValidity] at h
      have := (List.mem_filter.mp h).2
      simpa using this
    · simp [setGlobalUIDValidity, hg, globalLE]
  · simp only [hm, if_false, gt_iff_lt, Nat.lt_irrefl, decide_False]
    refine ⟨_, rfl, hg, rfl, ?_, ?_⟩
    · intro m h
      have := (List.mem_filter.mp h).2
      simpa using this
    · simp [hg, globalLE]

/-- C15 (witness): a mailbox of UID validity 7 deleted while the global is 7. -/
theorem C15_delete_bumps_equal_validity_witness :
    ∃ tx1, DeleteMailboxWithRemoteID
        { mailboxes := [⟨1, some [120], [88], 1, 7, [], [], []⟩, ⟨2, some [121], [89], 1, 7, [], [], []⟩],
          uidValidity := some 7, nextID := 3 } [120]
        = .ok ((if (7 : Nat) = 7 then 7 + 1 else 7, decide ((7 : Nat) = 7)), tx1) ∧
      tx1.uidValidity = some (if (7 : Nat) = 7 then 7 + 1 else 7) ∧
      tx1.mailboxes = [⟨2, some [121], [89], 1, 7, [], [], []⟩] :=
  let ⟨tx1, h1, h2, h3, _⟩ := C15_delete_bumps_equal_validity
    { mailboxes := [⟨1, some [120], [88], 1, 7, [], [], []⟩, ⟨2, some [121], [89], 1, 7, [], [], []⟩],
      uidValidity := some 7, nextID := 3 } [120] ⟨1, some [120], [88], 1, 7, [], [], []⟩ 7
    (by decide) rfl (by decide)
  ⟨tx1, h1, h2, h3.trans (by decide)⟩

/-- C16 (the code at the maximum): after `InitGlobalUIDValidity(4294967295)` and
the creation of a mailbox, the stored global is 4294967295; deleting the
mailbox returns the value 0, which is smaller than the global before the
call, and `false`, while the stored global stays 4294967295. -/
theorem C16_delete_returns_zero_at_maximum :
    (run { mailboxes := [], uidValidity := none, nextID := 1 }
        [Op.init 4294967295, Op.create [120] [88] [] [] []]).uidValidity = some 4294967295 ∧
    DeleteMailboxWithRemoteID
        (run { mailboxes := [], uidValidity := none, nextID := 1 }
          [Op.init 4294967295, Op.create [120] [88] [] [] []]) [120]
      = .ok ((0, false),
          { mailboxes := [], uidValidity := some 4294967295, nextID := 2 }) := by
  decide

/-- C17 (counterexample): with the global UID validity at 2^32 - 1, a mailbox is
created (UID validity 4294967295) and deleted, and the mailbox created next
has UID validity 4294967295 again, not a greater one. -/
theorem C17_no_bump_at_maximum :
    (CreateMailbox
        (run { mailboxes := [], uidValidity := none, nextID := 1 }
          [Op.init 4294967295, Op.create [120] [88] [] [] [], Op.delete [120]])
        [120] [88] [] [] []).map (fun r => r.1.UIDValidity)
      = .ok 4294967295 ∧
    (CreateMailbox
        (run { mailboxes := [], uidValidity := none, nextID := 1 } [Op.init 4294967295])
        [120] [88] [] [] []).map (fun r => r.1.UIDValidity)
      = .ok 4294967295 := by
  decide

/-- C17 (amended): a mailbox is created and receives the UID validity `v`, with
`v` below 2^32 - 1; after any calls of `CreateMailbox`,
`DeleteMailboxWithRemoteID` and `InitGlobalUIDValidity` it is deleted by its
remote id; after any further such calls a mailbox is created: its UID
validity is strictly greater than `v`. If every stored mailbox had a UID
validity of at most the global before the first creation, this holds again
after the last one. -/
theorem C17_recreated_mailbox_has_greater_validity (tx0 tx1 tx3 tx5 : Tx)
    (mboxID name mboxID2 name2 : List Nat) (flags permFlags attrs flags2 permFlags2 attrs2 :
      List (List Nat)) (mb mb2 : Mailbox) (ops1 ops2 : List Op) (res : Nat × Bool)
    (hc : CreateMailbox tx0 mboxID name flags permFlags attrs = .ok (mb, tx1))
    (hv : mb.UIDValidity < 4294967295)
    (hin : mb ∈ (run tx1 ops1).mailboxes)
    (hrid : mb.RemoteID = some mboxID)
    (hd : DeleteMailboxWithRemoteID (run tx1 ops1) mboxID = .ok (res, tx3))
    (hc2 : CreateMailbox (run tx3 ops2) mboxID2 name2 flags2 permFlags2 attrs2 = .ok (mb2, tx5)) :
    mb.UIDValidity < mb2.UIDValidity ∧ (validityBounded tx0 → validityBounded tx5) := by
  constructor
  · obtain ⟨g0, _, a2, a3, _⟩ := CreateMailbox_ok _ _ _ _ _ _ _ _ hc
    obtain ⟨mbox, g2, b1, b2, _, b4, _⟩ := DeleteMailboxWithRemoteID_ok _ _ _ _ hd
    obtain ⟨g4, c1, c2, _⟩ := CreateMailbox_ok _ _ _ _ _ _ _ _ hc2
    have hmb : mbox = mb := by
      have : mb ∈ (run tx1 ops1).mailboxes.filter (fun m => m.RemoteID = some mboxID) :=
        List.mem_filter.mpr ⟨hin, by simp [hrid]⟩
      rw [b1] at this
      exact (List.mem_singleton.mp this).symm
    subst hmb
    have m1 := run_globalLE ops1 tx1
    rw [a3, b2] at m1
    have m1' : g0 ≤ g2 := m1
    have m2 := run_globalLE ops2 tx3
    rw [b4, c1] at m2
    rw [a2] at hv
    rw [a2, c2]
    have hadd : mbox.UIDValidity = g2 → UID.Add g2 1 = g2 + 1 := by
      intro h
      unfold UID.Add
      omega
    by_cases hm : mbox.UIDValidity = g2
    · simp only [hm, if_true, hadd hm, gt_iff_lt, Nat.lt_succ_self] at m2
      have m2' : g2 + 1 ≤ g4 := m2
      omega
    · simp only [hm, if_false, gt_iff_lt, Nat.lt_irrefl] at m2
      have m2' : g2 ≤ g4 := m2
      have : g0 ≠ g2 := fun h => hm (a2.trans h)
      omega
  · intro h0
    have h1 := CreateMailbox_validityBounded _ _ _ _ _ _ _ _ hc h0
    have h2 := run_validityBounded ops1 tx1 h1
    have h3 := DeleteMailboxWithRemoteID_validityBounded _ _ _ _ hd h2
    have h4 := run_validityBounded ops2 tx3 h3
    exact CreateMailbox_validityBounded _ _ _ _ _ _ _ _ hc2 h4

end db

namespace db

/-- C17 (witness): mailbox 1 is created at global 7, another mailbox is created,
mailbox 1 is deleted, the global is initialised again with 3, and a third
mailbox is created, with UID validity 8. -/
theorem C17_recreated_mailbox_has_greater_validity_witness :
    (⟨1, some [120], [88], 1, 7, [], [], []⟩ : Mailbox).UIDValidity
      < (⟨3, some [120], [88], 1, 8, [], [], []⟩ : Mailbox).UIDValidity :=
  (C17_recreated_mailbox_has_greater_validity
    { mailboxes := [], uidValidity := some 7, nextID := 1 }
    { mailboxes := [⟨1, some [120], [88], 1, 7, [], [], []⟩], uidValidity := some 7, nextID := 2 }
    { mailboxes := [⟨2, some [121], [89], 1, 7, [], [], []⟩], uidValidity := some 8, nextID := 3 }
    { mailboxes := [⟨2, some [121], [89], 1, 7, [], [], []⟩, ⟨3, some [120], [88], 1, 8, [], [], []⟩],
      uidValidity := some 8, nextID := 4 }
    [120] [88] [120] [88] [] [] [] [] [] []
    ⟨1, some [120], [88], 1, 7, [], [], []⟩ ⟨3, some [120], [88], 1, 8, [], [], []⟩
    [Op.create [121] [89] [] [] []] [Op.init 3] (8, true)
    (by decide) (by decide) (by decide) rfl (by decide) (by decide)).1

/-- C18: `InitGlobalUIDValidity(v)` stores `v` when no global UID validity is
stored and otherwise leaves the maximum of the stored value and `v`; it never
lowers the stored value, leaves the mailboxes alone, and a second call with
the same `v` changes nothing. -/
theorem C18_init_keeps_the_maximum (tx : Tx) (v : Nat) :
    ∃ tx1, InitGlobalUIDValidity tx v = .ok tx1 ∧
      tx1.uidValidity = some (match tx.uidValidity with
                              | none => v
                              | some c => max c v) ∧
      tx1.mailboxes = tx.mailboxes ∧
      globalLE tx.uidValidity tx1.uidValidity ∧
      InitGlobalUIDValidity tx1 v = .ok tx1 := by
  refine ⟨_, InitGlobalUIDValidity_ok tx v, rfl, rfl, ?_, ?_⟩
  · cases hg : tx.uidValidity with
    | none => trivial
    | some c => exact Nat.le_max_left c v
  · rw [InitGlobalUIDValidity_ok]
    cases hg : tx.uidValidity with
    | none => simp
    | some c => simp

theorem storedUIDNext_map (l : List Mailbox) (id x : Nat) (old : Nat)
    (h : (l.find? (fun m => m.ID = id)).map (fun m => m.UIDNext) = some old) :
    ((l.map (fun m => if m.ID = id then { m with UIDNext := x } else m)).find?
        (fun m => m.ID = id)).map (fun m => m.UIDNext) = some x := by
  induction l with
  | nil => simp at h
  | cons a l ih =>
    by_cases ha : a.ID = id
    · simp [List.find?, ha]
    · simp only [List.map_cons, ha, if_false, List.find?, decide_False] at h ⊢
      exact ih h

/-- C19 (counterexample): with a count of 0 the stored UID-NEXT of the mailbox is
5 before and 5 after the call; with a count of -1 it goes from 5 to 4; and
with a record that still carries UID-NEXT 2 while 5 is stored, the call
without a count leaves 3. All three calls succeed. -/
theorem C19_bump_may_not_increase :
    storedUIDNext { mailboxes := [⟨1, some [120], [88], 5, 7, [], [], []⟩],
                    uidValidity := some 7, nextID := 2 } 1 = some 5 ∧
    (BumpMailboxUIDNext { mailboxes := [⟨1, some [120], [88], 5, 7, [], [], []⟩],
                          uidValidity := some 7, nextID := 2 }
        ⟨1, some [120], [88], 5, 7, [], [], []⟩ [0]).map (fun tx => storedUIDNext tx 1)
      = .ok (some 5) ∧
    (BumpMailboxUIDNext { mailboxes := [⟨1, some [120], [88], 5, 7, [], [], []⟩],
                          uidValidity := some 7, nextID := 2 }
        ⟨1, some [120], [88], 5, 7, [], [], []⟩ [-1]).map (fun tx => storedUIDNext tx 1)
      = .ok (some 4) ∧
    (BumpMailboxUIDNext { mailboxes := [⟨1, some [120], [88], 5, 7, [], [], []⟩],
                          uidValidity := some 7, nextID := 2 }
        ⟨1, some [120], [88], 2, 7, [], [], []⟩ []).map (fun tx => storedUIDNext tx 1)
      = .ok (some 3) := by
  decide

/-- C19 (amended): when the record passed in carries the stored UID-NEXT of its
mailbox, the count `n` (1 when no count is given) is at least 1 and
UID-NEXT + n stays below 2^32, `BumpMailboxUIDNext` succeeds and leaves
UID-NEXT + n as the stored UID-NEXT, which is strictly greater than before. -/
theorem C19_bump_increases_uid_next (tx : Tx) (mbox : Mailbox) (withCount : List Int) (n : Nat)
    (hn : withCount.headD 1 = (n : Int)) (h1 : 1 ≤ n) (hfit : mbox.UIDNext + n < 4294967296)
    (hstored : storedUIDNext tx mbox.ID = some mbox.UIDNext) :
    ∃ tx1, BumpMailboxUIDNext tx mbox withCount = .ok tx1 ∧
      storedUIDNext tx1 mbox.ID = some (mbox.UIDNext + n) ∧
      mbox.UIDNext < mbox.UIDNext + n := by
  have hgen : ∀ w : List Int, w.headD 1 = (n : Int) →
      (match w with
        | c :: _ => c
        | [] => 1) = (n : Int) := by
    intro w hw
    cases w with
    | nil => simpa using hw
    | cons c cs => simpa using hw
  have hcount := hgen withCount hn
  have hconv : UID.Add mbox.UIDNext (toUint32 (n : Int)) = mbox.UIDNext + n := by
    unfold UID.Add toUint32
    omega
  have hb : BumpMailboxUIDNext tx mbox withCount
      = .ok { tx with mailboxes := tx.mailboxes.map (fun m =>
                if m.ID = mbox.ID then { m with UIDNext := mbox.UIDNext + n } else m) } := by
    unfold BumpMailboxUIDNext
    simp only [hcount, hconv]
  refine ⟨_, hb, ?_, by omega⟩
  exact storedUIDNext_map tx.mailboxes mbox.ID (mbox.UIDNext + n) mbox.UIDNext hstored

/-- C19 (witness): the default count on a mailbox with UID-NEXT 5. -/
theorem C19_bump_increases_uid_next_witness :
    ∃ tx1, BumpMailboxUIDNext { mailboxes := [⟨1, some [120], [88], 5, 7, [], [], []⟩],
                                uidValidity := some 7, nextID := 2 }
        ⟨1, some [120], [88], 5, 7, [], [], []⟩ [] = .ok tx1 ∧
      storedUIDNext tx1 1 = some (5 + 1) ∧ 5 < 5 + 1 :=
  C19_bump_increases_uid_next
    { mailboxes := [⟨1, some [120], [88], 5, 7, [], [], []⟩], uidValidity := some 7, nextID := 2 }
    ⟨1, some [120], [88], 5, 7, [], [], []⟩ [] 1 (by decide) (by decide) (by decide) (by decide)

end db

/-! ## Search results -/

namespace state

theorem getWithSeqID_row (messages : List snapMsg) (j : Nat) (h : j < messages.length) :
    ∃ m, messages[j]? = some m ∧
      getWithSeqID messages (j + 1) = some { ID := m.ID, UID := m.UID, flags := m.flags, Seq := j + 1 } := by
  have hm : messages[j]? = some messages[j] := List.getElem?_eq_getElem h
  refine ⟨messages[j], hm, ?_⟩
  unfold getWithSeqID
  simp [hm]

theorem toUint32_seq (n j : Nat) (h : j < n) (hn : n < 4294967296) :
    db.toUint32 ((j : Int) + 1) = j + 1 := by
  unfold db.toUint32
  omega

theorem searchWorker_ok {ε : Type} (isUID : Bool) (applySearch : snapMsgWithSeq → Except ε Bool)
    (messages : List snapMsg) (hn : messages.length < 4294967296)
    (hok : ∀ s ∈ snapshotRows messages, ∃ b, applySearch s = .ok b)
    (i : Nat) (hi : i < messages.length) (r : List Nat) :
    ∃ s, getWithSeqID messages (i + 1) = some s ∧
      searchWorker isUID applySearch messages i r
        = .ok (if isMatch applySearch s then r.set i (mapFn isUID s) else r) := by
  obtain ⟨m, _, hrow⟩ := getWithSeqID_row messages i hi
  refine ⟨_, hrow, ?_⟩
  have hmem : ({ ID := m.ID, UID := m.UID, flags := m.flags, Seq := i + 1 } : snapMsgWithSeq)
      ∈ snapshotRows messages := by
    unfold snapshotRows
    exact List.mem_filterMap.mpr ⟨i, List.mem_range.mpr hi, hrow⟩
  obtain ⟨b, hb⟩ := hok _ hmem
  unfold searchWorker isMatch
  rw [toUint32_seq messages.length i hi hn, hrow]
  simp only [hb]
  cases b <;> simp

theorem searchWorker_slot {ε : Type} (isUID : Bool)
    (applySearch : snapMsgWithSeq → Except ε Bool)
    (messages : List snapMsg) (hn : messages.length < 4294967296)
    (hok : ∀ s ∈ snapshotRows messages, ∃ b, applySearch s = .ok b)
    (i : Nat) (hi : i < messages.length) (r : List Nat) :
    searchWorker isUID applySearch messages i r
      = .ok (if matchedAt applySearch messages i
             then r.set i (slot isUID applySearch messages i) else r) := by
  obtain ⟨s, hs, hw⟩ := searchWorker_ok isUID applySearch messages hn hok i hi r
  rw [hw]
  unfold matchedAt slot
  rw [hs]
  by_cases hm : isMatch applySearch s = true
  · simp [hm]
  · simp [hm]

theorem DoContext_searchWorker {ε : Type} (isUID : Bool)
    (applySearch : snapMsgWithSeq → Except ε Bool)
    (messages : List snapMsg) (hn : messages.length < 4294967296)
    (hok : ∀ s ∈ snapshotRows messages, ∃ b, applySearch s = .ok b) (p : Int) (n : Nat) :
    ∀ (schedule : List Nat) (r : List Nat), (∀ i ∈ schedule, i < messages.length) →
      ∃ r', DoContext p n (searchWorker isUID applySearch messages) schedule r = .ok r' ∧
        r'.length = r.length ∧
        ∀ j, r'[j]? = if j ∈ schedule ∧ j < r.length ∧ matchedAt applySearch messages j = true
                      then some (slot isUID applySearch messages j) else r[j]? := by
  intro schedule
  induction schedule with
  | nil =>
    intro r _
    exact ⟨r, rfl, rfl, fun j => by simp⟩
  | cons i rest ih =>
    intro r hs
    have hi : i < messages.length := hs i (by simp)
    have hrest : ∀ x ∈ rest, x < messages.length := fun x hx => hs x (by simp [hx])
    have hw := searchWorker_slot isUID applySearch messages hn hok i hi r
    by_cases hm : matchedAt applySearch messages i = true
    · simp only [hm, if_true] at hw
      obtain ⟨r', e1, e2, e3⟩ := ih (r.set i (slot isUID applySearch messages i)) hrest
      refine ⟨r', ?_, ?_, ?_⟩
      · simp only [DoContext, hw]
        exact e1
      · rw [e2, List.length_set]
      · intro j
        rw [e3 j, List.length_set, List.getElem?_set]
        by_cases hij : i = j
        · subst hij
          by_cases hl : i < r.length
          · simp [hl, hm]
          · have hnone : r[i]? = none := List.getElem?_eq_none (Nat.le_of_not_lt hl)
            simp [hl, hnone]
        · have hji : ¬ j = i := fun h => hij h.symm
          simp [hij, hji]
    · simp only [hm, if_false] at hw
      obtain ⟨r', e1, e2, e3⟩ := ih r hrest
      refine ⟨r', ?_, e2, ?_⟩
      · simp only [DoContext, hw]
        exact e1
      · intro j
        rw [e3 j]
        by_cases hij : j = i
        · subst hij
          simp [hm]
        · simp [hij]

end state

namespace state

theorem slot_of_not_matched {ε : Type} (isUID : Bool)
    (applySearch : snapMsgWithSeq → Except ε Bool) (messages : List snapMsg) (j : Nat)
    (h : ¬ matchedAt applySearch messages j = true) :
    slot isUID applySearch messages j = 0 := by
  unfold matchedAt at h
  unfold slot
  cases hg : getWithSeqID messages (j + 1) with
  | none => rfl
  | some s =>
    rw [hg] at h
    simp only [] at h
    simp [h]

theorem result_after_pass {ε : Type} (isUID : Bool)
    (applySearch : snapMsgWithSeq → Except ε Bool)
    (messages : List snapMsg) (hn : messages.length < 4294967296)
    (hok : ∀ s ∈ snapshotRows messages, ∃ b, applySearch s = .ok b) (p : Int) (n : Nat)
    (schedule : List Nat) (hperm : schedule.Perm (List.range messages.length)) :
    DoContext p n (searchWorker isUID applySearch messages) schedule
        (List.replicate messages.length 0)
      = .ok ((List.range messages.length).map (slot isUID applySearch messages)) := by
  have hmem : ∀ i, i ∈ schedule ↔ i < messages.length := fun i =>
    (hperm.mem_iff).trans List.mem_range
  obtain ⟨r', e1, _, e3⟩ := DoContext_searchWorker isUID applySearch messages hn hok p n
    schedule (List.replicate messages.length 0) (fun i hi => (hmem i).mp hi)
  rw [e1]
  congr 1
  apply List.ext_getElem?
  intro j
  rw [e3 j, List.getElem?_map, List.length_replicate, List.getElem?_replicate]
  by_cases hj : j < messages.length
  · rw [List.getElem?_range hj]
    by_cases hm : matchedAt applySearch messages j = true
    · simp [hj, hm, (hmem j).mpr hj]
    · simp [hj, hm, slot_of_not_matched isUID applySearch messages j hm]
  · have hnone : (List.range messages.length)[j]? = none :=
      List.getElem?_eq_none (by simpa using Nat.le_of_not_lt hj)
    simp [hj, hnone]

theorem filter_slots {ε : Type} (isUID : Bool) (applySearch : snapMsgWithSeq → Except ε Bool)
    (messages : List snapMsg)
    (hid : ∀ j s, getWithSeqID messages (j + 1) = some s → mapFn isUID s ≠ 0) :
    ∀ l : List Nat,
      (l.map (slot isUID applySearch messages)).filter (fun v => v != 0)
        = ((l.filterMap (fun i => getWithSeqID messages (i + 1))).filter
            (isMatch applySearch)).map (mapFn isUID) := by
  intro l
  induction l with
  | nil => rfl
  | cons j l ih =>
    simp only [List.map_cons, List.filterMap_cons]
    cases hg : getWithSeqID messages (j + 1) with
    | none =>
      have hs : slot isUID applySearch messages j = 0 := by
        unfold slot
        rw [hg]
      simp only [hs]
      simpa using ih
    | some s =>
      have hs : slot isUID applySearch messages j
          = if isMatch applySearch s then mapFn isUID s else 0 := by
        unfold slot
        rw [hg]
      by_cases hm : isMatch applySearch s = true
      · have hne := hid j s hg
        simp only [hs, hm, if_true, List.filter_cons, List.map_cons]
        simp only [bne_iff_ne, ne_eq, hne, not_false_eq_true, if_true, decide_True]
        rw [← ih]
      · simp only [hs, hm, if_false, List.filter_cons]
        simpa using ih

/-- C20: for a snapshot of fewer than 2^32 messages with non-zero UIDs and a
search predicate that fails on none of them, `Search` returns the identifiers
(UID in UID mode, sequence number otherwise) of exactly the rows at the
sequence numbers 1..N on which the predicate is true, in ascending order of
the sequence numbers; this holds for every order in which the worker pool
runs the indices and for every number of CPUs and of active searches. -/
theorem C20_search_returns_the_matches_in_order {ε : Type} (isUID : Bool)
    (applySearch : snapMsgWithSeq → Except ε Bool) (messages : List snapMsg)
    (numCPU totalActiveSearchRequests : Int) (schedule : List Nat)
    (hperm : schedule.Perm (List.range messages.length))
    (hn : messages.length < 4294967296)
    (huid : ∀ m ∈ messages, m.UID ≠ 0)
    (hok : ∀ s ∈ snapshotRows messages, ∃ b, applySearch s = .ok b) :
    Search isUID (.ok applySearch) messages numCPU totalActiveSearchRequests schedule
      = .ok (((snapshotRows messages).filter (isMatch applySearch)).map (mapFn isUID)) := by
  have hid : ∀ j s, getWithSeqID messages (j + 1) = some s → mapFn isUID s ≠ 0 := by
    intro j s hs
    unfold getWithSeqID at hs
    simp only [Nat.add_one_ne_zero, if_false, Nat.add_sub_cancel] at hs
    cases hm : messages[j]? with
    | none => simp [hm] at hs
    | some m =>
      simp only [hm, Option.map_some', Option.some.injEq] at hs
      have hmem : m ∈ messages := List.getElem?_mem hm
      subst hs
      unfold mapFn
      cases isUID
      · simp
      · simpa using huid m hmem
  unfold Search
  simp only []
  rw [result_after_pass isUID applySearch messages hn hok _ _ schedule hperm]
  simp only []
  rw [filter_slots isUID applySearch messages hid]
  rfl

/-- C20 (witness): three messages, the odd UIDs match, the workers run the
indices in the order 2, 0, 1. -/
theorem C20_search_returns_the_matches_in_order_witness :
    Search (ε := Unit) true (.ok fun s => .ok (s.UID % 2 == 1))
        [⟨10, 1, []⟩, ⟨11, 2, []⟩, ⟨12, 5, []⟩] 8 0 [2, 0, 1]
      = .ok (((snapshotRows [⟨10, 1, []⟩, ⟨11, 2, []⟩, ⟨12, 5, []⟩]).filter
          (isMatch (ε := Unit) fun s => .ok (s.UID % 2 == 1))).map (mapFn true)) ∧
    ((snapshotRows [⟨10, 1, []⟩, ⟨11, 2, []⟩, ⟨12, 5, []⟩]).filter
          (isMatch (ε := Unit) fun s => .ok (s.UID % 2 == 1))).map (mapFn true) = [1, 5] :=
  ⟨C20_search_returns_the_matches_in_order true (fun s => .ok (s.UID % 2 == 1))
      [⟨10, 1, []⟩, ⟨11, 2, []⟩, ⟨12, 5, []⟩] 8 0 [2, 0, 1] (by decide) (by decide) (by decide)
      (fun s _ => ⟨s.UID % 2 == 1, rfl⟩),
    by decide⟩

end state

/-! ## Accepted command lines -/

namespace command
open rfcparser

theorem charRun_split (l : List Nat) :
    l = l.takeWhile isCharByte ++ l.dropWhile isCharByte ∧
    stopsAt (fun t => t = .Char) (l.dropWhile isCharByte) ∧
    ∀ d ∈ l.takeWhile isCharByte, classify d = .Char := by
  refine ⟨(List.takeWhile_append_dropWhile isCharByte l).symm, ?_, ?_⟩
  · induction l with
    | nil => rfl
    | cons b l ih =>
      by_cases hb : isCharByte b = true
      · simpa [List.dropWhile, hb] using ih
      · have hb' : isCharByte b = false := by simpa using hb
        simp only [List.dropWhile, hb']
        exact hb'
  · intro d hd
    have h : isCharByte d = true := List.mem_takeWhile_imp hd
    simpa [isCharByte] using h

/-- What a successful `parseAfterTag` has done. -/
theorem parseAfterTag_ok {α : Type} (fuel : Nat) (tag : List Nat)
    (commands : List Nat → Option (Builder α)) (lastTag lastCmd : List Nat)
    (cb : Option (String → Option Err)) (prev : Token) (line : List Nat) (o : Nat)
    (tr : List Event) (cmd : Command α) (cp' : Parser α)
    (h : Parser.parseAfterTag fuel tag
        { parser := rfcparser.Parser.atInput cb prev line o tr, commands := commands,
          lastTag := lastTag, lastCmd := lastCmd } = some ((cmd, none), cp')) :
    cmd.Tag = tag ∧ cp'.lastTag = tag ∧
    cp'.lastCmd = ((line.drop 1).takeWhile isCharByte).map ByteToLower ∧
    (∃ b, line.head? = some b ∧ classify b = .SP) ∧
    ∃ builder payload prev' o' tr' q,
      commands (((line.drop 1).takeWhile isCharByte).map ByteToLower) = some builder ∧
      builder fuel (rfcparser.Parser.atInput cb prev' ((line.drop 1).dropWhile isCharByte) o' tr')
        = some (.ok payload, q) ∧
      cmd.Payload = some payload := by
  cases line with
  | nil =>
    unfold Parser.parseAfterTag at h
    simp only [] at h
    rw [Consume_miss _ _ cb prev [] o tr (by decide)] at h
    simp at h
  | cons b rest =>
    by_cases hb : classify b = .SP
    · obtain ⟨s1, s2, s3⟩ := charRun_split rest
      unfold Parser.parseAfterTag at h
      simp only [] at h
      rw [Consume_hit _ _ cb prev b rest o tr hb] at h
      simp only [] at h
      have hsplit : rfcparser.Parser.atInput cb ⟨classify b, b, o⟩ rest (o + 1)
            (tr ++ [Event.scan (tokenAt rest (o + 1))])
          = rfcparser.Parser.atInput cb ⟨classify b, b, o⟩
            (rest.takeWhile isCharByte ++ rest.dropWhile isCharByte) (o + 1)
            (tr ++ [Event.scan (tokenAt rest (o + 1))]) := by
        rw [← s1]
      rw [hsplit, parseCommand_run fuel commands tag lastCmd cb _ _ _ (o + 1) _ s3 s2] at h
      simp only [List.drop_succ_cons, List.drop_zero, List.head?_cons]
      split_ifs at h with hf
      · cases hc : commands ((rest.takeWhile isCharByte).map ByteToLower) with
        | none =>
          rw [hc] at h
          simp at h
        | some builder =>
          rw [hc] at h
          simp only [] at h
          cases hr : builder fuel (rfcparser.Parser.atInput cb
              (lastToken ⟨classify b, b, o⟩ (rest.takeWhile isCharByte) (o + 1))
              (rest.dropWhile isCharByte) (o + 1 + (rest.takeWhile isCharByte).length)
              (tr ++ [Event.scan (tokenAt rest (o + 1))]
                ++ scanTrace (rest.takeWhile isCharByte) (rest.dropWhile isCharByte) (o + 1)))
            with
          | none =>
            rw [hr] at h
            simp at h
          | some x =>
            obtain ⟨r, q1⟩ := x
            rw [hr] at h
            simp only [] at h
            cases r with
            | error e => simp at h
            | ok payload =>
              simp only [] at h
              split at h
              · simp at h
              · simp only [Option.some.injEq, Prod.mk.injEq, and_true] at h
                obtain ⟨h1, h2⟩ := h
                rw [← h1, ← h2]
                exact ⟨rfl, rfl, rfl, ⟨b, rfl, hb⟩, builder, payload, _, _, _, q1, rfl, hr, rfl⟩
    · unfold Parser.parseAfterTag at h
      simp only [] at h
      rw [Consume_miss _ _ cb prev (b :: rest) o tr hb] at h
      simp at h

end command

namespace command
open rfcparser

/-- When `Parse` succeeds and the tag is not the DONE keyword, the `Tag` of the
returned command is the leading run of tag characters of the bytes that the
scanner had not read, byte for byte, `LastParsedTag` is that run,
`LastParsedCommand` is the keyword in lower case, the tag is followed by a
space token, and the payload is the one that the builder registered for the
lower-cased keyword returns on the input that follows the keyword. -/
theorem Parse_accepted_line {α : Type} (fuel : Nat) (cp cp' : Parser α) (cmd : Command α)
    (h : cp.Parse fuel = some ((cmd, none), cp'))
    (hnd : (tagOf cp.parser.scanner.source).map ByteToLower ≠ bytes "done") :
    cmd.Tag = tagOf cp.parser.scanner.source ∧
    cp'.LastParsedTag = tagOf cp.parser.scanner.source ∧
    cp'.LastParsedCommand = (keywordOf cp.parser.scanner.source).map ByteToLower ∧
    (∃ b, (cp.parser.scanner.source.dropWhile isTagByte).head? = some b ∧ classify b = .SP) ∧
    ∃ builder payload prev o tr q,
      cp.commands ((keywordOf cp.parser.scanner.source).map ByteToLower) = some builder ∧
      builder fuel (rfcparser.Parser.atInput cp.parser.literalContinuationCb prev
          (argsOf cp.parser.scanner.source) o tr) = some (.ok payload, q) ∧
      cmd.Payload = some payload := by
  cases ht : tagOf cp.parser.scanner.source with
  | nil =>
    rw [Parse_bad_tag fuel cp ht] at h
    simp at h
  | cons t0 ts =>
    rw [ht] at hnd
    rw [Parse_tagged fuel cp t0 ts ht] at h
    split_ifs at h with hk
    exact parseAfterTag_ok fuel (t0 :: ts) cp.commands [] [] _ _ _ _ _ cmd cp' h

theorem mem_tagOf (line : List Nat) (b : Nat) (h : b ∈ tagOf line) :
    isTagByte b = true := List.mem_takeWhile_imp h

end command

/-! ## Lines that follow an accepted line -/

namespace command
open rfcparser

theorem pending_atInput (cb : Option (String → Option Err)) (prev : Token) (input : List Nat)
    (o : Nat) (tr : List Event) :
    (rfcparser.Parser.atInput cb prev input o tr).scanner.pending = input ∧
    (rfcparser.Parser.atInput cb prev input o tr).scanner.source = input.drop 1 := by
  cases input <;> exact ⟨rfl, rfl⟩

/-- Every `Advance` leaves the parser at the bytes that its scanner had not
read. -/
theorem Advance_position (p : rfcparser.Parser) :
    p.Advance
      = (.ok (), rfcparser.Parser.atInput p.literalContinuationCb p.currentToken p.scanner.source
          p.scanner.currentOffset
          (p.trace ++ [Event.scan (tokenAt p.scanner.source p.scanner.currentOffset)])) := by
  obtain ⟨⟨src, off, la⟩, cb, prev, cur, tr⟩ := p
  cases src <;> rfl

theorem ConsumeNewLine_position (q q' : rfcparser.Parser)
    (h : q.ConsumeNewLine = (.ok (), q')) :
    ∃ prev o tr, q' = rfcparser.Parser.atInput q.literalContinuationCb prev
      (q.scanner.source.drop 1) o tr := by
  unfold rfcparser.Parser.ConsumeNewLine at h
  split at h
  · simp at h
  · rename_i q1 h1
    obtain ⟨_, ha, _⟩ := Consume_inv q q1 _ _ h1
    rw [Advance_position] at ha
    simp only [Prod.mk.injEq, true_and] at ha
    subst ha
    cases hs : q.scanner.source with
    | nil =>
      rw [hs] at h
      rw [Consume_miss _ _ _ _ [] _ _ (by decide)] at h
      simp at h
    | cons b rest =>
      rw [hs] at h
      by_cases hb : classify b = .LF
      · rw [Consume_hit _ _ _ _ b rest _ _ hb] at h
        simp only [Prod.mk.injEq, true_and] at h
        exact ⟨_, _, _, h.symm⟩
      · rw [Consume_miss _ _ _ _ (b :: rest) _ _ hb] at h
        simp at h

end command

namespace command
open rfcparser

theorem parseAfterTag_position {α : Type} (fuel : Nat) (tag : List Nat) (p1 cp' : Parser α)
    (cmd : Command α) (h : Parser.parseAfterTag fuel tag p1 = some ((cmd, none), cp')) :
    ∃ cb prev input o tr, cp'.parser = rfcparser.Parser.atInput cb prev input o tr := by
  unfold Parser.parseAfterTag at h
  simp only [] at h
  split at h
  · simp at h
  · split at h
    · simp at h
    · simp at h
    · rename_i p3 h3
      split at h
      · simp at h
      · rename_i q hq
        simp only [Option.some.injEq, Prod.mk.injEq, and_true] at h
        obtain ⟨prev, o, tr, hq'⟩ := ConsumeNewLine_position _ _ hq
        rw [← h.2]
        exact ⟨_, prev, _, o, tr, hq'⟩

/-- After a line that `Parse` accepted the parser stands at the input that
follows: its current token is the token of the first byte of that input. -/
theorem Parse_accepted_position {α : Type} (fuel : Nat) (cp cp' : Parser α) (cmd : Command α)
    (h : cp.Parse fuel = some ((cmd, none), cp')) :
    ∃ cb prev input o tr, cp'.parser = rfcparser.Parser.atInput cb prev input o tr := by
  cases ht : tagOf cp.parser.scanner.source with
  | nil =>
    rw [Parse_bad_tag fuel cp ht] at h
    simp at h
  | cons t0 ts =>
    rw [Parse_tagged fuel cp t0 ts ht] at h
    split_ifs at h with hk hd
    · simp only [Option.some.injEq, Prod.mk.injEq] at h
      rw [← h.2]
      exact ⟨_, _, _, _, _, rfl⟩
    · exact parseAfterTag_position _ _ _ _ _ h

/-- After a line that `Parse` accepted, the bytes that the scanner has not read
are the input that follows without its first byte: that byte is held in the
current token. -/
theorem Parse_accepted_source {α : Type} (fuel : Nat) (cp cp' : Parser α) (cmd : Command α)
    (h : cp.Parse fuel = some ((cmd, none), cp')) :
    cp'.parser.scanner.source = cp'.parser.scanner.pending.drop 1 := by
  obtain ⟨cb, prev, input, o, tr, hp⟩ := Parse_accepted_position fuel cp cp' cmd h
  rw [hp, (pending_atInput cb prev input o tr).1, (pending_atInput cb prev input o tr).2]

end command

namespace command
open rfcparser

/-- C11 (the code on a line that follows an accepted one): a parser reads the
lines `a1 NOOP` and `b2 NOOP`, as the command reader does with its one parser.
The first `Parse` returns the tag `a1`. It leaves the parser before the line
`b2 NOOP`, whose tag is `b2`, with the `b` already in its current token; the
second `Parse` starts with `Advance`, which drops that token, accepts the
line and returns the tag `2`, and `LastParsedTag` is `2` as well. -/
theorem C11_following_line_loses_its_first_byte :
    ∃ cp1 cp2 : Parser Nat,
      (NewParser (NewScanner (bytes "a1 NOOP\r\nb2 NOOP\r\n"))
          (fun _ _ q => some (.ok (Payload.Built 0), q))).Parse 8
        = some (({ Tag := bytes "a1", Payload := some (Payload.Built 0) }, none), cp1) ∧
      cp1.parser.scanner.pending = bytes "b2 NOOP\r\n" ∧
      cp1.parser.currentToken = ⟨.Char, 0x62, 9⟩ ∧
      tagOf (bytes "b2 NOOP\r\n") = bytes "b2" ∧
      cp1.Parse 8
        = some (({ Tag := bytes "2", Payload := some (Payload.Built 0) }, none), cp2) ∧
      cp2.LastParsedTag = bytes "2" ∧ cp2.LastParsedCommand = bytes "noop" :=
  ⟨_, _, rfl, by decide, by decide, by decide, rfl, by decide, by decide⟩

/-- C8 (the code on a failing line that follows an accepted one): after the
accepted line `a1 NOOP`, the line `b2 FOO` fails on its keyword and
`LastParsedTag` is `2`, not the tag `b2` of the failing line; and the line
`b FOO`, which has the tag `b`, fails with the error of the tag itself and
`LastParsedTag` is empty. On a new parser the line `b2 FOO` leaves `b2`. -/
theorem C8_last_parsed_tag_lacks_the_first_byte :
    (∃ cp1 cp2 : Parser Nat,
      (NewParser (NewScanner (bytes "a1 NOOP\r\nb2 FOO\r\n"))
          (fun _ _ q => some (.ok (Payload.Built 0), q))).Parse 8
        = some (({ Tag := bytes "a1", Payload := some (Payload.Built 0) }, none), cp1) ∧
      cp1.parser.scanner.pending = bytes "b2 FOO\r\n" ∧
      cp1.Parse 8
        = some (({ Tag := bytes "2", Payload := none },
            some (Err.plain "unknown command 'foo'")), cp2) ∧
      cp2.LastParsedTag = bytes "2") ∧
    (∃ cp1 cp2 : Parser Nat,
      (NewParser (NewScanner (bytes "a1 NOOP\r\nb FOO\r\n"))
          (fun _ _ q => some (.ok (Payload.Built 0), q))).Parse 8
        = some (({ Tag := bytes "a1", Payload := some (Payload.Built 0) }, none), cp1) ∧
      cp1.parser.scanner.pending = bytes "b FOO\r\n" ∧
      cp1.Parse 8
        = some (({ Tag := [], Payload := none },
            some (Err.parser ⟨.Char, 0x62, 9⟩ "Invalid tag char detected")), cp2) ∧
      cp2.LastParsedTag = []) ∧
    (∃ cp2 : Parser Nat,
      (NewParser (NewScanner (bytes "b2 FOO\r\n"))
          (fun _ _ q => some (.ok (Payload.Built 0), q))).Parse 8
        = some (({ Tag := bytes "b2", Payload := none },
            some (Err.plain "unknown command 'foo'")), cp2) ∧
      cp2.LastParsedTag = bytes "b2") :=
  ⟨⟨_, _, rfl, by decide, rfl, by decide⟩, ⟨_, _, rfl, by decide, rfl, by decide⟩,
    ⟨_, rfl, by decide⟩⟩

/-- C9 (the code on `DONE` after an accepted line): a parser reads the lines
`a1 IDLE` and `DONE`. The first is accepted; the second `Parse` finds the tag
run `ONE`, takes it for a tag and fails for want of a space: no `DoneCommand`
is returned, `LastParsedTag` is `ONE` and `LastParsedCommand` is empty. On a
new parser the line `DONE` gives the `DoneCommand`. -/
theorem C9_done_after_an_accepted_line :
    (∃ cp1 cp2 : Parser Nat,
      (NewParser (NewScanner (bytes "a1 IDLE\r\nDONE\r\n"))
          (fun _ _ q => some (.ok (Payload.Built 0), q))).Parse 8
        = some (({ Tag := bytes "a1", Payload := some (Payload.Built 0) }, none), cp1) ∧
      cp1.parser.scanner.pending = bytes "DONE\r\n" ∧
      (tagOf cp1.parser.scanner.pending).map ByteToLower = bytes "done" ∧
      cp1.Parse 8
        = some (({ Tag := bytes "ONE", Payload := none },
            some (Err.parser ⟨.Char, 0x45, 2⟩ "Expected space after tag")), cp2) ∧
      cp2.LastParsedTag = bytes "ONE" ∧ cp2.LastParsedCommand = []) ∧
    (∃ cp2 : Parser Nat,
      (NewParser (NewScanner (bytes "DONE\r\n"))
          (fun _ _ q => some (.ok (Payload.Built 0), q))).Parse 8
        = some (({ Tag := [], Payload := some Payload.DoneCommand }, none), cp2) ∧
      cp2.LastParsedTag = [] ∧ cp2.LastParsedCommand = bytes "done") :=
  ⟨⟨_, _, rfl, by decide, by decide, rfl, by decide, by decide⟩, ⟨_, rfl, by decide, by decide⟩⟩

end command

namespace command
open rfcparser

/-- C14 (counterexample): on a new parser the line `done+` CR LF, whose tag run
`done` is followed directly by `+`, is not rejected: `Parse` returns the DONE
command and no error. And after the accepted line `a1 NOOP`, the line
`+x NOOP`, which starts with `+`, is not rejected either: `Parse` skips the
`+` and returns the command with the tag `x`. -/
theorem C14_lines_with_plus_that_are_accepted :
    (tagOf (bytes "done+\r\n") = bytes "done" ∧
      ((NewParser (α := Nat) (NewScanner (bytes "done+\r\n"))
          (fun _ _ q => some (.ok (Payload.Built 0), q))).Parse 8).map (fun r => r.1)
        = some ({ Tag := [], Payload := some Payload.DoneCommand }, none)) ∧
    ∃ cp1 cp2 : Parser Nat,
      (NewParser (NewScanner (bytes "a1 NOOP\r\n+x NOOP\r\n"))
          (fun _ _ q => some (.ok (Payload.Built 0), q))).Parse 8
        = some (({ Tag := bytes "a1", Payload := some (Payload.Built 0) }, none), cp1) ∧
      cp1.parser.scanner.pending = bytes "+x NOOP\r\n" ∧
      cp1.Parse 8
        = some (({ Tag := bytes "x", Payload := some (Payload.Built 0) }, none), cp2) :=
  ⟨⟨by decide, rfl⟩, _, _, rfl, by decide, rfl⟩

/-- What `Parse` does with a `+` at the tag position or right after the tag run
of the bytes that its scanner has not read. -/
theorem Parse_plus {α : Type} (fuel : Nat) (cp : Parser α) :
    (∀ rest, cp.parser.scanner.source = 0x2b :: rest →
      ∃ cp', cp.Parse fuel
        = some (({ Tag := [], Payload := none },
            some (Err.parser cp.parser.currentToken "Invalid tag char detected")), cp')) ∧
    (∀ t0 ts rest, cp.parser.scanner.source = (t0 :: ts) ++ (0x2b :: rest) →
      (∀ d ∈ t0 :: ts, isTagByte d = true) →
      (t0 :: ts).map ByteToLower ≠ bytes "done" → ts.length < fuel →
      ∃ tok cp', cp.Parse fuel
        = some (({ Tag := t0 :: ts, Payload := none },
            some (Err.parser tok "Expected space after tag")), cp')) := by
  refine ⟨?_, ?_⟩
  · intro rest hs
    have ht : tagOf cp.parser.scanner.source = [] := by
      rw [hs]
      have : isTagByte 0x2b = false := by decide
      simp [tagOf, List.takeWhile, this]
    exact ⟨_, Parse_bad_tag fuel cp ht⟩
  · intro t0 ts rest hs htag hnd hf
    obtain ⟨a1, b1⟩ := tagOf_line (t0 :: ts) (0x2b :: rest) htag (stopsAt_cons _ _ _ (by decide))
    rw [← hs] at a1 b1
    rw [Parse_tagged fuel cp t0 ts a1]
    simp only [hf, if_true, hnd, if_false, b1]
    unfold Parser.parseAfterTag
    simp only []
    rw [Consume_miss _ _ _ _ (0x2b :: rest) _ _ (show classify 0x2b ≠ TokenType.SP by decide)]
    exact ⟨_, _, rfl⟩

/-- The tag of a command that `Parse` returns without error is made of tag
characters. -/
theorem Parse_tag_chars {α : Type} (fuel : Nat) (cp cp' : Parser α) (cmd : Command α)
    (h : cp.Parse fuel = some ((cmd, none), cp')) : ∀ b ∈ cmd.Tag, isTagByte b = true := by
  intro b hb
  cases ht : tagOf cp.parser.scanner.source with
  | nil =>
    rw [Parse_bad_tag fuel cp ht] at h
    simp at h
  | cons t0 ts =>
    rw [Parse_tagged fuel cp t0 ts ht] at h
    split_ifs at h with hk hd
    · simp only [Option.some.injEq, Prod.mk.injEq, and_true] at h
      rw [← h.1] at hb
      simp at hb
    · obtain ⟨h1, _⟩ := parseAfterTag_ok fuel (t0 :: ts) cp.commands [] [] _ _ _ _ _ cmd cp' h
      rw [h1, ← ht] at hb
      exact mem_tagOf _ b hb

/-- C14 (amended): the `Tag` of every command that `Parse` returns without error
consists of tag characters only (`ASTRING` characters other than `+`), so it
holds no `+` byte. On a new parser, a line that starts with `+` is rejected
with the tag error, and a line whose tag run is followed directly by `+` is
rejected, for want of a space, unless the run is `done` in some letter case.
On a parser that has accepted a command and stands before the next line,
`Parse` skips the first byte of that line, and the same two rejections hold
of the rest of the line. -/
theorem C14_no_plus_in_tags {α : Type} (fuel : Nat) (cp : Parser α) :
    (∀ cmd cp', cp.Parse fuel = some ((cmd, none), cp') →
      ∀ b ∈ cmd.Tag, isTagChar (classify b) = true ∧ classify b ≠ .Plus ∧ b ≠ 0x2b) ∧
    (∀ line cb, cp.parser = rfcparser.NewParserWithLiteralContinuationCb (NewScanner line) cb →
      (∀ rest, line = 0x2b :: rest →
        ∃ cp', cp.Parse fuel
          = some (({ Tag := [], Payload := none },
              some (Err.parser ⟨.EOF, 0, 0⟩ "Invalid tag char detected")), cp')) ∧
      (∀ t0 ts rest, line = (t0 :: ts) ++ (0x2b :: rest) →
        (∀ d ∈ t0 :: ts, isTagByte d = true) →
        (t0 :: ts).map ByteToLower ≠ bytes "done" → ts.length < fuel →
        ∃ tok cp', cp.Parse fuel
          = some (({ Tag := t0 :: ts, Payload := none },
              some (Err.parser tok "Expected space after tag")), cp'))) ∧
    (∀ (fuel0 : Nat) (cp0 : Parser α) (cmd0 : Command α) (first : Nat) (line : List Nat),
      cp0.Parse fuel0 = some ((cmd0, none), cp) →
      cp.parser.scanner.pending = first :: line →
      (∀ rest, line = 0x2b :: rest →
        ∃ tok cp', cp.Parse fuel
          = some (({ Tag := [], Payload := none },
              some (Err.parser tok "Invalid tag char detected")), cp')) ∧
      (∀ t0 ts rest, line = (t0 :: ts) ++ (0x2b :: rest) →
        (∀ d ∈ t0 :: ts, isTagByte d = true) →
        (t0 :: ts).map ByteToLower ≠ bytes "done" → ts.length < fuel →
        ∃ tok cp', cp.Parse fuel
          = some (({ Tag := t0 :: ts, Payload := none },
              some (Err.parser tok "Expected space after tag")), cp'))) := by
  refine ⟨?_, ?_, ?_⟩
  · intro cmd cp' h b hb
    have key : isTagByte b = true := Parse_tag_chars fuel cp cp' cmd h b hb
    have hchar : isTagChar (classify b) = true := key
    refine ⟨hchar, ?_, ?_⟩
    · intro hp
      rw [hp] at hchar
      exact absurd hchar (by decide)
    · intro hp
      rw [hp] at key
      exact absurd key (by decide)
  · intro line cb hnew
    have hsrc : cp.parser.scanner.source = line := by rw [hnew]; rfl
    have hcur : cp.parser.currentToken = ⟨.EOF, 0, 0⟩ := by rw [hnew]; rfl
    refine ⟨?_, ?_⟩
    · intro rest hl
      rw [← hcur]
      exact (Parse_plus fuel cp).1 rest (hsrc.trans hl)
    · intro t0 ts rest hl
      exact (Parse_plus fuel cp).2 t0 ts rest (hsrc.trans hl)
  · intro fuel0 cp0 cmd0 first line h0 hp
    have hsrc : cp.parser.scanner.source = line := by
      rw [Parse_accepted_source fuel0 cp0 cp cmd0 h0, hp]
      rfl
    refine ⟨?_, ?_⟩
    · intro rest hl
      exact ⟨_, (Parse_plus fuel cp).1 rest (hsrc.trans hl)⟩
    · intro t0 ts rest hl
      exact (Parse_plus fuel cp).2 t0 ts rest (hsrc.trans hl)

/-- C14 (witness): the lines `+a NOOP` and `a+b NOOP` on a new parser, and the
line `b+c NOOP` after the accepted line `a1 NOOP`: without its first byte it
starts with `+`. -/
theorem C14_no_plus_in_tags_witness :
    (∃ cp', (NewParser (α := Nat) (NewScanner (bytes "+a NOOP\r\n"))
        (fun _ _ q => some (.ok (Payload.Built 0), q))).Parse 8
        = some (({ Tag := [], Payload := none },
            some (Err.parser ⟨.EOF, 0, 0⟩ "Invalid tag char detected")), cp')) ∧
    (∃ tok cp', (NewParser (α := Nat) (NewScanner (bytes "a+b NOOP\r\n"))
        (fun _ _ q => some (.ok (Payload.Built 0), q))).Parse 8
        = some (({ Tag := [0x61], Payload := none },
            some (Err.parser tok "Expected space after tag")), cp')) ∧
    (∃ cp1 : Parser Nat,
      (NewParser (NewScanner (bytes "a1 NOOP\r\nb+c NOOP\r\n"))
          (fun _ _ q => some (.ok (Payload.Built 0), q))).Parse 8
        = some (({ Tag := bytes "a1", Payload := some (Payload.Built 0) }, none), cp1) ∧
      cp1.parser.scanner.pending = 0x62 :: bytes "+c NOOP\r\n" ∧
      ∃ tok cp', cp1.Parse 8
        = some (({ Tag := [], Payload := none },
            some (Err.parser tok "Invalid tag char detected")), cp')) :=
  ⟨((C14_no_plus_in_tags 8 (NewParser (α := Nat) (NewScanner (bytes "+a NOOP\r\n"))
        (fun _ _ q => some (.ok (Payload.Built 0), q)))).2.1 (bytes "+a NOOP\r\n") none rfl).1
        (bytes "a NOOP\r\n") (by decide),
   ((C14_no_plus_in_tags 8 (NewParser (α := Nat) (NewScanner (bytes "a+b NOOP\r\n"))
        (fun _ _ q => some (.ok (Payload.Built 0), q)))).2.1 (bytes "a+b NOOP\r\n") none rfl).2
        0x61 [] (bytes "b NOOP\r\n") (by decide) (by decide) (by decide) (by decide),
   ⟨_, rfl, by decide,
    ((C14_no_plus_in_tags 8 _).2.2 8
        (NewParser (α := Nat) (NewScanner (bytes "a1 NOOP\r\nb+c NOOP\r\n"))
          (fun _ _ q => some (.ok (Payload.Built 0), q)))
        { Tag := bytes "a1", Payload := some (Payload.Built 0) } 0x62 (bytes "+c NOOP\r\n")
        rfl (by decide)).1 (bytes "c NOOP\r\n") (by decide)⟩⟩

end command

namespace command
open rfcparser

/-- C12: the dispatch map has 27 distinct keys, the keywords of
`commandKeywords`, and a lookup succeeds exactly on them. For a line
`tag SP keyword rest` whose lower-cased keyword (the empty one included) is
not among them, `Parse` returns the tag with no payload and the error
"unknown command", and `LastParsedCommand` is the lower-cased keyword. -/
theorem C12_unknown_keyword_is_rejected {α : Type} (fuel : Nat)
    (builders : List Nat → Builder α) (cp : Parser α) (t0 : Nat) (ts kw rest : List Nat)
    (hcmds : cp.commands = dispatch builders)
    (htag : ∀ d ∈ t0 :: ts, isTagByte d = true)
    (hnd : (t0 :: ts).map ByteToLower ≠ bytes "done")
    (hk : ∀ d ∈ kw, classify d = .Char)
    (hrest : stopsAt (fun t => t = .Char) rest)
    (hs : cp.parser.scanner.source = (t0 :: ts) ++ (0x20 :: (kw ++ rest)))
    (hunknown : kw.map ByteToLower ∉ commandKeywords)
    (hf1 : ts.length < fuel) (hf2 : kw.length < fuel) :
    (commandKeywords.length = 27 ∧ commandKeywords.Nodup ∧
      ∀ key, (dispatch builders key).isSome = true ↔ key ∈ commandKeywords) ∧
    ∃ cp', cp.Parse fuel
        = some (({ Tag := t0 :: ts, Payload := none },
            some (Err.plain ("unknown command \x27" ++ goString (kw.map ByteToLower) ++ "\x27"))),
          cp') ∧
      cp'.LastParsedCommand = kw.map ByteToLower := by
  refine ⟨⟨by decide, by decide, ?_⟩, ?_⟩
  · intro key
    unfold dispatch
    by_cases hkey : key ∈ commandKeywords
    · simp [hkey]
    · simp [hkey]
  · obtain ⟨a1, b1⟩ := tagOf_line (t0 :: ts) (0x20 :: (kw ++ rest)) htag
      (stopsAt_cons _ _ _ (by decide))
    rw [← hs] at a1 b1
    have hnone : dispatch builders (kw.map ByteToLower) = none := by
      unfold dispatch
      simp [hunknown]
    rw [Parse_tagged fuel cp t0 ts a1]
    simp only [hf1, if_true, hnd, if_false, b1, hcmds]
    unfold Parser.parseAfterTag
    simp only []
    rw [Consume_hit _ _ _ _ 0x20 (kw ++ rest) _ _ (by decide)]
    simp only []
    rw [parseCommand_run fuel (dispatch builders) (t0 :: ts) [] _ _ kw rest _ _ hk hrest]
    simp only [hf2, if_true, hnone]
    exact ⟨_, rfl, rfl⟩

/-- C12 (witness): the lines `a1 FOO` and `a1 ` (empty keyword). -/
theorem C12_unknown_keyword_is_rejected_witness :
    (∃ cp', (NewParser (α := Nat) (NewScanner (bytes "a1 FOO\r\n"))
        (fun _ _ q => some (.ok (Payload.Built 0), q))).Parse 8
        = some (({ Tag := bytes "a1", Payload := none },
            some (Err.plain ("unknown command \x27" ++ goString ((bytes "FOO").map ByteToLower)
              ++ "\x27"))), cp') ∧
      cp'.LastParsedCommand = (bytes "FOO").map ByteToLower) ∧
    (∃ cp', (NewParser (α := Nat) (NewScanner (bytes "a1 \r\n"))
        (fun _ _ q => some (.ok (Payload.Built 0), q))).Parse 8
        = some (({ Tag := bytes "a1", Payload := none },
            some (Err.plain ("unknown command \x27" ++ goString (([] : List Nat).map ByteToLower)
              ++ "\x27"))), cp') ∧
      cp'.LastParsedCommand = ([] : List Nat).map ByteToLower) :=
  ⟨(C12_unknown_keyword_is_rejected 8 (fun _ _ q => some (.ok (Payload.Built 0), q))
      (NewParser (α := Nat) (NewScanner (bytes "a1 FOO\r\n"))
        (fun _ _ q => some (.ok (Payload.Built 0), q)))
      0x61 [0x31] (bytes "FOO") [0x0d, 0x0a] rfl (by decide) (by decide) (by decide)
      (by decide) (by decide) (by decide) (by decide) (by decide)).2,
   (C12_unknown_keyword_is_rejected 8 (fun _ _ q => some (.ok (Payload.Built 0), q))
      (NewParser (α := Nat) (NewScanner (bytes "a1 \r\n"))
        (fun _ _ q => some (.ok (Payload.Built 0), q)))
      0x61 [0x31] [] [0x0d, 0x0a] rfl (by decide) (by decide) (by decide)
      (by decide) (by decide) (by decide) (by decide) (by decide)).2⟩

/-- C13: the UID parser on the input ` keyword rest`. When the lower-cased
keyword is `expunge` it behaves as the UID EXPUNGE parser; when it is one of
`copy`, `fetch`, `search`, `move`, `store` it runs the builder of the command
of that name and wraps its payload in a `UIDCommand` (an error of the builder
is passed on); for every other keyword it fails with "unknown uid command".
The UID EXPUNGE parser consumes a space, parses the sequence set and returns
a `UIDExpungeCommand` holding it. -/
theorem C13_uid_subcommands {α : Type} (fuel : Nat) (builders : List Nat → Builder α)
    (ParseSeqSet : Nat → rfcparser.Parser → Option (Except Err α × rfcparser.Parser))
    (cb : Option (String → Option Err)) (prev : Token) (kw rest : List Nat) (o : Nat)
    (tr : List Event)
    (hk : ∀ d ∈ kw, classify d = .Char) (hrest : stopsAt (fun t => t = .Char) rest)
    (hf : kw.length < fuel) :
    UIDCommandParser.FromParser (uidCommands builders) ParseSeqSet fuel
        (rfcparser.Parser.atInput cb prev (0x20 :: (kw ++ rest)) o tr)
      = (if kw.map ByteToLower = bytes "expunge" then
          UIDExpungeCommandParser.FromParser ParseSeqSet fuel
            (rfcparser.Parser.atInput cb (lastToken prev (0x20 :: kw) o) rest
              (o + (kw.length + 1)) (tr ++ scanTrace (0x20 :: kw) rest o))
        else if kw.map ByteToLower ∈ uidKeywords then
          match builders (kw.map ByteToLower) fuel
              (rfcparser.Parser.atInput cb (lastToken prev (0x20 :: kw) o) rest
                (o + (kw.length + 1)) (tr ++ scanTrace (0x20 :: kw) rest o)) with
          | none => none
          | some (.error e, q) => some (.error e, q)
          | some (.ok payload, q) => some (.ok (Payload.UIDCommand payload), q)
        else
          some (.error (Err.plain
              ("unknown uid command \x27" ++ goString (kw.map ByteToLower) ++ "\x27")),
            rfcparser.Parser.atInput cb (lastToken prev (0x20 :: kw) o) rest
              (o + (kw.length + 1)) (tr ++ scanTrace (0x20 :: kw) rest o))) ∧
    ∀ (rest2 : List Nat) (prev2 : Token) (o2 : Nat) (tr2 : List Event) (seqSet : α)
      (q : rfcparser.Parser),
      ParseSeqSet fuel (rfcparser.Parser.atInput cb ⟨.SP, 0x20, o2⟩ rest2 (o2 + 1)
          (tr2 ++ [Event.scan (tokenAt rest2 (o2 + 1))])) = some (.ok seqSet, q) →
      UIDExpungeCommandParser.FromParser ParseSeqSet fuel
          (rfcparser.Parser.atInput cb prev2 (0x20 :: rest2) o2 tr2)
        = some (.ok (Payload.UIDExpungeCommand seqSet), q) := by
  constructor
  · have e1 : lastToken prev (0x20 :: kw) o = lastToken ⟨classify 0x20, 0x20, o⟩ kw (o + 1) := rfl
    have e2 : tr ++ scanTrace (0x20 :: kw) rest o
        = tr ++ [Event.scan (tokenAt (kw ++ rest) (o + 1))] ++ scanTrace kw rest (o + 1) := by
      simp [scanTrace]
    have e3 : o + (kw.length + 1) = o + 1 + kw.length := by omega
    rw [e1, e2, e3]
    unfold UIDCommandParser.FromParser
    rw [Consume_hit _ _ cb prev 0x20 (kw ++ rest) o tr (by decide)]
    simp only []
    rw [parseCommand_loop_run rest hrest kw fuel [] cb _ (o + 1) _ hk]
    simp only [hf, if_true, List.nil_append]
    by_cases hx : kw.map ByteToLower = bytes "expunge"
    · simp only [hx, if_true]
    · simp only [hx, if_false]
      unfold uidCommands
      by_cases hm : kw.map ByteToLower ∈ uidKeywords
      · simp only [hm, if_true]
      · simp only [hm, if_false]
  · intro rest2 prev2 o2 tr2 seqSet q hq
    unfold UIDExpungeCommandParser.FromParser
    rw [Consume_hit _ _ cb prev2 0x20 rest2 o2 tr2 (by decide)]
    simp only []
    have hc : classify 0x20 = .SP := by decide
    rw [hc, hq]

/-- C13 (witness): the sub-keyword `FeTcH`, with builders that return their
payload at once. -/
theorem C13_uid_subcommands_witness :
    UIDCommandParser.FromParser (α := Nat)
        (uidCommands (fun _ _ q => some (.ok (Payload.Built 7), q)))
        (fun _ q => some (.ok 3, q)) 8
        (rfcparser.Parser.atInput none ⟨.Char, 0x44, 5⟩ (0x20 :: (bytes "FeTcH" ++ [0x20, 0x31]))
          6 [])
      = some (.ok (Payload.UIDCommand (Payload.Built 7)),
          rfcparser.Parser.atInput none (lastToken ⟨.Char, 0x44, 5⟩ (0x20 :: bytes "FeTcH") 6)
            [0x20, 0x31] (6 + ((bytes "FeTcH").length + 1))
            ([] ++ scanTrace (0x20 :: bytes "FeTcH") [0x20, 0x31] 6)) :=
  ((C13_uid_subcommands 8 (fun _ _ q => some (.ok (Payload.Built 7), q))
      (fun _ q => some (.ok 3, q)) none ⟨.Char, 0x44, 5⟩ (bytes "FeTcH") [0x20, 0x31] 6 []
      (by decide) (by decide) (by decide)).1).trans (by rfl)

end command

/-! ## Calendar dates -/

namespace time

/-- Month and day from the day of a year that starts on the first of March, and
back. -/
theorem month_roundtrip (doy : Int) (h0 : 0 ≤ doy) (h1 : doy ≤ 365) (mp m d : Int)
    (hmp : mp = (5 * doy + 2) / 153) (hm : m = if mp < 10 then mp + 3 else mp - 9)
    (hd : d = doy - (153 * mp + 2) / 5 + 1) :
    (153 * (if m > 2 then m - 3 else m + 9) + 2) / 5 + d - 1 = doy ∧ 1 ≤ m ∧ m ≤ 12 ∧
      (m ≤ 2 ↔ 10 ≤ mp) := by
  have hb : 0 ≤ mp ∧ mp ≤ 11 := by omega
  by_cases hc : mp < 10
  · rw [if_pos hc] at hm
    have hm2 : m > 2 := by omega
    rw [if_pos hm2]
    have : m - 3 = mp := by omega
    rw [this]
    omega
  · rw [if_neg hc] at hm
    have hm2 : ¬ m > 2 := by omega
    rw [if_neg hm2]
    have : m + 9 = mp := by omega
    rw [this]
    omega

/-- Position of a day in its cycle of 400 years. -/
theorem era_split (doe : Int) (h0 : 0 ≤ doe) (h1 : doe ≤ 146096) (n100 r1 n4 r2 n1 doy : Int)
    (hn100 : n100 = if doe / 36524 < 3 then doe / 36524 else 3)
    (hr1 : r1 = doe - 36524 * n100) (hn4 : n4 = r1 / 1461) (hr2 : r2 = r1 % 1461)
    (hn1 : n1 = if r2 / 365 < 3 then r2 / 365 else 3) (hdoy : doy = r2 - 365 * n1) :
    0 ≤ n100 ∧ n100 ≤ 3 ∧ 0 ≤ n4 ∧ n4 ≤ 24 ∧ 0 ≤ n1 ∧ n1 ≤ 3 ∧ 0 ≤ doy ∧ doy ≤ 365 ∧
      doe = 36524 * n100 + 1461 * n4 + 365 * n1 + doy := by
  have a1 : 0 ≤ n100 ∧ n100 ≤ 3 := by
    by_cases hc : doe / 36524 < 3
    · rw [if_pos hc] at hn100; omega
    · rw [if_neg hc] at hn100; omega
  have a2 : 0 ≤ r1 ∧ r1 ≤ 36524 := by
    by_cases hc : doe / 36524 < 3
    · rw [if_pos hc] at hn100; omega
    · rw [if_neg hc] at hn100; omega
  have a3 : 0 ≤ n4 ∧ n4 ≤ 24 := by omega
  have a4 : 0 ≤ r2 ∧ r2 ≤ 1460 ∧ r1 = 1461 * n4 + r2 := by omega
  have a5 : 0 ≤ n1 ∧ n1 ≤ 3 ∧ 0 ≤ doy ∧ doy ≤ 365 := by
    by_cases hc : r2 / 365 < 3
    · rw [if_pos hc] at hn1; omega
    · rw [if_neg hc] at hn1; omega
  omega

/-- The day number of the date of a day is the day itself. -/
theorem daysFromCivil_civilFromDays (z : Int) :
    daysFromCivil (civilFromDays z).1 (civilFromDays z).2.1 (civilFromDays z).2.2 = z := by
  have hdoe0 : 0 ≤ (z + 719468) % 146097 := by omega
  have hdoe1 : (z + 719468) % 146097 ≤ 146096 := by omega
  have hz : z = 146097 * ((z + 719468) / 146097) + (z + 719468) % 146097 - 719468 := by omega
  simp only [daysFromCivil, civilFromDays]
  generalize (z + 719468) % 146097 = doe at *
  generalize (z + 719468) / 146097 = era at *
  generalize hn100 : (if doe / 36524 < 3 then doe / 36524 else 3) = n100
  generalize hr1 : doe - 36524 * n100 = r1
  generalize hn4 : r1 / 1461 = n4
  generalize hr2 : r1 % 1461 = r2
  generalize hn1 : (if r2 / 365 < 3 then r2 / 365 else 3) = n1
  generalize hdoy : r2 - 365 * n1 = doy
  obtain ⟨b1, b2, b3, b4, b5, b6, b7, b8, b9⟩ :=
    era_split doe hdoe0 hdoe1 n100 r1 n4 r2 n1 doy hn100.symm hr1.symm hn4.symm hr2.symm
      hn1.symm hdoy.symm
  generalize hmp : (5 * doy + 2) / 153 = mp
  generalize hm : (if mp < 10 then mp + 3 else mp - 9) = m
  generalize hd : doy - (153 * mp + 2) / 5 + 1 = d
  obtain ⟨c1, c2, c3, c4⟩ := month_roundtrip doy b7 b8 mp m d hmp.symm hm.symm hd.symm
  rw [c1]
  generalize hy : 400 * era + 100 * n100 + 4 * n4 + n1 = y
  have hy1 : (if m ≤ 2 then (if m ≤ 2 then y + 1 else y) - 1 else if m ≤ 2 then y + 1 else y)
      = y := by
    by_cases hc : m ≤ 2
    · simp only [if_pos hc]; omega
    · simp only [if_neg hc]
  rw [hy1]
  clear hy1 c1 hm hd hmp hn100 hr1 hn4 hr2 hn1 hdoy
  have e1 : y / 400 = era := by omega
  have e2 : y % 400 = 100 * n100 + 4 * n4 + n1 := by omega
  rw [e1, e2]
  have e3 : (100 * n100 + 4 * n4 + n1) / 4 = 25 * n100 + n4 := by omega
  have e4 : (100 * n100 + 4 * n4 + n1) / 100 = n100 := by omega
  rw [e3, e4]
  omega

end time

/-! ## Search operators -/

namespace state

/-- The degree of parallelism for positive counts is the quotient. -/
theorem searchParallelism_eq (numCPU active : Int) (hc : 0 ≤ numCPU) (ha : 0 ≤ active) :
    searchParallelism numCPU active = numCPU / active := by
  unfold searchParallelism
  exact Int.tdiv_eq_ediv hc ha

/-- C21 (counterexample): with 4 CPUs and a fifth search becoming active the
degree of parallelism that `Search` computes is 0, while `max(1, 4 / 5)` is 1. -/
theorem C21_parallelism_is_zero_under_load :
    searchParallelism 4 (4 + 1) = 0 ∧ max 1 (Int.tdiv 4 (4 + 1)) = 1 ∧
      searchParallelism 4 (4 + 1) ≠ max 1 (Int.tdiv 4 (4 + 1)) := by
  decide

/-- C21 (amended): for a positive number of CPUs and `total` searches active
before the call, `Search` hands the quotient `cpus / (total + 1)` to the
worker pool. The quotient is at least 1 and equals `max(1, cpus / active)`
when no more searches are active than there are CPUs, and it is 0 when more
searches are active than there are CPUs. -/
theorem C21_parallelism_is_the_quotient {ε : Type} (numCPU total : Int) (hc : 1 ≤ numCPU)
    (ht : 0 ≤ total) :
    searchParallelism numCPU (total + 1) = numCPU / (total + 1) ∧
    (total + 1 ≤ numCPU →
      1 ≤ searchParallelism numCPU (total + 1) ∧
      searchParallelism numCPU (total + 1) = max 1 (numCPU / (total + 1))) ∧
    (numCPU < total + 1 → searchParallelism numCPU (total + 1) = 0) ∧
    ∀ (isUID : Bool) (applySearch : snapMsgWithSeq → Except ε Bool) (messages : List snapMsg)
      (schedule : List Nat),
      Search isUID (.ok applySearch) messages numCPU total schedule
        = match DoContext (numCPU / (total + 1)) messages.length
            (searchWorker isUID applySearch messages) schedule
            (List.replicate messages.length 0) with
          | .error e => .error e
          | .ok result => .ok (result.filter (fun v => v != 0)) := by
  have h := searchParallelism_eq numCPU (total + 1) (by omega) (by omega)
  refine ⟨h, ?_, ?_, ?_⟩
  · intro hle
    have h1 : 1 ≤ numCPU / (total + 1) :=
      Int.le_ediv_of_mul_le (by omega) (by omega)
    rw [h]
    exact ⟨h1, (max_eq_right h1).symm⟩
  · intro hlt
    rw [h]
    exact Int.ediv_eq_zero_of_lt (by omega) hlt
  · intro isUID applySearch messages schedule
    unfold Search
    simp only [h]

/-- C21 (witness): 8 CPUs with 3 searches active before the call, and 4 CPUs
with 4 searches active before the call. -/
theorem C21_parallelism_is_the_quotient_witness :
    searchParallelism 8 (3 + 1) = 2 ∧ searchParallelism 4 (4 + 1) = 0 :=
  ⟨((C21_parallelism_is_the_quotient (ε := Unit) 8 3 (by decide) (by decide)).1).trans
      (by decide),
   (C21_parallelism_is_the_quotient (ε := Unit) 4 4 (by decide) (by decide)).2.2.1
      (by decide)⟩

end state

namespace state

theorem buildSearchOp_not (env : Env) (k : SearchKey) :
    buildSearchOp env (.SearchKWNot k)
      = match buildSearchOp env k with
        | .error e => .error e
        | .ok toNegateOpResult =>
          .ok ((newBuildSearchOpResult (notOp toNegateOpResult.op) []).merge toNegateOpResult) := by
  rw [buildSearchOp]

theorem buildSearchOp_or (env : Env) (k1 k2 : SearchKey) :
    buildSearchOp env (.SearchKWOr k1 k2)
      = match buildSearchOp env k1 with
        | .error e => .error e
        | .ok leftOp =>
          match buildSearchOp env k2 with
          | .error e => .error e
          | .ok rightOp =>
            .ok (((newBuildSearchOpResult (orOp leftOp.op rightOp.op) []).merge leftOp).merge
              rightOp) := by
  rw [buildSearchOp]

theorem buildSearchOp_list (env : Env) (ks : List SearchKey) :
    buildSearchOp env (.SearchKWList ks) = buildSearchOpListWithKeys env ks := by
  rw [buildSearchOp]
  rfl

theorem buildSearchOpListWithKeys_nil (env : Env) (opResult : buildSearchOpResult) (ops : List searchOp) :
    buildSearchOpListWithKeys.loop env [] opResult ops
      = .ok { opResult with op := listOp ops true } := by
  rw [buildSearchOpListWithKeys.loop]

theorem buildSearchOpListWithKeys_cons (env : Env) (k : SearchKey) (rest : List SearchKey)
    (opResult : buildSearchOpResult) (ops : List searchOp) :
    buildSearchOpListWithKeys.loop env (k :: rest) opResult ops
      = match buildSearchOp env k with
        | .error e => .error e
        | .ok result =>
          buildSearchOpListWithKeys.loop env rest (opResult.merge result) (ops ++ [result.op]) := by
  rw [buildSearchOpListWithKeys.loop]

/-- The loop over the keys of a list adds the requirements of every key to the
ones it starts from. -/
theorem buildSearchOpListWithKeys_needs (env : Env) (ks : List SearchKey) :
    ∀ (rs : List buildSearchOpResult) (opResult : buildSearchOpResult) (ops : List searchOp),
      List.Forall₂ (fun k r => buildSearchOp env k = .ok r) ks rs →
      ∃ r, buildSearchOpListWithKeys.loop env ks opResult ops = .ok r ∧
        r.op = listOp (ops ++ rs.map (fun x => x.op)) true ∧
        r.needsLiteral = (opResult.needsLiteral || rs.any (fun x => x.needsLiteral)) ∧
        r.needsMessage = (opResult.needsMessage || rs.any (fun x => x.needsMessage)) ∧
        r.needsHeader = (opResult.needsHeader || rs.any (fun x => x.needsHeader)) := by
  induction ks with
  | nil =>
    intro rs opResult ops h
    cases h
    refine ⟨_, buildSearchOpListWithKeys_nil env opResult ops, ?_, ?_, ?_, ?_⟩ <;> simp
  | cons k rest ih =>
    intro rs opResult ops h
    cases h with
    | cons hk hrest =>
      rename_i r rs1
      obtain ⟨x, hx, h1, h2, h3, h4⟩ := ih rs1 (opResult.merge r) (ops ++ [r.op]) hrest
      refine ⟨x, ?_, ?_, ?_, ?_, ?_⟩
      · rw [buildSearchOpListWithKeys_cons, hk]
        exact hx
      · rw [h1]; simp
      · rw [h2]; simp [buildSearchOpResult.merge, Bool.or_assoc]
      · rw [h3]; simp [buildSearchOpResult.merge, Bool.or_assoc]
      · rw [h4]; simp [buildSearchOpResult.merge, Bool.or_assoc]

/-- C22: the requirements of `NOT key` are those of the key, the requirements
of `OR left right` are the disjunctions of those of the two keys, and the
requirements of a list of keys are the disjunctions over the keys of the list,
all false for the empty list. -/
theorem C22_requirements_are_united (env : Env) :
    (∀ k r0, buildSearchOp env k = .ok r0 →
      ∃ r, buildSearchOp env (.SearchKWNot k) = .ok r ∧
        r.needsLiteral = r0.needsLiteral ∧ r.needsMessage = r0.needsMessage ∧
        r.needsHeader = r0.needsHeader) ∧
    (∀ k1 k2 r1 r2, buildSearchOp env k1 = .ok r1 → buildSearchOp env k2 = .ok r2 →
      ∃ r, buildSearchOp env (.SearchKWOr k1 k2) = .ok r ∧
        r.needsLiteral = (r1.needsLiteral || r2.needsLiteral) ∧
        r.needsMessage = (r1.needsMessage || r2.needsMessage) ∧
        r.needsHeader = (r1.needsHeader || r2.needsHeader)) ∧
    (∀ ks rs, List.Forall₂ (fun k r => buildSearchOp env k = .ok r) ks rs →
      ∃ r, buildSearchOpListWithKeys env ks = .ok r ∧
        buildSearchOp env (.SearchKWList ks) = .ok r ∧
        r.needsLiteral = rs.any (fun x => x.needsLiteral) ∧
        r.needsMessage = rs.any (fun x => x.needsMessage) ∧
        r.needsHeader = rs.any (fun x => x.needsHeader)) ∧
    (∃ r, buildSearchOpListWithKeys env [] = .ok r ∧
        r.needsLiteral = false ∧ r.needsMessage = false ∧ r.needsHeader = false) := by
  refine ⟨?_, ?_, ?_, ?_⟩
  · intro k r0 h
    refine ⟨(newBuildSearchOpResult (notOp r0.op) []).merge r0, ?_, ?_, ?_, ?_⟩
    · rw [buildSearchOp_not, h]
    · simp [buildSearchOpResult.merge, newBuildSearchOpResult]
    · simp [buildSearchOpResult.merge, newBuildSearchOpResult]
    · simp [buildSearchOpResult.merge, newBuildSearchOpResult]
  · intro k1 k2 r1 r2 h1 h2
    refine ⟨((newBuildSearchOpResult (orOp r1.op r2.op) []).merge r1).merge r2, ?_, ?_, ?_, ?_⟩
    · rw [buildSearchOp_or, h1, h2]
    · simp [buildSearchOpResult.merge, newBuildSearchOpResult]
    · simp [buildSearchOpResult.merge, newBuildSearchOpResult]
    · simp [buildSearchOpResult.merge, newBuildSearchOpResult]
  · intro ks rs h
    obtain ⟨r, hr, _, h2, h3, h4⟩ := buildSearchOpListWithKeys_needs env ks rs (newBuildSearchOpResult nilOp []) [] h
    refine ⟨r, hr, ?_, ?_, ?_, ?_⟩
    · rw [buildSearchOp_list]; exact hr
    · rw [h2]; simp [newBuildSearchOpResult]
    · rw [h3]; simp [newBuildSearchOpResult]
    · rw [h4]; simp [newBuildSearchOpResult]
  · exact ⟨_, buildSearchOpListWithKeys_nil env _ _, rfl, rfl, rfl⟩

end state

namespace state

/-- C22 (witness): `NOT (TEXT a)`, `OR (FROM a) (LARGER 1)` and the list
`SEEN (BODY a)`. -/
theorem C22_requirements_are_united_witness :
    (∃ r, buildSearchOp exampleEnv (.SearchKWNot (.SearchKWText [0x61])) = .ok r ∧
      r.needsLiteral = true ∧ r.needsMessage = false ∧ r.needsHeader = false) ∧
    (∃ r, buildSearchOp exampleEnv (.SearchKWOr (.SearchKWFrom [0x61]) (.SearchKWLarger 1))
        = .ok r ∧
      r.needsLiteral = (true || false) ∧ r.needsMessage = (false || true) ∧
      r.needsHeader = (true || false)) ∧
    (∃ r, buildSearchOpListWithKeys exampleEnv [.SearchKWSeen, .SearchKWBody [0x61]] = .ok r ∧
      buildSearchOp exampleEnv (.SearchKWList [.SearchKWSeen, .SearchKWBody [0x61]]) = .ok r ∧
      r.needsLiteral = true ∧ r.needsMessage = false ∧ r.needsHeader = false) :=
  ⟨(C22_requirements_are_united exampleEnv).1 (.SearchKWText [0x61])
      (newBuildSearchOpResult
        (fun s => .ok (Contains (exampleEnv.ToLower s.literal) (exampleEnv.ToLower [0x61]))) [needsLiteral]) rfl,
   (C22_requirements_are_united exampleEnv).2.1 (.SearchKWFrom [0x61]) (.SearchKWLarger 1)
      (newBuildSearchOpResult
        (fun s => .ok (Contains (exampleEnv.ToLower (s.header (rfcparser.bytes "From"))) (exampleEnv.ToLower [0x61])))
        [needsHeader])
      (newBuildSearchOpResult (fun s => .ok (decide (s.dbMessage.size > 1))) [needsDBMessage])
      rfl rfl,
   (C22_requirements_are_united exampleEnv).2.2.1 [.SearchKWSeen, .SearchKWBody [0x61]]
      [newBuildSearchOpResult
          (fun s => .ok (ContainsUnchecked s.message.flags FlagSeenLowerCase)) [],
       newBuildSearchOpResult
          (fun s => .ok (Contains (exampleEnv.ToLower (exampleEnv.Body s.literal)) (exampleEnv.ToLower [0x61])))
          [needsLiteral]]
      (List.Forall₂.cons rfl (List.Forall₂.cons rfl List.Forall₂.nil))⟩

/-- C23: on every message the operator of `NEW` is true exactly when the
operator of `RECENT` is true and the operator of `SEEN` is false, the operator
of `OLD` is true exactly when the operator of `RECENT` is false, and the
operators of `NEW` and `OLD` are never both true. None of the four fails. -/
theorem C23_new_is_recent_and_unseen (env : Env) (s : searchData) :
    ∃ rNew rOld rRecent rSeen new old recent seen,
      buildSearchOp env .SearchKWNew = .ok rNew ∧ buildSearchOp env .SearchKWOld = .ok rOld ∧
      buildSearchOp env .SearchKWRecent = .ok rRecent ∧
      buildSearchOp env .SearchKWSeen = .ok rSeen ∧
      rNew.op s = .ok new ∧ rOld.op s = .ok old ∧ rRecent.op s = .ok recent ∧
      rSeen.op s = .ok seen ∧
      (new = true ↔ recent = true ∧ seen = false) ∧ (old = true ↔ recent = false) ∧
      ¬ (new = true ∧ old = true) := by
  refine ⟨_, _, _, _, _, _, _, _, rfl, rfl,
    rfl, rfl, rfl, rfl, rfl, rfl, ?_, ?_, ?_⟩
  · cases ContainsUnchecked s.message.flags FlagRecentLowerCase <;>
      cases ContainsUnchecked s.message.flags FlagSeenLowerCase <;> simp
  · cases ContainsUnchecked s.message.flags FlagRecentLowerCase <;> simp
  · cases ContainsUnchecked s.message.flags FlagRecentLowerCase <;>
      cases ContainsUnchecked s.message.flags FlagSeenLowerCase <;> simp

/-- C24: on every message the operator of `LARGER n` is true exactly when the
size of the message is greater than `n` and the operator of `SMALLER n` exactly
when it is less than `n`; a message of size `n` matches neither and no message
matches both. Neither operator fails. -/
theorem C24_larger_and_smaller_are_strict (env : Env) (n : Int) (s : searchData) :
    ∃ rLarger rSmaller larger smaller,
      buildSearchOp env (.SearchKWLarger n) = .ok rLarger ∧
      buildSearchOp env (.SearchKWSmaller n) = .ok rSmaller ∧
      rLarger.op s = .ok larger ∧ rSmaller.op s = .ok smaller ∧
      (larger = true ↔ s.dbMessage.size > n) ∧ (smaller = true ↔ s.dbMessage.size < n) ∧
      (s.dbMessage.size = n → larger = false ∧ smaller = false) ∧
      ¬ (larger = true ∧ smaller = true) := by
  refine ⟨_, _, _, _, rfl, rfl, rfl, rfl,
    ?_, ?_, ?_, ?_⟩
  · simp
  · simp
  · intro h
    simp [h]
  · simp only [decide_eq_true_eq]
    omega

/-- C25: the operators of `KEYWORD` and `UNKEYWORD` depend on the flag of the
key through its lower-cased form only: two flags that are equal after
lower-casing give operators that agree on every message; and on every
message exactly one of `KEYWORD flag` and `UNKEYWORD flag` is true. The
operator of `KEYWORD` is the lookup of the lower-cased flag in the flag set. -/
theorem C25_keyword_ignores_letter_case (env : Env) (flag1 flag2 : List Nat)
    (h : env.ToLower flag1 = env.ToLower flag2) (s : searchData) :
    ∃ k1 k2 u1 u2 b,
      buildSearchOp env (.SearchKWKeyword flag1) = .ok k1 ∧
      buildSearchOp env (.SearchKWKeyword flag2) = .ok k2 ∧
      buildSearchOp env (.SearchKWUnkeyword flag1) = .ok u1 ∧
      buildSearchOp env (.SearchKWUnkeyword flag2) = .ok u2 ∧
      k1.op s = .ok b ∧ k2.op s = .ok b ∧ u1.op s = .ok (!b) ∧ u2.op s = .ok (!b) ∧
      b = ContainsUnchecked s.message.flags (env.ToLower flag1) := by
  refine ⟨_, _, _, _, _, rfl, rfl,
    rfl, rfl, rfl, ?_, rfl, ?_, rfl⟩
  · show Except.ok (ContainsUnchecked s.message.flags (env.ToLower flag2)) = _
    rw [← h]
  · show Except.ok (!ContainsUnchecked s.message.flags (env.ToLower flag2)) = _
    rw [← h]

/-- C25 (witness): the keys `KEYWORD Foo` and `KEYWORD fOO` on a message that
carries the flag `FOO`, kept as `foo`. -/
theorem C25_keyword_ignores_letter_case_witness :
    exampleEnv.ToLower (rfcparser.bytes "Foo") = exampleEnv.ToLower (rfcparser.bytes "fOO") ∧
    ∃ k1 k2 u1 u2 b,
      buildSearchOp exampleEnv (.SearchKWKeyword (rfcparser.bytes "Foo")) = .ok k1 ∧
      buildSearchOp exampleEnv (.SearchKWKeyword (rfcparser.bytes "fOO")) = .ok k2 ∧
      buildSearchOp exampleEnv (.SearchKWUnkeyword (rfcparser.bytes "Foo")) = .ok u1 ∧
      buildSearchOp exampleEnv (.SearchKWUnkeyword (rfcparser.bytes "fOO")) = .ok u2 ∧
      k1.op (exampleData [rfcparser.bytes "foo"]) = .ok b ∧
      k2.op (exampleData [rfcparser.bytes "foo"]) = .ok b ∧
      u1.op (exampleData [rfcparser.bytes "foo"]) = .ok (!b) ∧
      u2.op (exampleData [rfcparser.bytes "foo"]) = .ok (!b) ∧
      b = ContainsUnchecked (exampleData [rfcparser.bytes "foo"]).message.flags
        (exampleEnv.ToLower (rfcparser.bytes "Foo")) :=
  ⟨by decide, C25_keyword_ignores_letter_case exampleEnv (rfcparser.bytes "Foo")
    (rfcparser.bytes "fOO") (by decide) (exampleData [rfcparser.bytes "foo"])⟩

end state

namespace state

open rfcparser (bytes)

/-- The date that a time shows in its location has the day number `localDay`. -/
theorem daysFromCivil_shown (t : time.Time) :
    time.daysFromCivil t.Year t.Month t.Day = t.localDay :=
  time.daysFromCivil_civilFromDays t.localDay

/-- `convertToDateWithoutTZ` gives the midnight UTC of the date that the time
shows in its own location. -/
theorem convertToDateWithoutTZ_eq (t : time.Time) :
    convertToDateWithoutTZ t
      = { unixNano := t.localDay * 86400 * 1000000000, zoneOffset := 0 } := by
  unfold convertToDateWithoutTZ time.Date
  rw [daysFromCivil_shown]
  simp [time.UTC]

theorem timeParse_ok (env : Env) (value : List Nat) (y m d : Int)
    (h : env.parseDate value = .ok (y, m, d)) :
    env.timeParse value
      = .ok { unixNano := time.daysFromCivil y m d * 86400 * 1000000000, zoneOffset := 0 } := by
  unfold Env.timeParse
  rw [h]
  simp [time.Date, time.UTC]

/-- `Before` against a midnight UTC compares the UTC day of the instant. -/
theorem Before_midnight (t : time.Time) (D : Int) :
    t.Before { unixNano := D * 86400 * 1000000000, zoneOffset := 0 } = decide (t.utcDay < D) := by
  unfold time.Time.Before time.Time.utcDay
  dsimp only
  congr 1
  apply propext
  constructor <;> intro h <;> omega

/-- Truncation to 24 hours compares the UTC day of the instant. -/
theorem Truncate_midnight (t : time.Time) (D : Int) :
    ((({ unixNano := D * 86400 * 1000000000, zoneOffset := 0 } : time.Time).Truncate
        (24 * time.Hour)).Equal (t.Truncate (24 * time.Hour))) = decide (t.utcDay = D) := by
  have h24 : 24 * time.Hour = 86400000000000 := by decide
  have hpos : ¬ ((86400000000000 : Int) ≤ 0) := by decide
  rw [h24]
  unfold time.Time.Truncate time.Time.Equal time.Time.utcDay time.unixToInternal
  simp only [if_neg hpos]
  congr 1
  apply propext
  constructor <;> intro h <;> omega

/-- `Equal` or `After` against a midnight UTC, for a midnight UTC, compares the
days. -/
theorem Since_midnight (L D : Int) :
    ((({ unixNano := L * 86400 * 1000000000, zoneOffset := 0 } : time.Time).Equal
        { unixNano := D * 86400 * 1000000000, zoneOffset := 0 }) ||
      (({ unixNano := L * 86400 * 1000000000, zoneOffset := 0 } : time.Time).After
        { unixNano := D * 86400 * 1000000000, zoneOffset := 0 })) = decide (D ≤ L) := by
  unfold time.Time.Equal time.Time.After
  dsimp only
  rw [← Bool.decide_or]
  congr 1
  apply propext
  constructor <;> intro h <;> omega

/-- What the operators of `BEFORE`, `ON` and `SINCE` compute for a key date
that `time.Parse` reads as `y`-`m`-`d`: `BEFORE` and `ON` compare the UTC day
of the internal date with the key date, `SINCE` compares the day that the
internal date shows in its own location. -/
theorem internal_date_ops (env : Env) (date : List Nat) (y m d : Int)
    (h : env.parseDate date = .ok (y, m, d)) (s : searchData) :
    ∃ rBefore rOn rSince,
      buildSearchOp env (.SearchKWBefore date) = .ok rBefore ∧
      buildSearchOp env (.SearchKWOn date) = .ok rOn ∧
      buildSearchOp env (.SearchKWSince date) = .ok rSince ∧
      rBefore.op s = .ok (decide (s.dbMessage.date.utcDay < time.daysFromCivil y m d)) ∧
      rOn.op s = .ok (decide (s.dbMessage.date.utcDay = time.daysFromCivil y m d)) ∧
      rSince.op s = .ok (decide (time.daysFromCivil y m d ≤ s.dbMessage.date.localDay)) := by
  have hp := timeParse_ok env date y m d h
  refine ⟨newBuildSearchOpResult (fun s => .ok (s.dbMessage.date.Before
        { unixNano := time.daysFromCivil y m d * 86400 * 1000000000, zoneOffset := 0 }))
      [needsDBMessage],
    newBuildSearchOpResult (fun s => .ok
        ((({ unixNano := time.daysFromCivil y m d * 86400 * 1000000000, zoneOffset := 0 } :
          time.Time).Truncate (24 * time.Hour)).Equal
          (s.dbMessage.date.Truncate (24 * time.Hour)))) [needsDBMessage],
    newBuildSearchOpResult (fun s => .ok
        ((convertToDateWithoutTZ s.dbMessage.date).Equal
            { unixNano := time.daysFromCivil y m d * 86400 * 1000000000, zoneOffset := 0 } ||
          (convertToDateWithoutTZ s.dbMessage.date).After
            { unixNano := time.daysFromCivil y m d * 86400 * 1000000000, zoneOffset := 0 }))
      [needsDBMessage], ?_, ?_, ?_, ?_, ?_, ?_⟩
  · rw [buildSearchOp]
    unfold buildSearchOpBefore
    rw [hp]
  · rw [buildSearchOp]
    unfold buildSearchOpOn
    rw [hp]
  · rw [buildSearchOp]
    unfold buildSearchOpSince
    rw [hp]
  · show Except.ok _ = _
    rw [Before_midnight]
  · show Except.ok _ = _
    rw [Truncate_midnight]
  · show Except.ok _ = _
    rw [convertToDateWithoutTZ_eq, Since_midnight]

end state

namespace state

open rfcparser (bytes)

/-- C26 (the code on a date with a zone offset): the internal date 23:30 on
the first of January 2023, five hours west of UTC, is 04:30 UTC on the second of
January. For the key date `2-Jan-2023` the UTC date of the message equals the
key date, `ON` is true and `BEFORE` is false, but `SINCE` is false as well:
`SINCE` takes the date that the time shows in its own zone, the first of
January. -/
theorem C26_since_takes_the_date_of_the_zone :
    (time.Date 2023 1 2 4 30 0 0 time.UTC).Equal (exampleData []).dbMessage.date = true ∧
    (exampleData []).dbMessage.date.utcDay = time.daysFromCivil 2023 1 2 ∧
    (exampleData []).dbMessage.date.localDay = time.daysFromCivil 2023 1 1 ∧
    (buildSearchOp exampleEnv (.SearchKWBefore (bytes "2-Jan-2023"))).bind
        (fun r => r.op (exampleData [])) = .ok false ∧
    (buildSearchOp exampleEnv (.SearchKWOn (bytes "2-Jan-2023"))).bind
        (fun r => r.op (exampleData [])) = .ok true ∧
    (buildSearchOp exampleEnv (.SearchKWSince (bytes "2-Jan-2023"))).bind
        (fun r => r.op (exampleData [])) = .ok false := by
  refine ⟨?_, ?_, ?_, ?_, ?_, ?_⟩ <;> decide

end state

namespace state

open rfcparser (bytes)

/-- C27 (counterexample): the `Date` header 23:30 on the first of January 2023,
five hours west of UTC, is 04:30 UTC on the second of January. `SENTON
2-Jan-2023`, the UTC date, is false and `SENTON 1-Jan-2023` is true;
`SENTBEFORE 2-Jan-2023` is true and `SENTSINCE 2-Jan-2023` is false. -/
theorem C27_sent_date_is_not_the_utc_date :
    exampleEnv.ParseRFC5322DateTime ((exampleData []).header (bytes "Date"))
      = .ok (time.Date 2023 1 1 23 30 0 0 (-18000)) ∧
    (time.Date 2023 1 1 23 30 0 0 (-18000)).utcDay = time.daysFromCivil 2023 1 2 ∧
    (buildSearchOp exampleEnv (.SearchKWSentOn (bytes "2-Jan-2023"))).bind
        (fun r => r.op (exampleData [])) = .ok false ∧
    (buildSearchOp exampleEnv (.SearchKWSentOn (bytes "1-Jan-2023"))).bind
        (fun r => r.op (exampleData [])) = .ok true ∧
    (buildSearchOp exampleEnv (.SearchKWSentBefore (bytes "2-Jan-2023"))).bind
        (fun r => r.op (exampleData [])) = .ok true ∧
    (buildSearchOp exampleEnv (.SearchKWSentSince (bytes "2-Jan-2023"))).bind
        (fun r => r.op (exampleData [])) = .ok false := by
  refine ⟨?_, ?_, ?_, ?_, ?_, ?_⟩ <;> decide

theorem buildSearchOpSentBefore_ok (env : Env) (date : List Nat) (y m d : Int)
    (hkey : env.parseDate date = .ok (y, m, d)) :
    ∃ r, buildSearchOpSentBefore env date = .ok r ∧
      ∀ s t, env.ParseRFC5322DateTime (s.header (bytes "Date")) = .ok t →
        r.op s = .ok (decide (t.localDay < time.daysFromCivil y m d)) := by
  unfold buildSearchOpSentBefore
  rw [timeParse_ok env date y m d hkey]
  refine ⟨_, rfl, ?_⟩
  intro s t ht
  dsimp only [newBuildSearchOpResult, List.foldl, searchOpResultOption.apply, needsHeader]
  rw [ht]
  dsimp only
  rw [convertToDateWithoutTZ_eq]
  unfold time.Time.Before
  dsimp only
  congr 2
  apply propext
  constructor <;> intro h <;> omega

theorem buildSearchOpSentOn_ok (env : Env) (date : List Nat) (y m d : Int)
    (hkey : env.parseDate date = .ok (y, m, d)) :
    ∃ r, buildSearchOpSentOn env date = .ok r ∧
      ∀ s t, env.ParseRFC5322DateTime (s.header (bytes "Date")) = .ok t →
        r.op s = .ok (decide (t.localDay = time.daysFromCivil y m d)) := by
  unfold buildSearchOpSentOn
  rw [timeParse_ok env date y m d hkey]
  refine ⟨_, rfl, ?_⟩
  intro s t ht
  dsimp only [newBuildSearchOpResult, List.foldl, searchOpResultOption.apply, needsHeader]
  rw [ht]
  dsimp only
  rw [convertToDateWithoutTZ_eq]
  unfold time.Time.Equal
  dsimp only
  congr 2
  apply propext
  constructor <;> intro h <;> omega

theorem buildSearchOpSentSince_ok (env : Env) (date : List Nat) (y m d : Int)
    (hkey : env.parseDate date = .ok (y, m, d)) :
    ∃ r, buildSearchOpSentSince env date = .ok r ∧
      ∀ s t, env.ParseRFC5322DateTime (s.header (bytes "Date")) = .ok t →
        r.op s = .ok (decide (time.daysFromCivil y m d ≤ t.localDay)) := by
  unfold buildSearchOpSentSince
  rw [timeParse_ok env date y m d hkey]
  refine ⟨_, rfl, ?_⟩
  intro s t ht
  dsimp only [newBuildSearchOpResult, List.foldl, searchOpResultOption.apply, needsHeader]
  rw [ht]
  dsimp only
  rw [convertToDateWithoutTZ_eq, Since_midnight]

/-- C27 (amended): for a message whose `Date` header parses to the time `t` and
a key date that `time.Parse` reads as `y`-`m`-`d`, the operators of
`SENTBEFORE`, `SENTON` and `SENTSINCE` compare the date that `t` shows in its
own zone (`t.Year`, `t.Month`, `t.Day`, the zone offset disregarded) with the
key date: earlier, equal, equal or later. So exactly one of `SENTBEFORE` and
`SENTSINCE` is true and `SENTON` implies `SENTSINCE`. -/
theorem C27_sent_date_is_the_date_shown (env : Env) (date : List Nat) (y m d : Int)
    (s : searchData) (t : time.Time)
    (hkey : env.parseDate date = .ok (y, m, d))
    (hdate : env.ParseRFC5322DateTime (s.header (bytes "Date")) = .ok t) :
    ∃ rBefore rOn rSince isBefore isOn isSince,
      buildSearchOp env (.SearchKWSentBefore date) = .ok rBefore ∧
      buildSearchOp env (.SearchKWSentOn date) = .ok rOn ∧
      buildSearchOp env (.SearchKWSentSince date) = .ok rSince ∧
      rBefore.op s = .ok isBefore ∧ rOn.op s = .ok isOn ∧ rSince.op s = .ok isSince ∧
      (isBefore = true ↔
        time.daysFromCivil t.Year t.Month t.Day < time.daysFromCivil y m d) ∧
      (isOn = true ↔ time.daysFromCivil t.Year t.Month t.Day = time.daysFromCivil y m d) ∧
      (isSince = true ↔
        time.daysFromCivil y m d ≤ time.daysFromCivil t.Year t.Month t.Day) ∧
      (isBefore = !isSince) ∧ (isOn = true → isSince = true) := by
  obtain ⟨rB, hB, hB1⟩ := buildSearchOpSentBefore_ok env date y m d hkey
  obtain ⟨rO, hO, hO1⟩ := buildSearchOpSentOn_ok env date y m d hkey
  obtain ⟨rS, hS, hS1⟩ := buildSearchOpSentSince_ok env date y m d hkey
  refine ⟨rB, rO, rS, decide (t.localDay < time.daysFromCivil y m d),
    decide (t.localDay = time.daysFromCivil y m d),
    decide (time.daysFromCivil y m d ≤ t.localDay), ?_, ?_, ?_, hB1 s t hdate, hO1 s t hdate,
    hS1 s t hdate, ?_, ?_, ?_, ?_, ?_⟩
  · rw [buildSearchOp]; exact hB
  · rw [buildSearchOp]; exact hO
  · rw [buildSearchOp]; exact hS
  · rw [daysFromCivil_shown]
    simp
  · rw [daysFromCivil_shown]
    simp
  · rw [daysFromCivil_shown]
    simp
  · by_cases hlt : t.localDay < time.daysFromCivil y m d
    · have : ¬ (time.daysFromCivil y m d ≤ t.localDay) := by omega
      simp [hlt, this]
    · have : time.daysFromCivil y m d ≤ t.localDay := by omega
      simp [hlt, this]
  · intro hon
    simp only [decide_eq_true_eq] at hon ⊢
    omega

/-- C27 (witness): the `Date` header of 23:30 on the first of January 2023, five
hours west of UTC, and the key date `1-Jan-2023`. -/
theorem C27_sent_date_is_the_date_shown_witness :
    exampleEnv.parseDate (bytes "1-Jan-2023") = .ok (2023, 1, 1) ∧
    exampleEnv.ParseRFC5322DateTime ((exampleData []).header (bytes "Date"))
      = .ok (time.Date 2023 1 1 23 30 0 0 (-18000)) ∧
    ∃ rBefore rOn rSince isBefore isOn isSince,
      buildSearchOp exampleEnv (.SearchKWSentBefore (bytes "1-Jan-2023")) = .ok rBefore ∧
      buildSearchOp exampleEnv (.SearchKWSentOn (bytes "1-Jan-2023")) = .ok rOn ∧
      buildSearchOp exampleEnv (.SearchKWSentSince (bytes "1-Jan-2023")) = .ok rSince ∧
      rBefore.op (exampleData []) = .ok isBefore ∧ rOn.op (exampleData []) = .ok isOn ∧
      rSince.op (exampleData []) = .ok isSince ∧
      (isBefore = true ↔
        time.daysFromCivil (time.Date 2023 1 1 23 30 0 0 (-18000)).Year
            (time.Date 2023 1 1 23 30 0 0 (-18000)).Month
            (time.Date 2023 1 1 23 30 0 0 (-18000)).Day < time.daysFromCivil 2023 1 1) ∧
      (isOn = true ↔
        time.daysFromCivil (time.Date 2023 1 1 23 30 0 0 (-18000)).Year
            (time.Date 2023 1 1 23 30 0 0 (-18000)).Month
            (time.Date 2023 1 1 23 30 0 0 (-18000)).Day = time.daysFromCivil 2023 1 1) ∧
      (isSince = true ↔
        time.daysFromCivil 2023 1 1 ≤
          time.daysFromCivil (time.Date 2023 1 1 23 30 0 0 (-18000)).Year
            (time.Date 2023 1 1 23 30 0 0 (-18000)).Month
            (time.Date 2023 1 1 23 30 0 0 (-18000)).Day) ∧
      (isBefore = !isSince) ∧ (isOn = true → isSince = true) :=
  ⟨by decide, by decide,
    C27_sent_date_is_the_date_shown exampleEnv (bytes "1-Jan-2023") 2023 1 1 (exampleData [])
      (time.Date 2023 1 1 23 30 0 0 (-18000)) (by decide) (by decide)⟩

end state

/-! ## The reader loop and the EXPUNGE handlers -/

namespace session
open rfcparser command

/-- The table `tlsHeaders` holds the prefixes `16 03 01` to `16 03 04` and
`16 00 00`. -/
theorem tlsHeaders_any_iff (bs : List Nat) :
    tlsHeaders.any (fun tlsHeader => tlsHeader.isPrefixOf bs) = true ↔
      (∃ X rest, bs = 0x16 :: 0x03 :: X :: rest ∧ 1 ≤ X ∧ X ≤ 4) ∨
      (∃ rest, bs = 0x16 :: 0x00 :: 0x00 :: rest) := by
  match bs with
  | [] => simp [tlsHeaders, List.isPrefixOf]
  | [a] => simp [tlsHeaders, List.isPrefixOf]
  | [a, b] => simp [tlsHeaders, List.isPrefixOf]
  | a :: b :: c :: rest =>
    simp only [tlsHeaders, List.any_cons, List.any_nil, List.isPrefixOf, Bool.or_false,
      Bool.and_true, Bool.or_eq_true, Bool.and_eq_true, beq_iff_eq, List.cons.injEq]
    constructor
    · intro h
      rcases h with h | h | h | h | h
      · exact Or.inl ⟨c, rest, ⟨h.1.symm, h.2.1.symm, rfl, rfl⟩, by omega, by omega⟩
      · exact Or.inl ⟨c, rest, ⟨h.1.symm, h.2.1.symm, rfl, rfl⟩, by omega, by omega⟩
      · exact Or.inl ⟨c, rest, ⟨h.1.symm, h.2.1.symm, rfl, rfl⟩, by omega, by omega⟩
      · exact Or.inl ⟨c, rest, ⟨h.1.symm, h.2.1.symm, rfl, rfl⟩, by omega, by omega⟩
      · exact Or.inr ⟨rest, h.1.symm, h.2.1.symm, h.2.2.symm, rfl⟩
    · intro h
      rcases h with ⟨X, r, ⟨h1, h2, h3, _⟩, h5, h6⟩ | ⟨r, h1, h2, h3, _⟩
      · have : X = 1 ∨ X = 2 ∨ X = 3 ∨ X = 4 := by omega
        rcases this with hx | hx | hx | hx
        · exact Or.inl ⟨h1.symm, h2.symm, by omega⟩
        · exact Or.inr (Or.inl ⟨h1.symm, h2.symm, by omega⟩)
        · exact Or.inr (Or.inr (Or.inl ⟨h1.symm, h2.symm, by omega⟩))
        · exact Or.inr (Or.inr (Or.inr (Or.inl ⟨h1.symm, h2.symm, by omega⟩)))
      · exact Or.inr (Or.inr (Or.inr (Or.inr ⟨h1.symm, h2.symm, h3.symm⟩)))

theorem ConsumeInvalidInput_ok {α : Type} (p : command.Parser α) :
    (ConsumeInvalidInput p).1 = none := by
  unfold ConsumeInvalidInput
  split <;> rfl

end session

namespace session
open rfcparser command

theorem startTLSStop_ne {α : Type} (handleStartTLS : List Nat → Option Err)
    (cmd : command.Command α) : startTLSStop handleStartTLS cmd ≠ some StopCause.tlsHandshake := by
  unfold startTLSStop
  split
  · split <;> simp
  · simp

/-- The error branch ends at the TLS check exactly when the error of `Parse`
is a parser error that is not at the end of input and the bytes read have one
of the prefixes of the table. -/
theorem errorStop_tls {α : Type} (p p1 : command.Parser α) (err : Option Err) :
    errorStop p p1 err = some StopCause.tlsHandshake ↔
      ∃ e parserError, err = some e ∧ e.asParserError = some parserError ∧
        Err.IsEOF parserError = false ∧
        tlsHeaders.any (fun tlsHeader =>
          tlsHeader.isPrefixOf (bytesRead p (ConsumeInvalidInput p1).2)) = true := by
  cases err with
  | none => simp [errorStop]
  | some e =>
    cases hA : e.asParserError with
    | none => simp [errorStop, hA]
    | some parserError =>
      have hC := ConsumeInvalidInput_ok p1
      cases hX : ConsumeInvalidInput p1 with
      | mk c p2 =>
        rw [hX] at hC
        simp only at hC
        subst hC
        by_cases hE : Err.IsEOF parserError = true
        · constructor
          · intro h
            unfold errorStop at h
            simp only [hA, hE, if_true] at h
            simp at h
          · rintro ⟨e1, pe, h1, h2, h3, _⟩
            have h5 : e1 = e := by simpa using h1.symm
            rw [h5, hA] at h2
            have h6 : pe = parserError := by simpa using h2.symm
            rw [h6, hE] at h3
            simp at h3
        · by_cases hT : tlsHeaders.any (fun tlsHeader =>
              tlsHeader.isPrefixOf (bytesRead p p2)) = true
          · have hE1 : Err.IsEOF parserError = false := by simpa using hE
            constructor
            · intro _
              exact ⟨e, parserError, rfl, hA, hE1, hT⟩
            · intro _
              unfold errorStop
              simp only [hA, hX, hE1, hT, if_true]
              rfl
          · constructor
            · intro h
              unfold errorStop at h
              simp only [hA, hX] at h
              rw [if_neg hE, if_neg hT] at h
              simp at h
            · rintro ⟨_, _, _, _, _, h4⟩
              exact absurd h4 hT

theorem readerTurnStop_tls {α : Type} (fuel : Nat) (handleStartTLS : List Nat → Option Err)
    (p : command.Parser α) :
    readerTurnStop fuel handleStartTLS p = some (some StopCause.tlsHandshake) ↔
      ∃ cmd err p1, p.Parse fuel = some ((cmd, err), p1) ∧
        errorStop p p1 err = some StopCause.tlsHandshake := by
  unfold readerTurnStop
  cases hP : p.Parse fuel with
  | none => simp
  | some r =>
    obtain ⟨⟨cmd, err⟩, p1⟩ := r
    simp only
    cases hS : errorStop p p1 err with
    | none =>
      simp only [Option.some.injEq]
      constructor
      · intro h
        exact absurd h (startTLSStop_ne handleStartTLS cmd)
      · rintro ⟨c, e, q, h, h2⟩
        simp only [Prod.mk.injEq] at h
        obtain ⟨⟨_, he⟩, hq⟩ := h
        subst he hq
        rw [hS] at h2
        simp at h2
    | some cause =>
      simp only [Option.some.injEq]
      constructor
      · intro h
        exact ⟨cmd, err, p1, rfl, by rw [hS, h]⟩
      · rintro ⟨c, e, q, h, h2⟩
        simp only [Prod.mk.injEq] at h
        obtain ⟨⟨_, he⟩, hq⟩ := h
        subst he hq
        rw [hS] at h2
        simpa using h2

/-- Whenever a cause is given, the turn of the reader ends in `return`. -/
theorem readerTurn_stop_of_cause {α : Type} (fuel : Nat)
    (handleStartTLS : List Nat → Option Err) (p : command.Parser α) (cmd : command.Command α)
    (err : Option Err) (p1 : command.Parser α)
    (hP : p.Parse fuel = some ((cmd, err), p1))
    (h : errorStop p p1 err = some StopCause.tlsHandshake) :
    readerTurn fuel handleStartTLS p = some (ReaderStep.stop, p1) := by
  obtain ⟨e, parserError, he, hA, hE, hT⟩ := (errorStop_tls p p1 err).mp h
  subst he
  have hC := ConsumeInvalidInput_ok p1
  cases hX : ConsumeInvalidInput p1 with
  | mk c p2 =>
    rw [hX] at hC hT
    simp only at hC hT
    subst hC
    unfold readerTurn
    simp only [hP, hA, hE, hX]
    have hT1 : tlsHeaders.any (fun tlsHeader => tlsHeader.isPrefixOf
        (List.take (p.parser.scanner.source.length - p2.parser.scanner.source.length)
          p.parser.scanner.source)) = true := hT
    simp only [hT1]
    rfl

end session

namespace session
open rfcparser command

/-- C28 (counterexample): after a first line that failed, the bytes `16 00 00`
make the reader stop at the TLS check, though they do not start with `16 03`;
and on a new connection the bytes `16 03 01` fail to parse but the reader
leaves the loop at the end-of-input check, before the TLS check. -/
theorem C28_other_prefixes_and_other_exits :
    (afterFailedLine [0x16, 0x00, 0x00, 0x0a]).parser.scanner.source = [0x16, 0x00, 0x00, 0x0a] ∧
    readerTurnStop 8 (fun _ => none) (afterFailedLine [0x16, 0x00, 0x00, 0x0a])
      = some (some StopCause.tlsHandshake) ∧
    (readerTurn 8 (fun _ => none) (afterFailedLine [0x16, 0x00, 0x00, 0x0a])).map (fun r => r.1)
      = some ReaderStep.stop ∧
    ((NewParser (α := Nat) (NewScanner [0x16, 0x03, 0x01, 0x0a])
        (fun _ _ q => some (.ok (Payload.Built 0), q))).Parse 8).map (fun r => r.1.2)
      = some (some (Err.parser ⟨.EOF, 0, 0⟩ "Invalid tag char detected")) ∧
    readerTurnStop 8 (fun _ => none)
        (NewParser (α := Nat) (NewScanner [0x16, 0x03, 0x01, 0x0a])
          (fun _ _ q => some (.ok (Payload.Built 0), q)))
      = some (some StopCause.endOfInput) := by
  refine ⟨rfl, rfl, rfl, rfl, rfl⟩

/-- C28 (amended): a turn of the command reader ends at the TLS check, and so
in `return` with nothing published, exactly when `Parse` failed with a parser
error whose token is not the end-of-input token and the bytes collected for
the line, after the rest of the line was dropped, start with `16 03 0X` for
`X` from 1 to 4 or with `16 00 00`. -/
theorem C28_tls_handshake_detection {α : Type} (fuel : Nat)
    (handleStartTLS : List Nat → Option Err) (p : command.Parser α) :
    (readerTurnStop fuel handleStartTLS p = some (some StopCause.tlsHandshake) ↔
      ∃ cmd e parserError p1,
        p.Parse fuel = some ((cmd, some e), p1) ∧ e.asParserError = some parserError ∧
        Err.IsEOF parserError = false ∧
        ((∃ X rest, bytesRead p (ConsumeInvalidInput p1).2 = 0x16 :: 0x03 :: X :: rest ∧
            1 ≤ X ∧ X ≤ 4) ∨
          (∃ rest, bytesRead p (ConsumeInvalidInput p1).2 = 0x16 :: 0x00 :: 0x00 :: rest))) ∧
    (readerTurnStop fuel handleStartTLS p = some (some StopCause.tlsHandshake) →
      ∃ q, readerTurn fuel handleStartTLS p = some (ReaderStep.stop, q)) := by
  constructor
  · rw [readerTurnStop_tls]
    constructor
    · rintro ⟨cmd, err, p1, hP, h⟩
      obtain ⟨e, parserError, he, hA, hE, hT⟩ := (errorStop_tls p p1 err).mp h
      subst he
      exact ⟨cmd, e, parserError, p1, hP, hA, hE, (tlsHeaders_any_iff _).mp hT⟩
    · rintro ⟨cmd, e, parserError, p1, hP, hA, hE, hT⟩
      exact ⟨cmd, some e, p1, hP,
        (errorStop_tls p p1 (some e)).mpr ⟨e, parserError, rfl, hA, hE,
          (tlsHeaders_any_iff _).mpr hT⟩⟩
  · intro h
    obtain ⟨cmd, err, p1, hP, h1⟩ := (readerTurnStop_tls fuel handleStartTLS p).mp h
    exact ⟨p1, readerTurn_stop_of_cause fuel handleStartTLS p cmd err p1 hP h1⟩

/-- C28 (witness): after a first line that failed, the lines that start with
`16 03 01` and with `16 00 00`. -/
theorem C28_tls_handshake_detection_witness :
    readerTurnStop 8 (fun _ => none) (afterFailedLine [0x16, 0x03, 0x01, 0x0a])
      = some (some StopCause.tlsHandshake) ∧
    (∃ q, readerTurn 8 (fun _ => none) (afterFailedLine [0x16, 0x03, 0x01, 0x0a])
      = some (ReaderStep.stop, q)) ∧
    (∃ q, readerTurn 8 (fun _ => none) (afterFailedLine [0x16, 0x00, 0x00, 0x0a])
      = some (ReaderStep.stop, q)) :=
  ⟨rfl,
   (C28_tls_handshake_detection 8 (fun _ => none)
      (afterFailedLine [0x16, 0x03, 0x01, 0x0a])).2 rfl,
   (C28_tls_handshake_detection 8 (fun _ => none)
      (afterFailedLine [0x16, 0x00, 0x00, 0x0a])).2 rfl⟩

end session

namespace session
open rfcparser

/-- C29: on a read-only mailbox `handleExpunge` and `handleUIDExpunge` return
`ErrReadOnly` and leave the state as it was: no call of `Expunge`, no call of
`flush`, nothing sent, no tagged `OK`. On a read-write mailbox, when neither
call fails, they call `Expunge`, then `flush` with expunge responses permitted,
and return the tagged `OK`; the responses of the flush are sent before it.
`handleUIDExpunge` does so in UID mode with the sequence set of the command. -/
theorem C29_expunge_on_read_only_mailbox {M : Type} (ops : MailboxOps M) (tag : List Nat)
    (seqSet : List (Nat × Nat)) (st : HandlerState M) :
    (ops.ReadOnly st.mailbox = true →
      handleExpunge ops tag st = (.error HandlerError.ErrReadOnly, st) ∧
      handleUIDExpunge ops tag seqSet st = (.error HandlerError.ErrReadOnly, st)) ∧
    (ops.ReadOnly st.mailbox = false →
      (∀ m1 m2 sent, ops.Expunge false none st.mailbox = (none, m1) →
        ops.flush false m1 true = (none, m2, sent) →
        handleExpunge ops tag st
          = (.ok (Response.Ok tag "EXPUNGE"),
             { mailbox := m2, ch := st.ch ++ sent,
               calls := st.calls ++ [Call.Expunge false none, Call.flush false true] })) ∧
      (∀ m1 m2 sent, ops.Expunge true (some seqSet) st.mailbox = (none, m1) →
        ops.flush true m1 true = (none, m2, sent) →
        handleUIDExpunge ops tag seqSet st
          = (.ok (Response.Ok tag "EXPUNGE"),
             { mailbox := m2, ch := st.ch ++ sent,
               calls := st.calls ++ [Call.Expunge true (some seqSet),
                                     Call.flush true true] }))) := by
  constructor
  · intro h
    constructor
    · unfold handleExpunge
      rw [if_pos h]
    · unfold handleUIDExpunge
      rw [if_pos h]
  · intro h
    have hn : ¬ (ops.ReadOnly st.mailbox = true) := by simp [h]
    constructor
    · intro m1 m2 sent h1 h2
      unfold handleExpunge
      rw [if_neg hn]
      simp only [h1, h2]
    · intro m1 m2 sent h1 h2
      unfold handleUIDExpunge
      rw [if_neg hn]
      simp only [h1, h2]

/-- C29 (witness): the mailbox with the UIDs 1 to 5, opened read-only and
opened read-write. -/
theorem C29_expunge_on_read_only_mailbox_witness :
    (handleExpunge mailboxOps (bytes "a") ⟨exampleMailbox true, [], []⟩
        = (.error HandlerError.ErrReadOnly, ⟨exampleMailbox true, [], []⟩) ∧
      handleUIDExpunge mailboxOps (bytes "a") [(4, 9)] ⟨exampleMailbox true, [], []⟩
        = (.error HandlerError.ErrReadOnly, ⟨exampleMailbox true, [], []⟩)) ∧
    handleExpunge mailboxOps (bytes "a") ⟨exampleMailbox false, [], []⟩
      = (.ok (Response.Ok (bytes "a") "EXPUNGE"),
         { mailbox := (flush ((exampleMailbox false).Expunge none) true).1,
           ch := [] ++ [Response.Expunge 4, Response.Expunge 2],
           calls := [] ++ [Call.Expunge false none, Call.flush false true] }) :=
  ⟨(C29_expunge_on_read_only_mailbox mailboxOps (bytes "a") [(4, 9)]
      ⟨exampleMailbox true, [], []⟩).1 rfl,
   ((C29_expunge_on_read_only_mailbox mailboxOps (bytes "a") [(4, 9)]
      ⟨exampleMailbox false, [], []⟩).2 rfl).1 ((exampleMailbox false).Expunge none)
      (flush ((exampleMailbox false).Expunge none) true).1
      [Response.Expunge 4, Response.Expunge 2] rfl (by decide)⟩

theorem foldl_expunge_pending (seqs : List Nat) (m : Mailbox) :
    (seqs.foldl Mailbox.expunge m).pendingExpunge = m.pendingExpunge ++ seqs := by
  induction seqs generalizing m with
  | nil => simp
  | cons s rest ih =>
    rw [List.foldl_cons, ih]
    simp [Mailbox.expunge]

/-- The sequence numbers that `Expunge` removes are listed in strictly
descending order. -/
theorem toExpunge_descending (m : Mailbox) (seqSet : Option (List (Nat × Nat))) :
    (m.toExpunge seqSet).Pairwise (fun a b => b < a) := by
  unfold Mailbox.toExpunge
  rw [List.pairwise_map, List.pairwise_reverse]
  apply List.Pairwise.filter
  exact (List.pairwise_lt_range _).imp (fun h => by omega)

theorem mem_toExpunge (m : Mailbox) (seqSet : Option (List (Nat × Nat))) (seq : Nat) :
    seq ∈ m.toExpunge seqSet ↔
      1 ≤ seq ∧ ∃ row, m.snap[seq - 1]? = some row ∧ toBeExpunged seqSet row = true := by
  unfold Mailbox.toExpunge
  simp only [List.mem_map, List.mem_reverse, List.mem_filter, List.mem_range]
  constructor
  · rintro ⟨i, ⟨hi, hrow⟩, rfl⟩
    refine ⟨by omega, ?_⟩
    simp only [Nat.add_sub_cancel]
    cases hr : m.snap[i]? with
    | none => rw [hr] at hrow; simp at hrow
    | some row => rw [hr] at hrow; exact ⟨row, rfl, by simpa using hrow⟩
  · rintro ⟨h1, row, hrow, hdel⟩
    refine ⟨seq - 1, ⟨?_, ?_⟩, by omega⟩
    · have := List.getElem?_eq_some_iff.mp hrow
      obtain ⟨hlt, _⟩ := this
      exact hlt
    · rw [hrow]
      simpa using hdel

end session

namespace session
open rfcparser

theorem foldl_expunge_readOnly (seqs : List Nat) (m : Mailbox) :
    (seqs.foldl Mailbox.expunge m).readOnly = m.readOnly := by
  induction seqs generalizing m with
  | nil => rfl
  | cons s rest ih =>
    rw [List.foldl_cons, ih]
    rfl

theorem foldl_expunge_snap (seqs : List Nat) (m : Mailbox) :
    (seqs.foldl Mailbox.expunge m).snap
      = seqs.foldl (fun rows seq => rows.eraseIdx (seq - 1)) m.snap := by
  induction seqs generalizing m with
  | nil => rfl
  | cons s rest ih =>
    rw [List.foldl_cons, List.foldl_cons, ih]
    rfl

/-- Removing the rows at the marked positions, from the last to the first,
leaves the rows that are not marked. -/
theorem erase_marked (pred : state.snapMsg → Bool) (rows : List state.snapMsg) :
    ((List.range rows.length).filter (fun i => (rows[i]?).any pred)).foldr
        (fun i acc => acc.eraseIdx i) rows
      = rows.filter (fun row => !pred row) := by
  induction rows with
  | nil => rfl
  | cons a t ih =>
    have hshift : ∀ (is : List Nat) (acc : List state.snapMsg),
        (is.map Nat.succ).foldr (fun i acc => acc.eraseIdx i) (a :: acc)
          = a :: is.foldr (fun i acc => acc.eraseIdx i) acc := by
      intro is acc
      induction is with
      | nil => rfl
      | cons i rest ih2 =>
        rw [List.map_cons, List.foldr_cons, ih2, List.foldr_cons]
        rfl
    rw [List.length_cons, List.range_succ_eq_map, List.filter_cons, List.filter_map]
    have hf : (List.range t.length).filter
          ((fun i => ((a :: t)[i]?).any pred) ∘ Nat.succ)
        = (List.range t.length).filter (fun i => (t[i]?).any pred) := by
      apply List.filter_congr
      intro i _
      simp
    rw [hf]
    by_cases hp : pred a = true
    · have h0 : ((a :: t)[0]?).any pred = true := by simpa using hp
      rw [if_pos h0, List.foldr_cons, hshift, ih]
      simp [hp]
    · have h0 : ¬ (((a :: t)[0]?).any pred = true) := by simpa using hp
      rw [if_neg h0, hshift, ih]
      simp [hp]

/-- `Expunge` leaves in the snapshot the rows that are not to be expunged, in
their order, and adds the removed sequence numbers to the queue. -/
theorem Expunge_eq (m : Mailbox) (seqSet : Option (List (Nat × Nat))) :
    m.Expunge seqSet
      = { readOnly := m.readOnly,
          snap := m.snap.filter (fun row => !toBeExpunged seqSet row),
          pendingExpunge := m.pendingExpunge ++ m.toExpunge seqSet } := by
  have h1 : (m.Expunge seqSet).pendingExpunge = m.pendingExpunge ++ m.toExpunge seqSet :=
    foldl_expunge_pending _ m
  have h2 : (m.Expunge seqSet).snap = m.snap.filter (fun row => !toBeExpunged seqSet row) := by
    unfold Mailbox.Expunge
    rw [foldl_expunge_snap, ← erase_marked (toBeExpunged seqSet) m.snap]
    unfold Mailbox.toExpunge
    rw [List.foldl_map, List.foldl_reverse]
    rfl
  have h3 : (m.Expunge seqSet).readOnly = m.readOnly := foldl_expunge_readOnly _ m
  cases hm : m.Expunge seqSet with
  | mk r s q =>
    rw [hm] at h1 h2 h3
    simp only at h1 h2 h3
    rw [h1, h2, h3]

/-- What a client holds after it has applied the `EXPUNGE` responses in their
order to its copy of the sequence of messages. -/
theorem replay_descending (m : Mailbox) (seqSet : Option (List (Nat × Nat))) :
    (m.toExpunge seqSet).foldl (fun rows seq => rows.eraseIdx (seq - 1)) m.snap
      = (m.Expunge seqSet).snap := (foldl_expunge_snap _ m).symm

end session

namespace session
open rfcparser

/-- C30: for one EXPUNGE command on a read-write mailbox with an empty
pending-expunge queue, the session writes one untagged `EXPUNGE` for each row
marked `\Deleted`, in strictly descending order of the sequence numbers, and
then the tagged `OK`, which is the last line. A client that applies the
responses in their order to its copy of the mailbox is left with the rows of
the new snapshot, the rows that were not marked. -/
theorem C30_expunge_responses_descend (tag : List Nat) (m : Mailbox)
    (hrw : m.readOnly = false) (hq : m.pendingExpunge = []) :
    ∃ seqs : List Nat,
      commandOutput tag (handleExpunge mailboxOps tag ⟨m, [], []⟩)
        = seqs.map Response.Expunge ++ [Response.Ok tag "EXPUNGE"] ∧
      seqs.Pairwise (fun a b => b < a) ∧
      (∀ seq, seq ∈ seqs ↔ 1 ≤ seq ∧ ∃ row, m.snap[seq - 1]? = some row ∧
        state.ContainsUnchecked row.flags state.FlagDeletedLowerCase = true) ∧
      (commandOutput tag (handleExpunge mailboxOps tag ⟨m, [], []⟩)).getLast?
        = some (Response.Ok tag "EXPUNGE") ∧
      seqs.foldl (fun rows seq => rows.eraseIdx (seq - 1)) m.snap
        = (handleExpunge mailboxOps tag ⟨m, [], []⟩).2.mailbox.snap ∧
      (handleExpunge mailboxOps tag ⟨m, [], []⟩).2.mailbox.snap
        = m.snap.filter (fun row =>
            !state.ContainsUnchecked row.flags state.FlagDeletedLowerCase) := by
  have hdesc := toExpunge_descending m none
  have hsorted : (m.toExpunge none).Sorted (fun a b => b ≤ a) :=
    hdesc.imp (fun h => Nat.le_of_lt h)
  have hE := Expunge_eq m none
  have hrun : handleExpunge mailboxOps tag ⟨m, [], []⟩
      = (.ok (Response.Ok tag "EXPUNGE"),
         { mailbox := { m.Expunge none with pendingExpunge := [] },
           ch := (m.toExpunge none).map Response.Expunge,
           calls := [Call.Expunge false none, Call.flush false true] }) := by
    have hn : ¬ (mailboxOps.ReadOnly m = true) := by
      show ¬ (m.readOnly = true)
      simp [hrw]
    unfold handleExpunge
    rw [if_neg hn]
    show (Except.ok (Response.Ok tag "EXPUNGE"),
        ({ mailbox := (flush (m.Expunge none) true).1,
           ch := [] ++ (flush (m.Expunge none) true).2,
           calls := [] ++ [Call.Expunge false none, Call.flush false true] } :
          HandlerState Mailbox)) = _
    have hf : flush (m.Expunge none) true
        = ({ m.Expunge none with pendingExpunge := [] },
           (m.toExpunge none).map Response.Expunge) := by
      unfold flush
      rw [if_pos rfl]
      have hp : (m.Expunge none).pendingExpunge = m.toExpunge none := by
        rw [hE, hq]
        rfl
      rw [hp, hsorted.insertionSort_eq]
    rw [hf]
    rfl
  have hfilter : (fun row : state.snapMsg => !toBeExpunged none row)
      = (fun row => !state.ContainsUnchecked row.flags state.FlagDeletedLowerCase) := by
    funext row
    simp [toBeExpunged]
  refine ⟨m.toExpunge none, ?_, hdesc, ?_, ?_, ?_, ?_⟩
  · rw [hrun]
    rfl
  · intro seq
    rw [mem_toExpunge]
    simp [toBeExpunged]
  · rw [hrun]
    show ((m.toExpunge none).map Response.Expunge ++ [Response.Ok tag "EXPUNGE"]).getLast? = _
    simp
  · rw [hrun, replay_descending]
  · rw [hrun]
    show (m.Expunge none).snap = _
    rw [hE, hfilter]

/-- C30 (witness): the UIDs 1 to 5 with the messages 2 and 4 marked `\Deleted`:
the output is `* 4 EXPUNGE`, `* 2 EXPUNGE` and the tagged `OK`, and the
messages 1, 3 and 5 are left. -/
theorem C30_expunge_responses_descend_witness :
    commandOutput (bytes "a") (handleExpunge mailboxOps (bytes "a") ⟨exampleMailbox false, [], []⟩)
      = [Response.Expunge 4, Response.Expunge 2, Response.Ok (bytes "a") "EXPUNGE"] ∧
    (handleExpunge mailboxOps (bytes "a") ⟨exampleMailbox false, [], []⟩).2.mailbox.snap.map
        (fun row => row.UID) = [1, 3, 5] ∧
    ∃ seqs : List Nat,
      commandOutput (bytes "a")
          (handleExpunge mailboxOps (bytes "a") ⟨exampleMailbox false, [], []⟩)
        = seqs.map Response.Expunge ++ [Response.Ok (bytes "a") "EXPUNGE"] ∧
      seqs.Pairwise (fun a b => b < a) :=
  ⟨by decide, by decide,
    (C30_expunge_responses_descend (bytes "a") (exampleMailbox false) rfl rfl).imp
      (fun _ h => ⟨h.1, h.2.1⟩)⟩

end session

/-! ## Character classes, strings and numbers of the parser -/

namespace rfcparser

/-- C31 (the code on `'{'`): `IsAtomChar` is false for `(`, `)`, SP, CTL, CR, LF,
TAB, `"`, `\` and `]`, but it is true for the token type of `'{'`, which the
comment of the function lists among the atom-specials; the `switch` names the
token type of `'['` instead. `IsAStringChar` is true exactly on the token types
on which `IsAtomChar` is true and on `']'`, so `'{'` is an `ASTRING-CHAR` for
the code as well. -/
theorem C31_left_curly_is_an_atom_char :
    IsAtomChar .LCurly = true ∧ classify 0x7b = .LCurly ∧ IsAStringChar .LCurly = true ∧
    IsAtomChar .LBracket = false ∧
    (∀ t ∈ [TokenType.LParen, .RParen, .SP, .CTL, .CR, .LF, .Tab, .DQuote, .Backslash,
        .RBracket], IsAtomChar t = false) ∧
    (∀ t, IsAStringChar t = true ↔ (IsAtomChar t = true ∨ t = .RBracket)) := by
  refine ⟨by decide, by decide, by decide, by decide, by decide, ?_⟩
  intro t
  cases t <;> decide

end rfcparser

namespace rfcparser

theorem lastToken_append (a b : List Nat) :
    ∀ (prev : Token) (o : Nat),
      lastToken prev (a ++ b) o = lastToken (lastToken prev a o) b (o + a.length) := by
  induction a with
  | nil => intro prev o; rfl
  | cons x a ih =>
    intro prev o
    show lastToken ⟨classify x, x, o⟩ (a ++ b) (o + 1) = _
    rw [ih]
    simp only [lastToken, List.length_cons]
    congr 1
    omega

theorem scanTrace_append (a b rest : List Nat) :
    ∀ (o : Nat),
      scanTrace (a ++ b) rest o = scanTrace a (b ++ rest) o ++ scanTrace b rest (o + a.length) := by
  induction a with
  | nil => intro o; rfl
  | cons x a ih =>
    intro o
    show Event.scan (tokenAt (a ++ b ++ rest) (o + 1)) :: scanTrace (a ++ b) rest (o + 1) = _
    rw [ih]
    have : o + 1 + a.length = o + (a.length + 1) := by omega
    simp only [scanTrace, List.length_cons, List.append_assoc, List.cons_append, this]

/-- One step of the loop of `ParseQuoted` on a plain byte. -/
theorem ParseQuoted_loop_plain (fuel : Nat) (quoted : List Nat)
    (cb : Option (String → Option Err)) (prev : Token) (b : Nat) (rest : List Nat) (o : Nat)
    (tr : List Event) (h : IsQuotedChar (classify b) = true) :
    Parser.ParseQuoted.loop (fuel + 1) quoted (Parser.atInput cb prev (b :: rest) o tr)
      = Parser.ParseQuoted.loop fuel (quoted ++ [b])
          (Parser.atInput cb ⟨classify b, b, o⟩ rest (o + 1)
            (tr ++ [Event.scan (tokenAt rest (o + 1))])) := by
  rw [Parser.ParseQuoted.loop, MatchesWith_hit _ cb prev b rest o tr h]
  rfl

/-- One step of the loop of `ParseQuoted` on a backslash and a quoted-special. -/
theorem ParseQuoted_loop_escaped (fuel : Nat) (quoted : List Nat)
    (cb : Option (String → Option Err)) (prev : Token) (b : Nat) (rest : List Nat) (o : Nat)
    (tr : List Event) (h : IsQuotedSpecial (classify b) = true) :
    Parser.ParseQuoted.loop (fuel + 1) quoted
        (Parser.atInput cb prev (0x5c :: b :: rest) o tr)
      = Parser.ParseQuoted.loop fuel (quoted ++ [b])
          (Parser.atInput cb ⟨classify b, b, o + 1⟩ rest (o + 2)
            (tr ++ [Event.scan (tokenAt (b :: rest) (o + 1))]
              ++ [Event.scan (tokenAt rest (o + 2))])) := by
  rw [Parser.ParseQuoted.loop,
    MatchesWith_miss _ cb prev (0x5c :: b :: rest) o tr (stopsAt_cons _ _ _ (by decide))]
  simp only []
  rw [Matches_eq_MatchesWith,
    MatchesWith_hit _ cb prev 0x5c (b :: rest) o tr (by decide)]
  simp only []
  rw [ConsumeWith_hit _ _ cb _ b rest (o + 1) _ h]
  rfl

/-- The loop of `ParseQuoted` over a sequence of well-formed items: it takes one
turn for each item and appends the byte the item stands for. -/
theorem ParseQuoted_loop_items (rest : List Nat) :
    ∀ (items : List QuotedItem) (fuel : Nat) (quoted : List Nat)
      (cb : Option (String → Option Err)) (prev : Token) (o : Nat) (tr : List Event),
      (∀ item ∈ items, item.wellFormed = true) →
      Parser.ParseQuoted.loop (fuel + items.length) quoted
          (Parser.atInput cb prev (quotedBytes items ++ rest) o tr)
        = Parser.ParseQuoted.loop fuel (quoted ++ items.map QuotedItem.value)
            (Parser.atInput cb (lastToken prev (quotedBytes items) o) rest
              (o + (quotedBytes items).length) (tr ++ scanTrace (quotedBytes items) rest o)) := by
  intro items
  induction items with
  | nil =>
    intro fuel quoted cb prev o tr _
    simp [quotedBytes, lastToken, scanTrace]
  | cons item items ih =>
    intro fuel quoted cb prev o tr hw
    have hw0 := hw item (by simp)
    have hws : ∀ x ∈ items, x.wellFormed = true := fun x hx => hw x (by simp [hx])
    have hlen : fuel + (item :: items).length = (fuel + items.length) + 1 := by
      simp only [List.length_cons]
      omega
    rw [hlen]
    cases item with
    | plain b =>
      have hq : IsQuotedChar (classify b) = true := hw0
      show Parser.ParseQuoted.loop (fuel + items.length + 1) quoted
        (Parser.atInput cb prev (b :: (quotedBytes items ++ rest)) o tr) = _
      rw [ParseQuoted_loop_plain _ _ cb prev b _ o tr hq, ih fuel _ cb _ (o + 1) _ hws]
      congr 1
      · simp [QuotedItem.value]
      · simp only [quotedBytes, QuotedItem.written, List.cons_append, List.nil_append,
          lastToken, scanTrace, List.length_cons, List.append_assoc, List.singleton_append]
        congr 1
        omega
    | escaped b =>
      have hq : IsQuotedSpecial (classify b) = true := hw0
      show Parser.ParseQuoted.loop (fuel + items.length + 1) quoted
        (Parser.atInput cb prev (0x5c :: b :: (quotedBytes items ++ rest)) o tr) = _
      rw [ParseQuoted_loop_escaped _ _ cb prev b _ o tr hq, ih fuel _ cb _ (o + 2) _ hws]
      congr 1
      · simp [QuotedItem.value]
      · simp only [quotedBytes, QuotedItem.written, List.cons_append, List.nil_append,
          lastToken, scanTrace, List.length_cons, List.append_assoc, List.singleton_append]
        congr 1
        omega

end rfcparser

namespace rfcparser

/-- C34: for every quoted string made of well-formed items (a byte other than
`"` and `\`, or a backslash followed by `"` or `\`), `ParseQuoted` with enough
fuel returns the bytes that the items stand for, in order, each escape pair
replaced by its second byte, with the offset of the first token after the
opening quote; afterwards the current token is the token that follows the
closing quote. When the items are followed by a backslash and then by
anything but `"` or `\` (the end of the input included), it fails with the
parser error of the escape. -/
theorem C34_quoted_value (items : List QuotedItem) (rest : List Nat) (fuel : Nat)
    (cb : Option (String → Option Err)) (prev : Token) (o : Nat) (tr : List Event)
    (hw : ∀ item ∈ items, item.wellFormed = true) (hf : items.length < fuel) :
    (Parser.atInput cb prev (0x22 :: (quotedBytes items ++ 0x22 :: rest)) o tr).ParseQuoted fuel
      = some (.ok (items.map QuotedItem.value, o + 1),
          Parser.atInput cb ⟨.DQuote, 0x22, o + 1 + (quotedBytes items).length⟩ rest
            (o + 1 + (quotedBytes items).length + 1)
            (tr ++ [Event.scan (tokenAt (quotedBytes items ++ 0x22 :: rest) (o + 1))]
              ++ scanTrace (quotedBytes items) (0x22 :: rest) (o + 1)
              ++ [Event.scan (tokenAt rest (o + 1 + (quotedBytes items).length + 1))])) ∧
    ∀ tail, stopsAt IsQuotedSpecial tail →
      ∃ p', (Parser.atInput cb prev (0x22 :: (quotedBytes items ++ 0x5c :: tail)) o
          tr).ParseQuoted fuel
        = some (.error (Err.parser ⟨.Backslash, 0x5c, o + 1 + (quotedBytes items).length⟩
            "Expected \x27\x5c\x27 or \x27\x22\x27 after \x27\x5c\x27 in quoted"), p') := by
  obtain ⟨k, rfl⟩ : ∃ k, fuel = (k + 1) + items.length := ⟨fuel - items.length - 1, by omega⟩
  constructor
  · unfold Parser.ParseQuoted
    rw [Consume_hit _ _ cb prev 0x22 _ o tr (by decide)]
    simp only []
    rw [ParseQuoted_loop_items (0x22 :: rest) items (k + 1) [] cb _ (o + 1) _ hw]
    rw [Parser.ParseQuoted.loop,
      MatchesWith_miss _ cb _ (0x22 :: rest) _ _ (stopsAt_cons _ _ _ (by decide))]
    simp only []
    rw [Matches_eq_MatchesWith,
      MatchesWith_miss _ cb _ (0x22 :: rest) _ _ (stopsAt_cons _ _ _ (by decide))]
    simp only []
    rw [Consume_hit _ _ cb _ 0x22 rest _ _ (by decide)]
    have hoff : ∀ (input : List Nat) (o : Nat), (tokenAt input o).Offset = o := by
      intro input o
      cases input <;> rfl
    have hc : classify 0x22 = .DQuote := by decide
    simp only [Parser.atInput, hoff, hc, List.nil_append]
  · intro tail htail
    unfold Parser.ParseQuoted
    rw [Consume_hit _ _ cb prev 0x22 _ o tr (by decide)]
    simp only []
    rw [ParseQuoted_loop_items (0x5c :: tail) items (k + 1) [] cb _ (o + 1) _ hw]
    rw [Parser.ParseQuoted.loop,
      MatchesWith_miss _ cb _ (0x5c :: tail) _ _ (stopsAt_cons _ _ _ (by decide))]
    simp only []
    rw [Matches_eq_MatchesWith, MatchesWith_hit _ cb _ 0x5c tail _ _ (by decide)]
    simp only []
    rw [ConsumeWith_miss _ _ cb _ tail _ _ htail]
    exact ⟨_, rfl⟩

/-- C34 (witness): the quoted strings of `TestParser_LoginCommandQuoted`, `"foo"`,
a string with the two escape pairs, and a backslash followed by `a`. -/
theorem C34_quoted_value_witness :
    ((startParser (bytes "\x22foo\x22 \x22bar\x22\r\n") none).ParseQuoted 4).map
        (fun r => (r.1, r.2.currentToken))
      = some (.ok (bytes "foo", 1), ⟨.SP, 0x20, 5⟩) ∧
    ((Parser.atInput none ⟨.EOF, 0, 0⟩
        (0x22 :: (quotedBytes [.plain 0x61, .escaped 0x22, .escaped 0x5c, .plain 0x62]
          ++ 0x22 :: [0x0d])) 0 []).ParseQuoted 8).map (fun r => r.1)
      = some (.ok ([0x61, 0x22, 0x5c, 0x62], 1)) ∧
    ∃ p', (Parser.atInput none ⟨.EOF, 0, 0⟩
        (0x22 :: (quotedBytes [.plain 0x61] ++ 0x5c :: [0x61, 0x22])) 0 []).ParseQuoted 8
      = some (.error (Err.parser ⟨.Backslash, 0x5c, 0 + 1 + (quotedBytes [.plain 0x61]).length⟩
          "Expected \x27\x5c\x27 or \x27\x22\x27 after \x27\x5c\x27 in quoted"), p') :=
  ⟨rfl,
   congrArg (Option.map (fun r => r.1))
     (C34_quoted_value [.plain 0x61, .escaped 0x22, .escaped 0x5c, .plain 0x62] [0x0d] 8 none
       ⟨.EOF, 0, 0⟩ 0 [] (by decide) (by decide)).1,
   (C34_quoted_value [.plain 0x61] [] 8 none ⟨.EOF, 0, 0⟩ 0 [] (by decide) (by decide)).2
     [0x61, 0x22] (by decide)⟩

end rfcparser

namespace rfcparser

/-- At the end of the input the loop of `ParseQuoted` takes the `EOF` token for
a quoted character, again and again: no amount of fuel lets it return. -/
theorem ParseQuoted_loop_at_end :
    ∀ (fuel : Nat) (quoted : List Nat) (p : Parser),
      p.currentToken.TType = .EOF → p.scanner.source = [] →
      Parser.ParseQuoted.loop fuel quoted p = none := by
  intro fuel
  induction fuel with
  | zero => intro quoted p _ _; rfl
  | succ k ih =>
    intro quoted p hc hs
    have hm : p.MatchesWith IsQuotedChar
        = (.ok true, { p with scanner := { p.scanner with lookahead := none },
                              previousToken := p.currentToken,
                              currentToken := ⟨.EOF, 0, p.scanner.currentOffset⟩,
                              trace := p.trace ++ [.scan ⟨.EOF, 0, p.scanner.currentOffset⟩] }) := by
      simp [Parser.MatchesWith, Parser.CheckWith, hc, IsQuotedChar, IsQuotedSpecial,
        Parser.Advance, Scanner.ScanToken, hs]
    rw [Parser.ParseQuoted.loop, hm]
    exact ih _ _ rfl hs

/-- With no more fuel than there are items the loop of `ParseQuoted` does not
get through them. -/
theorem ParseQuoted_loop_short (rest : List Nat) :
    ∀ (items : List QuotedItem) (fuel : Nat) (quoted : List Nat)
      (cb : Option (String → Option Err)) (prev : Token) (o : Nat) (tr : List Event),
      (∀ item ∈ items, item.wellFormed = true) → fuel ≤ items.length →
      Parser.ParseQuoted.loop fuel quoted
          (Parser.atInput cb prev (quotedBytes items ++ rest) o tr) = none := by
  intro items
  induction items with
  | nil =>
    intro fuel quoted cb prev o tr _ hf
    have : fuel = 0 := by simpa using hf
    subst this
    rfl
  | cons item items ih =>
    intro fuel quoted cb prev o tr hw hf
    cases fuel with
    | zero => rfl
    | succ k =>
      have hw0 := hw item (by simp)
      have hws : ∀ x ∈ items, x.wellFormed = true := fun x hx => hw x (by simp [hx])
      have hk : k ≤ items.length := by simpa using hf
      cases item with
      | plain b =>
        have hq : IsQuotedChar (classify b) = true := hw0
        show Parser.ParseQuoted.loop (k + 1) quoted
          (Parser.atInput cb prev (b :: (quotedBytes items ++ rest)) o tr) = _
        rw [ParseQuoted_loop_plain _ _ cb prev b _ o tr hq]
        exact ih k _ cb _ (o + 1) _ hws hk
      | escaped b =>
        have hq : IsQuotedSpecial (classify b) = true := hw0
        show Parser.ParseQuoted.loop (k + 1) quoted
          (Parser.atInput cb prev (0x5c :: b :: (quotedBytes items ++ rest)) o tr) = _
        rw [ParseQuoted_loop_escaped _ _ cb prev b _ o tr hq]
        exact ih k _ cb _ (o + 2) _ hws hk

/-- C40 (the code at the end of the input): for a quoted string that is opened
and made of well-formed items but never closed, `ParseQuoted` does not return,
whatever the fuel: `IsQuotedChar` is true of the `EOF` token, so each turn of
the loop takes the `EOF` token that the scanner yields at the end of the
input for one more quoted character. -/
theorem C40_unterminated_quoted_string_never_returns (items : List QuotedItem)
    (hw : ∀ item ∈ items, item.wellFormed = true) (fuel : Nat)
    (cb : Option (String → Option Err)) (prev : Token) (o : Nat) (tr : List Event) :
    IsQuotedChar .EOF = true ∧ IsAtomChar .EOF = false ∧
    (Parser.atInput cb prev (0x22 :: quotedBytes items) o tr).ParseQuoted fuel = none := by
  refine ⟨by decide, by decide, ?_⟩
  unfold Parser.ParseQuoted
  rw [Consume_hit _ _ cb prev 0x22 _ o tr (by decide)]
  simp only []
  have hnone : Parser.ParseQuoted.loop fuel []
      (Parser.atInput cb ⟨classify 0x22, 0x22, o⟩ (quotedBytes items) (o + 1)
        (tr ++ [Event.scan (tokenAt (quotedBytes items) (o + 1))])) = none := by
    by_cases hf : fuel ≤ items.length
    · have h2 := ParseQuoted_loop_short [] items fuel [] cb ⟨classify 0x22, 0x22, o⟩ (o + 1)
        (tr ++ [Event.scan (tokenAt (quotedBytes items) (o + 1))]) hw hf
      rw [List.append_nil] at h2
      exact h2
    · obtain ⟨k, rfl⟩ : ∃ k, fuel = k + items.length := ⟨fuel - items.length, by omega⟩
      have h2 := ParseQuoted_loop_items [] items k [] cb ⟨classify 0x22, 0x22, o⟩ (o + 1)
        (tr ++ [Event.scan (tokenAt (quotedBytes items) (o + 1))]) hw
      rw [List.append_nil] at h2
      rw [h2]
      exact ParseQuoted_loop_at_end _ _ _ rfl rfl
  rw [hnone]

/-- C40 (witness): the input `"ab` with fuel for a million turns. -/
theorem C40_unterminated_quoted_string_never_returns_witness :
    (startParser (bytes "\x22ab") none).ParseQuoted 1000000 = none :=
  (C40_unterminated_quoted_string_never_returns [.plain 0x61, .plain 0x62] (by decide) 1000000
    none ⟨.EOF, 0, 0⟩ 0 [Event.scan ⟨.DQuote, 0x22, 0⟩]).2.2

/-- C33 (the code on CR and LF): `IsQuotedChar` is true of every token type but
`"` and `\`, the types of CR, LF and the control characters included, so the
quoted string `"a` CR LF `b"` is accepted and its value holds the CR and the
LF, which are no `TEXT-CHAR`. -/
theorem C33_quoted_string_may_hold_cr_lf :
    IsQuotedChar .CR = true ∧ IsQuotedChar .LF = true ∧ IsQuotedChar .CTL = true ∧
    IsTextChar 0x0d = false ∧ IsTextChar 0x0a = false ∧
    ((startParser (bytes "\x22a\r\nb\x22 ") none).ParseQuoted 8).map (fun r => r.1)
      = some (.ok (bytes "a\r\nb", 1)) := by
  refine ⟨by decide, by decide, by decide, by decide, by decide, rfl⟩

/-- `ParseAString` on a token that is no `ASTRING-CHAR`, no quote and no `'{'`
succeeds with the empty value and takes nothing. -/
theorem ParseAString_empty (fuel : Nat) (cb : Option (String → Option Err)) (prev : Token)
    (input : List Nat) (o : Nat) (tr : List Event) (h : stopsAt IsAStringChar input)
    (hq : (tokenAt input 0).TType ≠ .DQuote) (hl : (tokenAt input 0).TType ≠ .LCurly) :
    (Parser.atInput cb prev input o tr).ParseAString (fuel + 1)
      = some (.ok ([], o), Parser.atInput cb prev input o tr) := by
  have hq1 : (Parser.atInput cb prev input o tr).Check .DQuote = false := by
    have ht := tokenAt_TType input o 0
    simp only [Parser.Check, Parser.atInput, ht]
    simpa using hq
  have hl1 : (Parser.atInput cb prev input o tr).Check .LCurly = false := by
    have ht := tokenAt_TType input o 0
    simp only [Parser.Check, Parser.atInput, ht]
    simpa using hl
  have hoff : (tokenAt input o).Offset = o := by cases input <;> rfl
  unfold Parser.ParseAString
  simp only [hq1, hl1, Bool.or_false, Bool.false_eq_true, if_false]
  unfold Parser.CollectBytesWhileMatchesWith
  rw [Parser.CollectBytesWhileMatchesWith.loop, MatchesWith_miss _ cb prev input o tr h]
  simp only [Parser.atInput, hoff]

/-- C32 (the code on a token that is no `ASTRING-CHAR`): at a space, at CR and
at the end of the input `ParseAString` succeeds with the empty value and
consumes nothing, although its comment gives the grammar
`1*ASTRING-CHAR / string`. -/
theorem C32_astring_may_be_empty :
    (startParser (bytes " x") none).ParseAString 4
      = some (.ok ([], 0), startParser (bytes " x") none) ∧
    (startParser (bytes "\r\n") none).ParseAString 4
      = some (.ok ([], 0), startParser (bytes "\r\n") none) ∧
    (startParser [] none).ParseAString 4 = some (.ok ([], 0), startParser [] none) ∧
    IsAStringChar .SP = false ∧ IsAStringChar .CR = false ∧ IsAStringChar .EOF = false := by
  refine ⟨rfl, rfl, rfl, by decide, by decide, by decide⟩

end rfcparser

namespace rfcparser

/-- C35 (the code on a run that is too short): `ParseNumberN(0)` fails and takes
nothing, `ParseNumberN(2)` on `123` returns 12 and leaves the `3`, and
`ParseNumberN(2)` on `x` fails; but `ParseNumberN(4)` on `12 x` returns 12
without error after two digits: the loop is left by `break` at the first
token that is not a digit. -/
theorem C35_fewer_digits_are_accepted :
    (startParser (bytes "123") none).ParseNumberN 0
      = (.error (.parser ⟨.EOF, 0, 0⟩ "requested ParserNumberN with 0 length number"),
         startParser (bytes "123") none) ∧
    (((startParser (bytes "123") none).ParseNumberN 2).1 = .ok 12 ∧
      ((startParser (bytes "123") none).ParseNumberN 2).2.currentToken = ⟨.Digit, 0x33, 2⟩) ∧
    ((startParser (bytes "x") none).ParseNumberN 2).1
      = .error (.parser ⟨.EOF, 0, 0⟩ "expected valid digit for number") ∧
    (((startParser (bytes "12 x") none).ParseNumberN 4).1 = .ok 12 ∧
      ((startParser (bytes "12 x") none).ParseNumberN 4).2.currentToken = ⟨.SP, 0x20, 2⟩ ∧
      ((startParser (bytes "12 x") none).ParseNumberN 4).2.scanner.source = bytes "x") := by
  refine ⟨by rfl, ⟨by decide, by decide⟩, by decide, by decide, by decide, by decide⟩

/-- C36 (counterexample): on the 19 digits `9223372036854775808`, the number
2^63, `ParseNumber` returns a negative number, the value wrapped into the
range of `int`. -/
theorem C36_long_number_wraps :
    decimalValue 0 (bytes "9223372036854775808") = 9223372036854775808 ∧
    ((startParser (bytes "9223372036854775808") none).ParseNumber 32).map (fun r => r.1)
      = some (.ok (-9223372036854775808)) := by
  constructor
  · decide
  · set_option maxRecDepth 100000 in decide

/-- C36 (amended): `ParseNumber` consumes the maximal run of digits that starts
at the current token and, when the number written is below 2^63, returns its
decimal value, leading zeros allowed, which is not negative; when the current
token is not a digit it fails with a parser error and consumes nothing. -/
theorem C36_number_value (d0 : Nat) (ds rest : List Nat) (fuel : Nat)
    (cb : Option (String → Option Err)) (prev : Token) (o : Nat) (tr : List Event)
    (hd : ∀ d ∈ d0 :: ds, 48 ≤ d ∧ d ≤ 57)
    (hstop : stopsAt (fun t => t = .Digit) rest)
    (hhi : decimalValue 0 (d0 :: ds) < 9223372036854775808)
    (hf : ds.length < fuel) :
    (Parser.atInput cb prev (d0 :: ds ++ rest) o tr).ParseNumber fuel
      = some (.ok (decimalValue 0 (d0 :: ds) : Int),
          Parser.atInput cb (lastToken prev (d0 :: ds) o) rest (o + (ds.length + 1))
            (tr ++ scanTrace (d0 :: ds) rest o)) ∧
    (0 : Int) ≤ (decimalValue 0 (d0 :: ds) : Int) ∧
    ∀ input, stopsAt (fun t => t = .Digit) input →
      (Parser.atInput cb prev input o tr).ParseNumber fuel
        = some (.error (.parser prev "expected valid digit for number"),
            Parser.atInput cb prev input o tr) := by
  have hd0 := hd d0 (by simp)
  have hds : ∀ x ∈ ds, 48 ≤ x ∧ x ≤ 57 := fun x hx => hd x (by simp [hx])
  have hb : ByteToInt d0 = ((d0 - 48 : Nat) : Int) := by
    unfold ByteToInt
    omega
  have hdv : decimalValue 0 (d0 :: ds) = decimalValue (d0 - 48) ds := by
    rw [decimalValue_cons]
    simp
  have hv : accDigits (ByteToInt d0) ds = (decimalValue 0 (d0 :: ds) : Int) := by
    rw [hb, hdv]
    rw [hdv] at hhi
    exact accDigits_eq_decimalValue ds _ hds hhi
  refine ⟨?_, Int.natCast_nonneg _, ?_⟩
  · rw [ParseNumber_run rest hstop d0 ds fuel cb prev o tr (classify_digit d0 hd0)
      (fun d h => classify_digit d (hds d h)) hf, hv]
  · intro input hin
    unfold Parser.ParseNumber
    rw [Consume_miss _ _ cb prev input o tr (by simpa [stopsAt] using hin)]

/-- C36 (witness): the number `007` followed by a space, and the input `x`. -/
theorem C36_number_value_witness :
    ((startParser (bytes "007 ") none).ParseNumber 8).map (fun r => (r.1, r.2.currentToken))
      = some (.ok 7, ⟨.SP, 0x20, 3⟩) ∧
    (Parser.atInput none ⟨.EOF, 0, 0⟩ (0x30 :: [0x30, 0x37] ++ [0x20]) 0 []).ParseNumber 8
      = some (.ok (decimalValue 0 (0x30 :: [0x30, 0x37]) : Int),
          Parser.atInput none (lastToken ⟨.EOF, 0, 0⟩ (0x30 :: [0x30, 0x37]) 0) [0x20]
            (0 + (([0x30, 0x37] : List Nat).length + 1))
            ([] ++ scanTrace (0x30 :: [0x30, 0x37]) [0x20] 0)) ∧
    (Parser.atInput none ⟨.EOF, 0, 0⟩ [0x78] 0 []).ParseNumber 8
      = some (.error (.parser ⟨.EOF, 0, 0⟩ "expected valid digit for number"),
          Parser.atInput none ⟨.EOF, 0, 0⟩ [0x78] 0 []) :=
  ⟨by decide,
   (C36_number_value 0x30 [0x30, 0x37] [0x20] 8 none ⟨.EOF, 0, 0⟩ 0 [] (by decide) (by decide)
      (by decide) (by decide)).1,
   (C36_number_value 0x30 [0x30, 0x37] [0x20] 8 none ⟨.EOF, 0, 0⟩ 0 [] (by decide) (by decide)
      (by decide) (by decide)).2.2 [0x78] (by decide)⟩

end rfcparser

/-! ## Requirements of the search operators -/

namespace state

/-- What a successful run of the loop of `buildSearchOpListWithKeys` returns: the
results of the keys, merged into the result it started from. -/
theorem buildSearchOpListWithKeys_inv (env : Env) (ks : List SearchKey) :
    ∀ (opResult : buildSearchOpResult) (ops : List searchOp) (r : buildSearchOpResult),
      buildSearchOpListWithKeys.loop env ks opResult ops = .ok r →
      ∃ rs, List.Forall₂ (fun k x => buildSearchOp env k = .ok x) ks rs ∧
        r.op = listOp (ops ++ rs.map (fun x => x.op)) true ∧
        r.needsLiteral = (opResult.needsLiteral || rs.any (fun x => x.needsLiteral)) ∧
        r.needsMessage = (opResult.needsMessage || rs.any (fun x => x.needsMessage)) ∧
        r.needsHeader = (opResult.needsHeader || rs.any (fun x => x.needsHeader)) := by
  induction ks with
  | nil =>
    intro opResult ops r h
    rw [buildSearchOpListWithKeys_nil] at h
    injection h with h
    subst h
    exact ⟨[], List.Forall₂.nil, by simp, by simp, by simp, by simp⟩
  | cons k rest ih =>
    intro opResult ops r h
    rw [buildSearchOpListWithKeys_cons] at h
    cases hk : buildSearchOp env k with
    | error e => rw [hk] at h; simp at h
    | ok x =>
      rw [hk] at h
      obtain ⟨rs, hrs, h1, h2, h3, h4⟩ := ih _ _ r h
      refine ⟨x :: rs, List.Forall₂.cons hk hrs, ?_, ?_, ?_, ?_⟩
      · rw [h1]; simp
      · rw [h2]; simp [buildSearchOpResult.merge, Bool.or_assoc]
      · rw [h3]; simp [buildSearchOpResult.merge, Bool.or_assoc]
      · rw [h4]; simp [buildSearchOpResult.merge, Bool.or_assoc]

theorem built_of_forall₂ {env : Env} {ks : List SearchKey} {rs : List buildSearchOpResult}
    (h : List.Forall₂ (fun k x => buildSearchOp env k = .ok x) ks rs) :
    ∀ x ∈ rs, ∃ k, k ∈ ks ∧ buildSearchOp env k = .ok x := by
  induction h with
  | nil => intro x hx; simp at hx
  | cons hk _ ih =>
    intro x hx
    rcases List.mem_cons.mp hx with rfl | hx
    · exact ⟨_, by simp, hk⟩
    · obtain ⟨k, hk1, hk2⟩ := ih x hx
      exact ⟨k, by simp [hk1], hk2⟩

/-- Induction over the tree of search keys: a property that holds of the result
of every leaf key, and is kept by the results that `NOT`, `OR` and a list
make from the results of their keys, holds of every result of
`buildSearchOp`. -/
theorem buildSearchOp_induction (env : Env) (P : buildSearchOpResult → Prop)
    (hleaf : ∀ k r, k.isLeaf = true → buildSearchOp env k = .ok r → P r)
    (hnot : ∀ r0, P r0 → P ((newBuildSearchOpResult (notOp r0.op) []).merge r0))
    (hor : ∀ r1 r2, P r1 → P r2 →
      P (((newBuildSearchOpResult (orOp r1.op r2.op) []).merge r1).merge r2))
    (hlist : ∀ (rs : List buildSearchOpResult) (r : buildSearchOpResult), (∀ x ∈ rs, P x) →
      r.op = listOp (rs.map (fun x => x.op)) true →
      r.needsLiteral = rs.any (fun x => x.needsLiteral) →
      r.needsMessage = rs.any (fun x => x.needsMessage) →
      r.needsHeader = rs.any (fun x => x.needsHeader) → P r) :
    ∀ (n : Nat) (k : SearchKey) (r : buildSearchOpResult), sizeOf k < n →
      buildSearchOp env k = .ok r → P r := by
  intro n
  induction n with
  | zero => intro k r h; omega
  | succ n ih =>
    intro k r hn h
    cases k with
    | SearchKWNot k0 =>
      rw [buildSearchOp_not] at h
      cases h0 : buildSearchOp env k0 with
      | error e => rw [h0] at h; simp at h
      | ok r0 =>
        rw [h0] at h
        injection h with h
        subst h
        have hs : sizeOf k0 < n := by
          simp only [SearchKey.SearchKWNot.sizeOf_spec] at hn
          omega
        exact hnot r0 (ih k0 r0 hs h0)
    | SearchKWOr k1 k2 =>
      rw [buildSearchOp_or] at h
      cases h1 : buildSearchOp env k1 with
      | error e => rw [h1] at h; simp at h
      | ok r1 =>
        rw [h1] at h
        cases h2 : buildSearchOp env k2 with
        | error e => rw [h2] at h; simp at h
        | ok r2 =>
          rw [h2] at h
          injection h with h
          subst h
          have hs : sizeOf k1 < n ∧ sizeOf k2 < n := by
            simp only [SearchKey.SearchKWOr.sizeOf_spec] at hn
            omega
          exact hor r1 r2 (ih k1 r1 hs.1 h1) (ih k2 r2 hs.2 h2)
    | SearchKWList ks =>
      rw [buildSearchOp_list] at h
      obtain ⟨rs, hrs, h1, h2, h3, h4⟩ := buildSearchOpListWithKeys_inv env ks _ _ r h
      refine hlist rs r ?_ (by simpa using h1) (by simpa [newBuildSearchOpResult] using h2)
        (by simpa [newBuildSearchOpResult] using h3) (by simpa [newBuildSearchOpResult] using h4)
      intro x hx
      obtain ⟨k, hk, hkx⟩ := built_of_forall₂ hrs x hx
      have hs : sizeOf k < n := by
        have := List.sizeOf_lt_of_mem hk
        simp only [SearchKey.SearchKWList.sizeOf_spec] at hn
        omega
      exact ih k x hs hkx
    | _ => exact hleaf _ r (by rfl) h

end state

namespace state

/-- The requirements of the result of a leaf key are one of four: none, the
literal, the database row, or the header together with the literal. -/
theorem leaf_needs (env : Env) (k : SearchKey) (r : buildSearchOpResult)
    (hl : k.isLeaf = true) (h : buildSearchOp env k = .ok r) :
    (r.needsLiteral = false ∧ r.needsMessage = false ∧ r.needsHeader = false) ∨
    (r.needsLiteral = true ∧ r.needsMessage = false ∧ r.needsHeader = false) ∨
    (r.needsLiteral = false ∧ r.needsMessage = true ∧ r.needsHeader = false) ∨
    (r.needsLiteral = true ∧ r.needsMessage = false ∧ r.needsHeader = true) := by
  cases k <;> simp only [SearchKey.isLeaf, Bool.false_eq_true] at hl <;>
    rw [buildSearchOp] at h <;>
    try simp only [buildSearchOpAll, buildSearchOpAnswered, buildSearchOpBcc, buildSearchOpBefore,
      buildSearchOpBody, buildSearchOpCc, buildSearchOpDeleted, buildSearchOpDraft,
      buildSearchOpFlagged, buildSearchOpFrom, buildSearchOpHeader, buildSearchOpKeyword,
      buildSearchOpLarger, buildSearchOpNew, buildSearchOpOld, buildSearchOpOn,
      buildSearchOpRecent, buildSearchOpSeen, buildSearchOpSentBefore, buildSearchOpSentOn,
      buildSearchOpSentSince, buildSearchOpSince, buildSearchOpSmaller, buildSearchOpSubject,
      buildSearchOpText, buildSearchOpTo, buildSearchOpUID, buildSearchOpUnanswered,
      buildSearchOpUndeleted, buildSearchOpUndraft, buildSearchOpUnflagged,
      buildSearchOpUnkeyword, buildSearchOpUnseen, buildSearchOpSeqSet] at h
  all_goals
    first
    | (injection h with h
       subst h
       simp [newBuildSearchOpResult, searchOpResultOption.apply, needsHeader, needsLiteral,
         needsDBMessage])
    | (split at h
       · simp at h
       · injection h with h
         subst h
         simp [newBuildSearchOpResult, searchOpResultOption.apply, needsHeader, needsLiteral,
           needsDBMessage])
    | simp at h

end state

namespace state

/-- Every result of `buildSearchOp` that needs the header needs the literal. -/
theorem needsHeader_needsLiteral (env : Env) (k : SearchKey) (r : buildSearchOpResult)
    (h : buildSearchOp env k = .ok r) : r.needsHeader = true → r.needsLiteral = true := by
  refine buildSearchOp_induction env (fun r => r.needsHeader = true → r.needsLiteral = true)
    ?_ ?_ ?_ ?_ (sizeOf k + 1) k r (Nat.lt_succ_self _) h
  · intro k r hl h hh
    rcases leaf_needs env k r hl h with h1 | h1 | h1 | h1
    · rw [h1.2.2] at hh; simp at hh
    · exact h1.1
    · rw [h1.2.2] at hh; simp at hh
    · exact h1.1
  · intro r0 h0 hh
    simp only [buildSearchOpResult.merge, newBuildSearchOpResult, List.foldl_nil,
      Bool.false_or] at hh ⊢
    exact h0 hh
  · intro r1 r2 h1 h2 hh
    simp only [buildSearchOpResult.merge, newBuildSearchOpResult, List.foldl_nil,
      Bool.false_or, Bool.or_eq_true] at hh ⊢
    rcases hh with hh | hh
    · exact Or.inl (h1 hh)
    · exact Or.inr (h2 hh)
  · intro rs r hrs _ hl _ hh hr
    rw [hh] at hr
    rw [hl]
    obtain ⟨x, hx, hxh⟩ := List.any_eq_true.mp hr
    exact List.any_eq_true.mpr ⟨x, hx, hrs x hx hxh⟩

/-- C37: every result of `buildSearchOp` and of `buildSearchOpListWithKeys` that
has `needsHeader` set has `needsLiteral` set; and whenever `buildSearchData`
succeeds for such a result, the header it holds was parsed from the header
part of the literal that it fetched for the message. -/
theorem C37_header_needs_literal (env : Env) (f : Fetch) :
    (∀ k r, buildSearchOp env k = .ok r → r.needsHeader = true → r.needsLiteral = true) ∧
    (∀ ks r, buildSearchOpListWithKeys env ks = .ok r → r.needsHeader = true →
      r.needsLiteral = true) ∧
    (∀ k r msg data, buildSearchOp env k = .ok r → r.needsHeader = true →
      buildSearchData f r msg = .ok data →
      ∃ l, f.getLiteral msg.ID = .ok l ∧ data.literal = l ∧
        f.NewHeader (f.Split l) = .ok data.header) := by
  refine ⟨fun k r h => needsHeader_needsLiteral env k r h, ?_, ?_⟩
  · intro ks r h
    exact needsHeader_needsLiteral env (.SearchKWList ks) r (by rw [buildSearchOp_list]; exact h)
  · intro k r msg data h hh hd
    have hl := needsHeader_needsLiteral env k r h hh
    unfold buildSearchData at hd
    simp only [hl, hh, if_true] at hd
    split at hd
    · simp at hd
    · rename_i d1 hd1
      cases hg : f.getLiteral msg.ID with
      | error e =>
        rw [hg] at hd
        simp at hd
      | ok l =>
        rw [hg] at hd
        simp only at hd
        cases hn : f.NewHeader (f.Split l) with
        | error e =>
          rw [hn] at hd
          simp at hd
        | ok hdr =>
          rw [hn] at hd
          simp only [Except.ok.injEq] at hd
          subst hd
          exact ⟨l, rfl, rfl, hn⟩

/-- C37 (witness): the keys `OR (SUBJECT hi) SEEN` and `NOT (FROM a)`, and the
search data of `SUBJECT hi` for a message. -/
theorem C37_header_needs_literal_witness :
    (∃ r, buildSearchOp exampleEnv
        (.SearchKWOr (.SearchKWSubject (rfcparser.bytes "hi")) .SearchKWSeen) = .ok r ∧
      r.needsHeader = true ∧ r.needsLiteral = true) ∧
    (∃ r data, buildSearchOp exampleEnv (.SearchKWSubject (rfcparser.bytes "hi")) = .ok r ∧
      buildSearchData exampleFetch r (exampleData []).message = .ok data ∧
      data.literal = rfcparser.bytes "Subject: hi\r\n\r\nbody" ∧
      r.op data = .ok true) :=
  ⟨⟨((newBuildSearchOpResult
        (orOp (fun s => .ok (Contains (exampleEnv.ToLower (s.header (rfcparser.bytes "Subject")))
            (exampleEnv.ToLower (rfcparser.bytes "hi"))))
          (fun s => .ok (ContainsUnchecked s.message.flags FlagSeenLowerCase))) []).merge
        (newBuildSearchOpResult
          (fun s => .ok (Contains (exampleEnv.ToLower (s.header (rfcparser.bytes "Subject")))
            (exampleEnv.ToLower (rfcparser.bytes "hi")))) [needsHeader])).merge
        (newBuildSearchOpResult
          (fun s => .ok (ContainsUnchecked s.message.flags FlagSeenLowerCase)) []),
      rfl, rfl,
      (C37_header_needs_literal exampleEnv exampleFetch).1
        (.SearchKWOr (.SearchKWSubject (rfcparser.bytes "hi")) .SearchKWSeen) _ rfl rfl⟩,
   ⟨newBuildSearchOpResult
        (fun s => .ok (Contains (exampleEnv.ToLower (s.header (rfcparser.bytes "Subject")))
            (exampleEnv.ToLower (rfcparser.bytes "hi")))) [needsHeader],
      _, rfl, rfl, rfl, by decide⟩⟩

end state

namespace state

theorem listOp_congr (s1 s2 : searchData) :
    ∀ (ops : List searchOp) (result : Bool), (∀ v ∈ ops, v s1 = v s2) →
      listOp ops result s1 = listOp ops result s2 := by
  intro ops
  induction ops with
  | nil => intro result _; rfl
  | cons v rest ih =>
    intro result h
    have hv : v s1 = v s2 := h v (by simp)
    have hrest : ∀ x ∈ rest, x s1 = x s2 := fun x hx => h x (by simp [hx])
    simp only [listOp, hv]
    cases v s2 with
    | error e => rfl
    | ok b =>
      simp only
      split
      · rfl
      · exact ih _ hrest

theorem agreeOn_weaken {l m h l1 m1 h1 : Bool} {s1 s2 : searchData}
    (hl : l1 = true → l = true) (hm : m1 = true → m = true) (hh : h1 = true → h = true)
    (ha : agreeOn l m h s1 s2) : agreeOn l1 m1 h1 s1 s2 :=
  ⟨ha.1, fun x => ha.2.1 (hm x), fun x => ha.2.2.1 (hl x), fun x => ha.2.2.2 (hh x)⟩

/-- The operator of a leaf key reads, besides the snapshot message, only what
its requirements name. -/
theorem leaf_reads (env : Env) (k : SearchKey) (r : buildSearchOpResult)
    (hl : k.isLeaf = true) (h : buildSearchOp env k = .ok r) (s1 s2 : searchData)
    (ha : agreeOn r.needsLiteral r.needsMessage r.needsHeader s1 s2) : r.op s1 = r.op s2 := by
  obtain ⟨hm, hdb, hlit, hhdr⟩ := ha
  cases k <;> simp only [SearchKey.isLeaf, Bool.false_eq_true] at hl <;>
    rw [buildSearchOp] at h <;>
    try simp only [buildSearchOpAll, buildSearchOpAnswered, buildSearchOpBcc, buildSearchOpBefore,
      buildSearchOpBody, buildSearchOpCc, buildSearchOpDeleted, buildSearchOpDraft,
      buildSearchOpFlagged, buildSearchOpFrom, buildSearchOpHeader, buildSearchOpKeyword,
      buildSearchOpLarger, buildSearchOpNew, buildSearchOpOld, buildSearchOpOn,
      buildSearchOpRecent, buildSearchOpSeen, buildSearchOpSentBefore, buildSearchOpSentOn,
      buildSearchOpSentSince, buildSearchOpSince, buildSearchOpSmaller, buildSearchOpSubject,
      buildSearchOpText, buildSearchOpTo, buildSearchOpUID, buildSearchOpUnanswered,
      buildSearchOpUndeleted, buildSearchOpUndraft, buildSearchOpUnflagged,
      buildSearchOpUnkeyword, buildSearchOpUnseen, buildSearchOpSeqSet] at h
  all_goals
    first
    | (injection h with h
       subst h
       simp only [newBuildSearchOpResult, List.foldl, searchOpResultOption.apply, needsHeader,
         needsLiteral, needsDBMessage, Bool.false_eq_true, false_implies, true_implies]
         at hdb hlit hhdr ⊢
       try simp_all)
    | (split at h
       · simp at h
       · injection h with h
         subst h
         simp only [newBuildSearchOpResult, List.foldl, searchOpResultOption.apply, needsHeader,
           needsLiteral, needsDBMessage, Bool.false_eq_true, false_implies, true_implies]
           at hdb hlit hhdr ⊢
         try simp_all)
    | simp at h

end state

namespace state

/-- The operator of every result of `buildSearchOp` gives the same answer on two
values that agree on what the result requires. -/
theorem built_reads (env : Env) (k : SearchKey) (r : buildSearchOpResult)
    (h : buildSearchOp env k = .ok r) :
    ∀ s1 s2, agreeOn r.needsLiteral r.needsMessage r.needsHeader s1 s2 → r.op s1 = r.op s2 := by
  refine buildSearchOp_induction env
    (fun r => ∀ s1 s2, agreeOn r.needsLiteral r.needsMessage r.needsHeader s1 s2 →
      r.op s1 = r.op s2) ?_ ?_ ?_ ?_ (sizeOf k + 1) k r (Nat.lt_succ_self _) h
  · intro k r hl h s1 s2 ha
    exact leaf_reads env k r hl h s1 s2 ha
  · intro r0 h0 s1 s2 ha
    have h1 : r0.op s1 = r0.op s2 :=
      h0 s1 s2 (agreeOn_weaken (by simp [buildSearchOpResult.merge, newBuildSearchOpResult])
        (by simp [buildSearchOpResult.merge, newBuildSearchOpResult])
        (by simp [buildSearchOpResult.merge, newBuildSearchOpResult]) ha)
    show notOp r0.op s1 = notOp r0.op s2
    simp only [notOp, h1]
  · intro r1 r2 h1 h2 s1 s2 ha
    have e1 : r1.op s1 = r1.op s2 :=
      h1 s1 s2 (agreeOn_weaken
        (by simp only [buildSearchOpResult.merge, newBuildSearchOpResult, List.foldl_nil,
              Bool.false_or, Bool.or_eq_true]; exact fun x => Or.inl x)
        (by simp only [buildSearchOpResult.merge, newBuildSearchOpResult, List.foldl_nil,
              Bool.false_or, Bool.or_eq_true]; exact fun x => Or.inl x)
        (by simp only [buildSearchOpResult.merge, newBuildSearchOpResult, List.foldl_nil,
              Bool.false_or, Bool.or_eq_true]; exact fun x => Or.inl x) ha)
    have e2 : r2.op s1 = r2.op s2 :=
      h2 s1 s2 (agreeOn_weaken
        (by simp only [buildSearchOpResult.merge, newBuildSearchOpResult, List.foldl_nil,
              Bool.false_or, Bool.or_eq_true]; exact fun x => Or.inr x)
        (by simp only [buildSearchOpResult.merge, newBuildSearchOpResult, List.foldl_nil,
              Bool.false_or, Bool.or_eq_true]; exact fun x => Or.inr x)
        (by simp only [buildSearchOpResult.merge, newBuildSearchOpResult, List.foldl_nil,
              Bool.false_or, Bool.or_eq_true]; exact fun x => Or.inr x) ha)
    show orOp r1.op r2.op s1 = orOp r1.op r2.op s2
    simp only [orOp, e1, e2]
  · intro rs r hrs hop hl hm hh s1 s2 ha
    rw [hop]
    apply listOp_congr
    intro v hv
    obtain ⟨x, hx, rfl⟩ := List.mem_map.mp hv
    apply hrs x hx
    refine agreeOn_weaken ?_ ?_ ?_ ha
    · intro hx1; rw [hl]; exact List.any_eq_true.mpr ⟨x, hx, hx1⟩
    · intro hx1; rw [hm]; exact List.any_eq_true.mpr ⟨x, hx, hx1⟩
    · intro hx1; rw [hh]; exact List.any_eq_true.mpr ⟨x, hx, hx1⟩

/-- When fetching everything succeeds, fetching only what a result requires
succeeds too, and gives a value that agrees with the full one on what the result
requires, provided the result requires the literal whenever it requires the
header. -/
theorem buildSearchData_agrees (f : Fetch) (r : buildSearchOpResult) (msg : snapMsgWithSeq)
    (full : searchData) (hr : r.needsHeader = true → r.needsLiteral = true)
    (hfull : buildSearchData f
      { r with needsLiteral := true, needsMessage := true, needsHeader := true } msg = .ok full) :
    ∃ data, buildSearchData f r msg = .ok data ∧
      agreeOn r.needsLiteral r.needsMessage r.needsHeader data full := by
  unfold buildSearchData at hfull ⊢
  simp only [if_true] at hfull
  cases hg : f.GetMessageDateAndSize msg.ID with
  | error e => rw [hg] at hfull; simp at hfull
  | ok dbm =>
    rw [hg] at hfull
    simp only at hfull
    cases hl : f.getLiteral msg.ID with
    | error e => rw [hl] at hfull; simp at hfull
    | ok l =>
      rw [hl] at hfull
      simp only at hfull
      cases hn : f.NewHeader (f.Split l) with
      | error e => rw [hn] at hfull; simp at hfull
      | ok hdr =>
        rw [hn] at hfull
        simp only [Except.ok.injEq] at hfull
        subst hfull
        cases hM : r.needsMessage <;> cases hL : r.needsLiteral <;> cases hH : r.needsHeader <;>
          simp only [hL, hH] at hr <;>
          simp [agreeOn, emptyData, hn] <;> simp at hr

/-- C38: the operator of every result of `buildSearchOp` returns the same result
and the same error on every two values of `searchData` that agree on the
snapshot message and on each of `dbMessage`, `literal` and `header` that the
result requires; and whenever fetching everything for a message succeeds,
`applySearch`, which fetches only what the result requires, returns what the
operator returns on the fully fetched value. -/
theorem C38_requirements_cover_reads (env : Env) (f : Fetch) :
    (∀ k r, buildSearchOp env k = .ok r →
      ∀ s1 s2, agreeOn r.needsLiteral r.needsMessage r.needsHeader s1 s2 → r.op s1 = r.op s2) ∧
    (∀ k r msg full, buildSearchOp env k = .ok r →
      buildSearchData f
        { r with needsLiteral := true, needsMessage := true, needsHeader := true } msg
        = .ok full →
      applySearch f msg r = r.op full) := by
  refine ⟨fun k r h => built_reads env k r h, ?_⟩
  intro k r msg full h hfull
  obtain ⟨data, hd, ha⟩ :=
    buildSearchData_agrees f r msg full (needsHeader_needsLiteral env k r h) hfull
  unfold applySearch
  rw [hd]
  exact built_reads env k r h data full ha

/-- C38 (witness): the key `LARGER 50`, which requires the database row only, on
a message with and without its literal and header; and `applySearch` for it. -/
theorem C38_requirements_cover_reads_witness :
    ∃ r, buildSearchOp exampleEnv (.SearchKWLarger 50) = .ok r ∧
      r.needsLiteral = false ∧ r.needsMessage = true ∧ r.needsHeader = false ∧
      r.op (exampleData []) = r.op { message := (exampleData []).message,
                                     literal := rfcparser.bytes "x",
                                     dbMessage := (exampleData []).dbMessage,
                                     header := fun _ => rfcparser.bytes "y" } ∧
      applySearch exampleFetch (exampleData []).message r = .ok true :=
  ⟨_, rfl, rfl, rfl, rfl,
    (C38_requirements_cover_reads exampleEnv exampleFetch).1 (.SearchKWLarger 50) _ rfl _ _
      ⟨rfl, fun _ => rfl, fun h => absurd h (by decide), fun h => absurd h (by decide)⟩,
    by decide⟩

end state

namespace state

theorem listOp_true_cons (v : searchOp) (rest : List searchOp) (s : searchData) :
    (∀ e, v s = .error e → listOp (v :: rest) true s = .error e) ∧
    (v s = .ok false → listOp (v :: rest) true s = .ok false) ∧
    (v s = .ok true → listOp (v :: rest) true s = listOp rest true s) := by
  refine ⟨?_, ?_, ?_⟩
  · intro e h
    simp only [listOp, h]
  · intro h
    simp [listOp, h]
  · intro h
    simp [listOp, h]

theorem listOp_true_append (s : searchData) (rest : List searchOp) :
    ∀ pre : List searchOp, (∀ v ∈ pre, v s = .ok true) →
      listOp (pre ++ rest) true s = listOp rest true s := by
  intro pre
  induction pre with
  | nil => intro _; rfl
  | cons v pre ih =>
    intro h
    have hv : v s = .ok true := h v (by simp)
    rw [List.cons_append, (listOp_true_cons v (pre ++ rest) s).2.2 hv]
    exact ih (fun x hx => h x (by simp [hx]))

/-- C39: the operator that `buildSearchOp` gives for `OR` returns the error of
its left operand, else the error of its right operand, also when the left
operand is true, else the disjunction of the two results. The operator of a
key list whose keys before some key are all true returns false when that key
is false and the error of that key when it fails, whatever the later keys
return; it returns true when every key is true, and the operator of the
empty list returns true on every message. -/
theorem C39_or_and_list_evaluation (env : Env) :
    (∀ k1 k2 r1 r2, buildSearchOp env k1 = .ok r1 → buildSearchOp env k2 = .ok r2 →
      ∃ r, buildSearchOp env (.SearchKWOr k1 k2) = .ok r ∧ ∀ s,
        (∀ e, r1.op s = .error e → r.op s = .error e) ∧
        (∀ a e, r1.op s = .ok a → r2.op s = .error e → r.op s = .error e) ∧
        (∀ a b, r1.op s = .ok a → r2.op s = .ok b → r.op s = .ok (a || b))) ∧
    (∀ ks rs, List.Forall₂ (fun k x => buildSearchOp env k = .ok x) ks rs →
      ∃ r, buildSearchOpListWithKeys env ks = .ok r ∧
        buildSearchOp env (.SearchKWList ks) = .ok r ∧ ∀ s,
        (∀ pre x post, rs = pre ++ x :: post → (∀ y ∈ pre, y.op s = .ok true) →
          (x.op s = .ok false → r.op s = .ok false) ∧
          (∀ e, x.op s = .error e → r.op s = .error e)) ∧
        ((∀ y ∈ rs, y.op s = .ok true) → r.op s = .ok true)) ∧
    (∃ r, buildSearchOpListWithKeys env [] = .ok r ∧ ∀ s, r.op s = .ok true) := by
  refine ⟨?_, ?_, ?_⟩
  · intro k1 k2 r1 r2 h1 h2
    refine ⟨((newBuildSearchOpResult (orOp r1.op r2.op) []).merge r1).merge r2, ?_, ?_⟩
    · rw [buildSearchOp_or, h1, h2]
    · intro s
      refine ⟨?_, ?_, ?_⟩
      · intro e he
        show orOp r1.op r2.op s = .error e
        simp only [orOp, he]
      · intro a e ha he
        show orOp r1.op r2.op s = .error e
        simp only [orOp, ha, he]
      · intro a b ha hb
        show orOp r1.op r2.op s = .ok (a || b)
        simp only [orOp, ha, hb]
  · intro ks rs h
    obtain ⟨r, hr, hop, _⟩ :=
      buildSearchOpListWithKeys_needs env ks rs (newBuildSearchOpResult nilOp []) [] h
    refine ⟨r, hr, by rw [buildSearchOp_list]; exact hr, ?_⟩
    intro s
    rw [hop, List.nil_append]
    refine ⟨?_, ?_⟩
    · intro pre x post hrs hpre
      subst hrs
      have hp : ∀ v ∈ pre.map (fun x => x.op), v s = .ok true := by
        intro v hv
        obtain ⟨y, hy, rfl⟩ := List.mem_map.mp hv
        exact hpre y hy
      rw [List.map_append, List.map_cons, listOp_true_append s _ _ hp]
      exact ⟨(listOp_true_cons x.op _ s).2.1, (listOp_true_cons x.op _ s).1⟩
    · intro hall
      have hp : ∀ v ∈ rs.map (fun x => x.op), v s = .ok true := by
        intro v hv
        obtain ⟨y, hy, rfl⟩ := List.mem_map.mp hv
        exact hall y hy
      have := listOp_true_append s [] _ hp
      rw [List.append_nil] at this
      rw [this]
      rfl
  · exact ⟨_, rfl, fun _ => rfl⟩

/-- C39 (witness): on a message without flags and without a `Date` header,
`OR ALL (SENTBEFORE 1-Jan-2023)` fails though `ALL` is true, and the list
`SEEN (SENTBEFORE 1-Jan-2023)` is false without the error of its second
key. -/
theorem C39_or_and_list_evaluation_witness :
    (∃ r, buildSearchOp exampleEnv
        (.SearchKWOr .SearchKWAll (.SearchKWSentBefore (rfcparser.bytes "1-Jan-2023"))) = .ok r ∧
      r.op (emptyData (exampleData []).message) = .error "invalid date") ∧
    (∃ r, buildSearchOpListWithKeys exampleEnv
        [.SearchKWSeen, .SearchKWSentBefore (rfcparser.bytes "1-Jan-2023")] = .ok r ∧
      r.op (emptyData (exampleData []).message) = .ok false) := by
  obtain ⟨r, hr, hs⟩ := (C39_or_and_list_evaluation exampleEnv).1 .SearchKWAll
    (.SearchKWSentBefore (rfcparser.bytes "1-Jan-2023")) _ _ rfl rfl
  obtain ⟨r2, hr2, _, hs2⟩ := (C39_or_and_list_evaluation exampleEnv).2.1
    [.SearchKWSeen, .SearchKWSentBefore (rfcparser.bytes "1-Jan-2023")] [_, _]
    (List.Forall₂.cons rfl (List.Forall₂.cons rfl List.Forall₂.nil))
  refine ⟨⟨r, hr, ?_⟩, ⟨r2, hr2, ?_⟩⟩
  · exact (hs (emptyData (exampleData []).message)).2.1 true "invalid date" rfl (by decide)
  · exact ((hs2 (emptyData (exampleData []).message)).1 [] _ _ rfl
      (fun y hy => by simp at hy)).1 (by decide)

end state
